import Mathlib

/-!
# RV32I instruction-set simulator: memory and CPU step

A shallow embedding of `src/src/memory.cpp` (class `rv::Memory`) and
`src/cpu.cpp` (class `rv::CPU`), followed by theorems about them.

Conventions of the embedding

* `uint8_t` cells of the backing store are `Byte = Fin 256`, `uint32_t`
  members of the CPU (`pc_`, `regs_[i]`, `csr_[i]`) are `Word = Fin 2^32`,
  so that every value of the state types is a state the C++ objects can hold.
  All arithmetic is done on `Nat`/`Int` with an explicit reduction where the
  C++ type wraps.
* `std::size_t` is taken to be 64 bits wide (the sum in `check_addr` is
  reduced modulo `2^64`).
* A C++ member function that can throw returns, besides the exception (if
  any), the object as it is at the moment of the throw: nothing is rolled
  back by the embedding itself.
* The text written to `std::cout` when `trace_` is set and the text of the
  exception messages are not modelled; an exception is identified by the
  `throw` statement it comes from.
-/

namespace rv

/-! ## Machine integers -/

abbrev Byte := Fin 256
abbrev Word := Fin 4294967296

/-- Conversion to `uint8_t`. -/
def u8 (n : Nat) : Byte := ⟨n % 256, Nat.mod_lt _ (by decide)⟩

/-- Conversion to `uint32_t`. -/
def u32 (n : Nat) : Word := ⟨n % 4294967296, Nat.mod_lt _ (by decide)⟩

/-- Conversion `(int8_t)` of an unsigned value. -/
def i8 (n : Nat) : Int :=
  if n % 256 < 128 then ((n % 256 : Nat) : Int) else ((n % 256 : Nat) : Int) - 256

/-- Conversion `(int16_t)` of an unsigned value. -/
def i16 (n : Nat) : Int :=
  if n % 65536 < 32768 then ((n % 65536 : Nat) : Int) else ((n % 65536 : Nat) : Int) - 65536

/-- Conversion `(int32_t)` of an unsigned value. -/
def i32 (n : Nat) : Int :=
  if n % 4294967296 < 2147483648 then ((n % 4294967296 : Nat) : Int)
  else ((n % 4294967296 : Nat) : Int) - 4294967296

/-- Conversion `(uint32_t)` of a signed value, as a natural number below `2^32`. -/
def ofInt32 (i : Int) : Nat := (i % 4294967296).toNat

/-! ## Exceptions -/

/-- The `throw` statements of `memory.cpp` and `cpu.cpp`, one constructor each
(`out_of_range` is the `std::out_of_range` of `check_addr`; all others are
`std::runtime_error` and are named after their message). -/
inductive Exn where
  | out_of_range
  | Misaligned_load16
  | Misaligned_store16
  | Misaligned_load32
  | Misaligned_store32
  | EBREAK
  | ECALL
  | ILLEGAL_CSR
  | ILLEGAL_SLLI
  | ILLEGAL_SRLI_SRAI
  | ILLEGAL_ITYPE_ALU
  | UNALIGNED_LW
  | ILLEGAL_LOAD
  | UNALIGNED_SW
  | ILLEGAL_STORE
  | ILLEGAL_BRANCH
  | ILLEGAL_RTYPE
  | ILLEGAL
  deriving DecidableEq, Repr

/-- The error kinds of the specification (section 7). -/
inductive ErrorKind where
  | OutOfRange
  | Misaligned
  | IllegalInstruction
  | Breakpoint
  | EnvironmentCall
  deriving DecidableEq, Repr

/-- The specification's error kind of each exception of the source. -/
def Exn.kind : Exn → ErrorKind
  | .out_of_range => .OutOfRange
  | .Misaligned_load16 => .Misaligned
  | .Misaligned_store16 => .Misaligned
  | .Misaligned_load32 => .Misaligned
  | .Misaligned_store32 => .Misaligned
  | .UNALIGNED_LW => .Misaligned
  | .UNALIGNED_SW => .Misaligned
  | .EBREAK => .Breakpoint
  | .ECALL => .EnvironmentCall
  | .ILLEGAL_CSR => .IllegalInstruction
  | .ILLEGAL_SLLI => .IllegalInstruction
  | .ILLEGAL_SRLI_SRAI => .IllegalInstruction
  | .ILLEGAL_ITYPE_ALU => .IllegalInstruction
  | .ILLEGAL_LOAD => .IllegalInstruction
  | .ILLEGAL_STORE => .IllegalInstruction
  | .ILLEGAL_BRANCH => .IllegalInstruction
  | .ILLEGAL_RTYPE => .IllegalInstruction
  | .ILLEGAL => .IllegalInstruction

/-! ## Memory (`src/src/memory.cpp`) -/

/-- Class `rv::Memory`: the member `std::vector<uint8_t> mem_`. -/
structure Memory where
  mem_ : List Byte
  deriving DecidableEq

namespace Memory

/-- Constructor `Memory(size_bytes)`: `size_bytes` zero bytes. -/
def new (size_bytes : Nat) : Memory := ⟨List.replicate size_bytes 0⟩

/-- Member `size()`. -/
def size (m : Memory) : Nat := m.mem_.length

/-- Member `check_addr(addr, nbytes)`: throws `std::out_of_range` when
`static_cast<size_t>(addr) + nbytes > mem_.size()`; the sum is a `size_t`. -/
def check_addr (m : Memory) (addr nbytes : Nat) : Option Exn :=
  if (addr + nbytes) % 18446744073709551616 > m.mem_.length then some Exn.out_of_range
  else none

/-- The cell `mem_[a]` (read after `check_addr` has passed). -/
def cell (m : Memory) (a : Nat) : Nat := (m.mem_.getD a 0).val

/-- Member `load8(addr)`. -/
def load8 (m : Memory) (addr : Nat) : Except Exn Nat :=
  match m.check_addr addr 1 with
  | some e => .error e
  | none => .ok (m.cell addr)

/-- Member `store8(addr, value)`: the exception, if any, and the memory afterwards. -/
def store8 (m : Memory) (addr value : Nat) : Option Exn × Memory :=
  match m.check_addr addr 1 with
  | some e => (some e, m)
  | none => (none, ⟨m.mem_.set addr (u8 value)⟩)

/-- Member `load16(addr)`. -/
def load16 (m : Memory) (addr : Nat) : Except Exn Nat :=
  if addr &&& 0x1 ≠ 0 then .error Exn.Misaligned_load16
  else
    match m.check_addr addr 2 with
    | some e => .error e
    | none =>
      let b0 := m.cell (addr + 0)
      let b1 := m.cell (addr + 1)
      .ok ((b0 ||| (b1 <<< 8)) % 65536)

/-- Member `store16(addr, value)`: the exception, if any, and the memory afterwards. -/
def store16 (m : Memory) (addr value : Nat) : Option Exn × Memory :=
  if addr &&& 0x1 ≠ 0 then (some Exn.Misaligned_store16, m)
  else
    match m.check_addr addr 2 with
    | some e => (some e, m)
    | none =>
      let m1 : Memory := ⟨m.mem_.set (addr + 0) (u8 (value &&& 0xFF))⟩
      let m2 : Memory := ⟨m1.mem_.set (addr + 1) (u8 ((value >>> 8) &&& 0xFF))⟩
      (none, m2)

/-- Member `load32(addr)`. -/
def load32 (m : Memory) (addr : Nat) : Except Exn Nat :=
  if addr &&& 0x3 ≠ 0 then .error Exn.Misaligned_load32
  else
    match m.check_addr addr 4 with
    | some e => .error e
    | none =>
      let b0 := m.cell (addr + 0)
      let b1 := m.cell (addr + 1)
      let b2 := m.cell (addr + 2)
      let b3 := m.cell (addr + 3)
      .ok (b0 ||| (b1 <<< 8) ||| (b2 <<< 16) ||| (b3 <<< 24))

/-- Member `store32(addr, value)`: the exception, if any, and the memory afterwards. -/
def store32 (m : Memory) (addr value : Nat) : Option Exn × Memory :=
  if addr &&& 0x3 ≠ 0 then (some Exn.Misaligned_store32, m)
  else
    match m.check_addr addr 4 with
    | some e => (some e, m)
    | none =>
      let m1 : Memory := ⟨m.mem_.set (addr + 0) (u8 (value &&& 0xFF))⟩
      let m2 : Memory := ⟨m1.mem_.set (addr + 1) (u8 ((value >>> 8) &&& 0xFF))⟩
      let m3 : Memory := ⟨m2.mem_.set (addr + 2) (u8 ((value >>> 16) &&& 0xFF))⟩
      let m4 : Memory := ⟨m3.mem_.set (addr + 3) (u8 ((value >>> 24) &&& 0xFF))⟩
      (none, m4)

end Memory

/-! ## Instruction decoding (`src/cpu.cpp`, lines 24-51) -/

/-- Function `get_bits(x, hi, lo)`; every call in the source has
`hi - lo + 1 ≤ 12`, so `1u << (hi - lo + 1)` does not overflow. -/
def get_bits (x hi lo : Nat) : Nat :=
  (x >>> lo) &&& ((1 <<< (hi - lo + 1)) - 1)

/-- Function `sign_extend(x, bits)`: `m = 1u << (bits - 1)`, then
`(int32_t)((x ^ m) - m)` with the subtraction taken in `uint32_t`. -/
def sign_extend (x bits : Nat) : Int :=
  let m := (1 <<< (bits - 1)) % 4294967296
  i32 (((x ^^^ m) + 4294967296 - m) % 4294967296)

/-- Function `imm_b(inst)`. -/
def imm_b (inst : Nat) : Int :=
  let imm :=
    (get_bits inst 31 31 <<< 12) |||
    (get_bits inst 7 7 <<< 11) |||
    (get_bits inst 30 25 <<< 5) |||
    (get_bits inst 11 8 <<< 1)
  sign_extend imm 13

/-- Function `imm_j(inst)`. -/
def imm_j (inst : Nat) : Int :=
  let imm :=
    (get_bits inst 31 31 <<< 20) |||
    (get_bits inst 19 12 <<< 12) |||
    (get_bits inst 20 20 <<< 11) |||
    (get_bits inst 30 21 <<< 1)
  sign_extend imm 21

/-! ## CPU state (`src/cpu.hpp`) -/

/-- Class `rv::CPU`: the members `pc_`, `regs_`, `trace_` and `csr_`; the
member `Memory& mem_` is the `Memory` passed along with the CPU. -/
structure CPU where
  pc_ : Word
  regs_ : Fin 32 → Word
  trace_ : Bool
  csr_ : Fin 4096 → Word

/-- What a call of `step()` leaves behind: the exception it threw (`none` when
it returned normally), and the CPU and the memory as they are at that moment. -/
structure StepResult where
  exn : Option Exn
  cpu : CPU
  mem : Memory

/-- Field `rd = get_bits(inst, 11, 7)`, as an index of `regs_`. -/
def rd_field (inst : Nat) : Fin 32 :=
  ⟨get_bits inst 11 7,
    show (inst >>> 7) &&& ((1 <<< (11 - 7 + 1)) - 1) < 2 ^ 5 from
      Nat.and_lt_two_pow _ (by decide)⟩

/-- Field `rs1 = get_bits(inst, 19, 15)`, as an index of `regs_`. -/
def rs1_field (inst : Nat) : Fin 32 :=
  ⟨get_bits inst 19 15,
    show (inst >>> 15) &&& ((1 <<< (19 - 15 + 1)) - 1) < 2 ^ 5 from
      Nat.and_lt_two_pow _ (by decide)⟩

/-- Field `rs2 = get_bits(inst, 24, 20)`, as an index of `regs_`. -/
def rs2_field (inst : Nat) : Fin 32 :=
  ⟨get_bits inst 24 20,
    show (inst >>> 20) &&& ((1 <<< (24 - 20 + 1)) - 1) < 2 ^ 5 from
      Nat.and_lt_two_pow _ (by decide)⟩

/-- Bitwise complement `~x` of a `uint32_t`. -/
def not32 (x : Nat) : Nat := 4294967295 ^^^ (x % 4294967296)

namespace CPU

/-- Member `reset(start_pc)`: `pc_ = start_pc; regs_.fill(0); regs_[0] = 0;
csr_.fill(0);`. -/
def reset (c : CPU) (start_pc : Word) : CPU :=
  { c with
    pc_ := start_pc
    regs_ := Function.update (fun _ => 0) 0 0
    csr_ := fun _ => 0 }

/-- Constructor `CPU(mem)`: default member initialisers, then `reset(0)`. -/
def new : CPU :=
  reset { pc_ := 0, regs_ := fun _ => 0, trace_ := false, csr_ := fun _ => 0 } 0

/-- Member `reg(i)`. -/
def reg (c : CPU) (i : Fin 32) : Word := c.regs_ i

/-- Member `csr_read(addr)`: `csr_[addr & 0xFFFu]`. -/
def csr_read (c : CPU) (addr : Nat) : Word :=
  c.csr_ ⟨addr &&& 0xFFF, show addr &&& 0xFFF < 2 ^ 12 from Nat.and_lt_two_pow _ (by decide)⟩

/-- Modelled from the spec: the body of `CPU::csr_write(addr, value)`, which
`cpu.hpp` declares and `step()` calls but whose definition is not among the
source files. The CSR file is "pure storage" addressed by "a 12-bit CSR
address", so the value is stored at index `addr & 0xFFF`, as `csr_read` reads
it, and nothing else changes. -/
def csr_write (c : CPU) (addr : Nat) (value : Word) : CPU :=
  { c with
    csr_ := Function.update c.csr_
      ⟨addr &&& 0xFFF, show addr &&& 0xFFF < 2 ^ 12 from Nat.and_lt_two_pow _ (by decide)⟩
      value }

/-- The guarded write back `if (rd != 0) { regs_[rd] = val; ... }`. -/
def write_rd (c : CPU) (rd : Fin 32) (val : Word) : CPU :=
  if rd ≠ 0 then { c with regs_ := Function.update c.regs_ rd val } else c

/-- End of a step that did not throw (lines 493-494): `regs_[0] = 0;
pc_ = next_pc;`. -/
def commit (c : CPU) (m : Memory) (next_pc : Word) : StepResult :=
  ⟨none, { c with regs_ := Function.update c.regs_ 0 0, pc_ := next_pc }, m⟩

/-- Arm `opcode == 0x73 && funct3 != 0x0` of `step()` (lines 95-155): the CSR
instructions. The `switch (funct3)` yields `(newv, do_write)` or throws; it is
written as the chain of tests of its case labels, in the order of the source. -/
def step_csr (c : CPU) (m : Memory) (inst : Nat) (next_pc : Word) : StepResult :=
  let rd := rd_field inst
  let funct3 := get_bits inst 14 12
  let rs1 := rs1_field inst
  let csr_addr := get_bits inst 31 20
  let old : Word := c.csr_read csr_addr
  let imm_form : Bool := (funct3 &&& 0x4) != 0
  let src : Nat := if imm_form then rs1.val else (c.regs_ rs1).val
  let sw : Except Exn (Word × Bool) :=
    if funct3 = 1 then .ok (u32 src, true)
    else if funct3 = 2 then .ok (u32 (old.val ||| src), !(src == 0))
    else if funct3 = 3 then .ok (u32 (old.val &&& not32 src), !(src == 0))
    else if funct3 = 5 then .ok (u32 (src &&& 0x1F), true)
    else if funct3 = 6 then .ok (u32 (old.val ||| (src &&& 0x1F)), !((src &&& 0x1F) == 0))
    else if funct3 = 7 then .ok (u32 (old.val &&& not32 (src &&& 0x1F)), !((src &&& 0x1F) == 0))
    else .error Exn.ILLEGAL_CSR
  match sw with
  | .error e => ⟨some e, c, m⟩
  | .ok (newv, do_write) =>
    let c1 := c.write_rd rd old
    let c2 := if do_write then c1.csr_write csr_addr newv else c1
    commit c2 m next_pc

/-- Arm `opcode == 0x13` of `step()` (lines 164-236): the I-type ALU
instructions. The `switch (funct3)`, written as the chain of tests of its case labels,
yields `val` or throws. -/
def step_op_imm (c : CPU) (m : Memory) (inst : Nat) (next_pc : Word) : StepResult :=
  let rd := rd_field inst
  let funct3 := get_bits inst 14 12
  let rs1 := rs1_field inst
  let funct7 := get_bits inst 31 25
  let imm : Int := sign_extend (get_bits inst 31 20) 12
  let a : Nat := (c.regs_ rs1).val
  let sw : Except Exn Word :=
    if funct3 = 0 then .ok (u32 (a + ofInt32 imm))
    else if funct3 = 7 then .ok (u32 (a &&& ofInt32 imm))
    else if funct3 = 6 then .ok (u32 (a ||| ofInt32 imm))
    else if funct3 = 4 then .ok (u32 (a ^^^ ofInt32 imm))
    else if funct3 = 2 then .ok (if i32 a < imm then u32 1 else u32 0)
    else if funct3 = 3 then .ok (if a < ofInt32 imm then u32 1 else u32 0)
    else if funct3 = 1 then
      if funct7 ≠ 0x00 then .error Exn.ILLEGAL_SLLI
      else
        let shamt := get_bits inst 24 20 &&& 31
        .ok (u32 (a <<< shamt))
    else if funct3 = 5 then
      let shamt := get_bits inst 24 20 &&& 31
      if funct7 = 0x00 then .ok (u32 (a >>> shamt))
      else if funct7 = 0x20 then .ok (u32 (ofInt32 (i32 a >>> shamt)))
      else .error Exn.ILLEGAL_SRLI_SRAI
    else .error Exn.ILLEGAL_ITYPE_ALU
  match sw with
  | .error e => ⟨some e, c, m⟩
  | .ok val => commit (c.write_rd rd val) m next_pc

/-- Arm `opcode == 0x03` of `step()` (lines 238-286): the loads. The
`switch (funct3)`, written as the chain of tests of its case labels, yields `val` or throws (its own exceptions or those of `Memory`). -/
def step_load (c : CPU) (m : Memory) (inst : Nat) (next_pc : Word) : StepResult :=
  let rd := rd_field inst
  let funct3 := get_bits inst 14 12
  let rs1 := rs1_field inst
  let imm : Int := sign_extend (get_bits inst 31 20) 12
  let addr : Nat := ((c.regs_ rs1).val + ofInt32 imm) % 4294967296
  let sw : Except Exn Word :=
    if funct3 = 0 then (m.load8 addr).map (fun b => u32 (ofInt32 (i8 b)))
    else if funct3 = 1 then (m.load16 addr).map (fun h => u32 (ofInt32 (i16 h)))
    else if funct3 = 2 then
      if addr % 4 ≠ 0 then .error Exn.UNALIGNED_LW
      else (m.load32 addr).map (fun v => u32 v)
    else if funct3 = 4 then (m.load8 addr).map (fun b => u32 b)
    else if funct3 = 5 then (m.load16 addr).map (fun h => u32 h)
    else .error Exn.ILLEGAL_LOAD
  match sw with
  | .error e => ⟨some e, c, m⟩
  | .ok val => commit (c.write_rd rd val) m next_pc

/-- Arm `opcode == 0x23` of `step()` (lines 288-317): the stores. The
`switch (funct3)`, written as the chain of tests of its case labels, yields the exception thrown, if any, and the memory as the store left it. -/
def step_store (c : CPU) (m : Memory) (inst : Nat) (next_pc : Word) : StepResult :=
  let funct3 := get_bits inst 14 12
  let rs1 := rs1_field inst
  let rs2 := rs2_field inst
  let imm11_5 := get_bits inst 31 25
  let imm4_0 := get_bits inst 11 7
  let imm : Int := sign_extend ((imm11_5 <<< 5) ||| imm4_0) 12
  let addr : Nat := ((c.regs_ rs1).val + ofInt32 imm) % 4294967296
  let sw : Option Exn × Memory :=
    if funct3 = 0 then m.store8 addr ((c.regs_ rs2).val &&& 0xFF)
    else if funct3 = 1 then m.store16 addr ((c.regs_ rs2).val &&& 0xFFFF)
    else if funct3 = 2 then
      if addr % 4 ≠ 0 then (some Exn.UNALIGNED_SW, m)
      else m.store32 addr (c.regs_ rs2).val
    else (some Exn.ILLEGAL_STORE, m)
  match sw.1 with
  | some e => ⟨some e, c, sw.2⟩
  | none => commit c sw.2 next_pc

/-- Arm `opcode == 0x6F` of `step()` (lines 319-335): JAL. -/
def step_jal (c : CPU) (m : Memory) (inst : Nat) : StepResult :=
  let rd := rd_field inst
  let imm : Int := imm_j inst
  let ret : Word := u32 (c.pc_.val + 4)
  let target : Word := u32 (c.pc_.val + ofInt32 imm)
  commit (c.write_rd rd ret) m target

/-- Arm `opcode == 0x67 && funct3 == 0x0` of `step()` (lines 337-353): JALR. -/
def step_jalr (c : CPU) (m : Memory) (inst : Nat) : StepResult :=
  let rd := rd_field inst
  let rs1 := rs1_field inst
  let imm : Int := sign_extend (get_bits inst 31 20) 12
  let ret : Word := u32 (c.pc_.val + 4)
  let target : Word := u32 ((((c.regs_ rs1).val + ofInt32 imm) % 4294967296) &&& not32 1)
  commit (c.write_rd rd ret) m target

/-- Arm `opcode == 0x37` of `step()` (lines 355-366): LUI. -/
def step_lui (c : CPU) (m : Memory) (inst : Nat) (next_pc : Word) : StepResult :=
  let rd := rd_field inst
  let imm : Word := u32 (inst &&& 0xFFFFF000)
  commit (c.write_rd rd imm) m next_pc

/-- Arm `opcode == 0x17` of `step()` (lines 368-380): AUIPC. -/
def step_auipc (c : CPU) (m : Memory) (inst : Nat) (next_pc : Word) : StepResult :=
  let rd := rd_field inst
  let imm : Word := u32 (inst &&& 0xFFFFF000)
  let val : Word := u32 (c.pc_.val + imm.val)
  commit (c.write_rd rd val) m next_pc

/-- Arm `opcode == 0x63` of `step()` (lines 382-423): the branches. The
`switch (funct3)`, written as the chain of tests of its case labels, yields
`take` or throws. -/
def step_branch (c : CPU) (m : Memory) (inst : Nat) (next_pc : Word) : StepResult :=
  let funct3 := get_bits inst 14 12
  let rs1 := rs1_field inst
  let rs2 := rs2_field inst
  let off : Int := imm_b inst
  let x : Nat := (c.regs_ rs1).val
  let y : Nat := (c.regs_ rs2).val
  let sw : Except Exn Bool :=
    if funct3 = 0 then .ok (x == y)
    else if funct3 = 1 then .ok (x != y)
    else if funct3 = 4 then .ok (decide (i32 x < i32 y))
    else if funct3 = 5 then .ok (decide (i32 x ≥ i32 y))
    else if funct3 = 6 then .ok (decide (x < y))
    else if funct3 = 7 then .ok (decide (x ≥ y))
    else .error Exn.ILLEGAL_BRANCH
  match sw with
  | .error e => ⟨some e, c, m⟩
  | .ok take => commit c m (if take then u32 (c.pc_.val + ofInt32 off) else next_pc)

/-- Arm `opcode == 0x33` of `step()` (lines 424-482): the R-type ALU
instructions. The `switch (funct3)`, written as the chain of tests of its case labels,
yields `val` or throws. -/
def step_op (c : CPU) (m : Memory) (inst : Nat) (next_pc : Word) : StepResult :=
  let rd := rd_field inst
  let funct3 := get_bits inst 14 12
  let rs1 := rs1_field inst
  let rs2 := rs2_field inst
  let funct7 := get_bits inst 31 25
  let a : Nat := (c.regs_ rs1).val
  let b : Nat := (c.regs_ rs2).val
  let sw : Except Exn Word :=
    if funct3 = 0 then
      if funct7 = 0x00 then .ok (u32 (a + b))
      else if funct7 = 0x20 then .ok (u32 (a + 4294967296 - b))
      else .error Exn.ILLEGAL_RTYPE
    else if funct3 = 7 then if funct7 ≠ 0x00 then .error Exn.ILLEGAL_RTYPE else .ok (u32 (a &&& b))
    else if funct3 = 6 then if funct7 ≠ 0x00 then .error Exn.ILLEGAL_RTYPE else .ok (u32 (a ||| b))
    else if funct3 = 4 then if funct7 ≠ 0x00 then .error Exn.ILLEGAL_RTYPE else .ok (u32 (a ^^^ b))
    else if funct3 = 2 then
      if funct7 ≠ 0x00 then .error Exn.ILLEGAL_RTYPE
      else .ok (if i32 a < i32 b then u32 1 else u32 0)
    else if funct3 = 3 then
      if funct7 ≠ 0x00 then .error Exn.ILLEGAL_RTYPE
      else .ok (if a < b then u32 1 else u32 0)
    else if funct3 = 1 then if funct7 ≠ 0x00 then .error Exn.ILLEGAL_RTYPE else .ok (u32 (a <<< (b &&& 31)))
    else if funct3 = 5 then
      if funct7 = 0x00 then .ok (u32 (a >>> (b &&& 31)))
      else if funct7 = 0x20 then .ok (u32 (ofInt32 (i32 a >>> (b &&& 31))))
      else .error Exn.ILLEGAL_RTYPE
    else .error Exn.ILLEGAL_RTYPE
  match sw with
  | .error e => ⟨some e, c, m⟩
  | .ok val => commit (c.write_rd rd val) m next_pc

/-- Member `step()` (lines 53-494): fetch, decode, and the chain of
`if`/`else if` arms on the instruction word and its opcode. -/
def step (c : CPU) (m : Memory) : StepResult :=
  match m.load32 c.pc_.val with
  | .error e => ⟨some e, c, m⟩
  | .ok inst =>
    let opcode := get_bits inst 6 0
    let funct3 := get_bits inst 14 12
    let next_pc : Word := u32 (c.pc_.val + 4)
    if inst = 0x00100073 then ⟨some Exn.EBREAK, c, m⟩
    else if inst = 0x00000073 then ⟨some Exn.ECALL, c, m⟩
    else if opcode = 0x73 ∧ funct3 ≠ 0x0 then step_csr c m inst next_pc
    else if opcode = 0x0F then commit c m next_pc
    else if opcode = 0x13 then step_op_imm c m inst next_pc
    else if opcode = 0x03 then step_load c m inst next_pc
    else if opcode = 0x23 then step_store c m inst next_pc
    else if opcode = 0x6F then step_jal c m inst
    else if opcode = 0x67 ∧ funct3 = 0x0 then step_jalr c m inst
    else if opcode = 0x37 then step_lui c m inst next_pc
    else if opcode = 0x17 then step_auipc c m inst next_pc
    else if opcode = 0x63 then step_branch c m inst next_pc
    else if opcode = 0x33 then step_op c m inst next_pc
    else ⟨some Exn.ILLEGAL, c, m⟩

/-- The driver loop of `main.cpp` and of the tests, `try { while (true)
cpu.step(); } catch (...) {}`, cut off after `n` calls of `step()`: it stops at
the first call that throws and gives the result of the last call made. -/
def run : Nat → CPU → Memory → StepResult
  | 0, c, m => ⟨none, c, m⟩
  | n + 1, c, m =>
    match (c.step m).exn with
    | some _ => c.step m
    | none => run n (c.step m).cpu (c.step m).mem

/-- The CPU states of a run: those left by `reset(start_pc)` and by any
sequence of calls of `step()` after it, whether a call returns or throws, and
whatever the memory holds at each call. -/
inductive Reachable : CPU → Prop where
  | reset (c : CPU) (start_pc : Word) : Reachable (c.reset start_pc)
  | step (c : CPU) (m : Memory) : Reachable c → Reachable (c.step m).cpu

end CPU

/-! ## Definitions that follow the words of the specification -/

/-- The defined encodings, as the specification lists them: a word `w` with
`opcode = w[6:0]`, `funct3 = w[14:12]` and `funct7 = w[31:25]`. -/
def defined_encoding (w : Nat) : Prop :=
  let opcode := get_bits w 6 0
  let funct3 := get_bits w 14 12
  let funct7 := get_bits w 31 25
  w = 0x00000073 ∨ w = 0x00100073 ∨
  (opcode = 0x73 ∧ funct3 ∈ [1, 2, 3, 5, 6, 7]) ∨
  opcode = 0x0F ∨
  (opcode = 0x13 ∧ (funct3 ∈ [0, 2, 3, 4, 6, 7] ∨ (funct3 = 1 ∧ funct7 = 0x00) ∨
    (funct3 = 5 ∧ funct7 ∈ [0x00, 0x20]))) ∨
  (opcode = 0x03 ∧ funct3 ∈ [0, 1, 2, 4, 5]) ∨
  (opcode = 0x23 ∧ funct3 ∈ [0, 1, 2]) ∨
  opcode = 0x6F ∨
  (opcode = 0x67 ∧ funct3 = 0) ∨
  opcode = 0x37 ∨ opcode = 0x17 ∨
  (opcode = 0x63 ∧ funct3 ∈ [0, 1, 4, 5, 6, 7]) ∨
  (opcode = 0x33 ∧ ((funct3 ∈ [0, 5] ∧ funct7 ∈ [0x00, 0x20]) ∨
    (funct3 ∈ [1, 2, 3, 4, 6, 7] ∧ funct7 = 0x00)))

instance : DecidablePred defined_encoding := fun w => by
  unfold defined_encoding
  infer_instance

/-- The result of a step is an `IllegalInstruction` failure. -/
def StepResult.illegal (r : StepResult) : Prop :=
  ∃ e, r.exn = some e ∧ e.kind = ErrorKind.IllegalInstruction

/-- Outcome of a memory access of `N` bytes at address `a` on a memory of
capacity `cap`, as the specification states it: `Misaligned` when `a` is not a
multiple of `N`, whatever the capacity; otherwise success (`none`) exactly
when `a + N ≤ cap`, the sum taken in the natural numbers, and `OutOfRange`
when not. -/
def access_outcome (cap a N : Nat) : Option ErrorKind :=
  if a % N ≠ 0 then some ErrorKind.Misaligned
  else if a + N ≤ cap then none
  else some ErrorKind.OutOfRange

/-- The error kind a load ends with (`none` when it returns a value). -/
def load_outcome (r : Except Exn Nat) : Option ErrorKind :=
  match r with
  | .ok _ => none
  | .error e => some e.kind

/-- The error kind a store ends with (`none` when it returns). -/
def store_outcome (r : Option Exn × Memory) : Option ErrorKind :=
  r.1.map Exn.kind

/-- The bit field `w[hi:lo]` of a word, as a number. -/
def bits (w hi lo : Nat) : Nat := w / 2 ^ lo % 2 ^ (hi - lo + 1)

/-- The value of the `n`-bit two's-complement pattern `u`. -/
def twos_complement (n u : Nat) : Int :=
  if u < 2 ^ (n - 1) then (u : Int) else (u : Int) - ((2 ^ n : Nat) : Int)

/-- The B-type immediate as the specification states it: the 13-bit
two's-complement value with bit 12 = `w[31]`, bit 11 = `w[7]`, bits 10:5 =
`w[30:25]`, bits 4:1 = `w[11:8]` and bit 0 = 0. -/
def imm_b_spec (w : Nat) : Int :=
  twos_complement 13
    (bits w 31 31 * 2 ^ 12 + bits w 7 7 * 2 ^ 11 + bits w 30 25 * 2 ^ 5 + bits w 11 8 * 2 ^ 1)

/-- The J-type immediate as the specification states it: the 21-bit
two's-complement value with bit 20 = `w[31]`, bits 19:12 = `w[19:12]`, bit 11 =
`w[20]`, bits 10:1 = `w[30:21]` and bit 0 = 0. -/
def imm_j_spec (w : Nat) : Int :=
  twos_complement 21
    (bits w 31 31 * 2 ^ 20 + bits w 19 12 * 2 ^ 12 + bits w 20 20 * 2 ^ 11 +
      bits w 30 21 * 2 ^ 1)

/-- The register file after "`rd` (if `rd != 0`) receives `v`, no other
register changes". -/
def set_reg (regs : Fin 32 → Word) (rd : Fin 32) (v : Word) : Fin 32 → Word :=
  fun i => if i = rd ∧ rd ≠ 0 then v else regs i

/-- The 32-bit value `x` read as a signed (two's-complement) number. -/
def signed32 (x : Nat) : Int := twos_complement 32 x

/-- The sign-extended 12-bit immediate `sext12(w[31:20])` of a word. -/
def sext12 (w : Nat) : Int := twos_complement 12 (bits w 31 20)

/-- An integer reduced `mod 2^32`, as a 32-bit value. -/
def mod32 (i : Int) : Word :=
  ⟨(i % 4294967296).toNat, by omega⟩

/-- A 32-bit value with bit 0 cleared. -/
def clear_bit0 (x : Word) : Word :=
  ⟨x.val - x.val % 2, by have := x.isLt; omega⟩

/-- The branch condition of the specification on the 32-bit values `x` of
`rs1` and `y` of `rs2`: BEQ (0), BNE (1), BLT (4), BGE (5), BLTU (6), BGEU (7). -/
def branch_taken (funct3 x y : Nat) : Bool :=
  if funct3 = 0 then decide (x = y)
  else if funct3 = 1 then decide (x ≠ y)
  else if funct3 = 4 then decide (signed32 x < signed32 y)
  else if funct3 = 5 then decide (signed32 x ≥ signed32 y)
  else if funct3 = 6 then decide (x < y)
  else decide (x ≥ y)

/-! ## Example memories and programs, instruction words, and further definitions in the
words of the specification -/

/-- An 8-byte memory holding `sw x0, 100(x0)` at address 0. -/
def mem_sw_oob : Memory := ((Memory.new 8).store32 0 0x06002223).2

/-- An 8-byte memory holding `addi x0, x0, 5` at address 0. -/
def mem_addi_x0 : Memory := ((Memory.new 8).store32 0 0x00500013).2

/-- An 8-byte memory holding `beq x0, x0, 4` at address 0. -/
def mem_beq : Memory := ((Memory.new 8).store32 0 0x00000263).2

/-- An 8-byte memory holding `jalr x1, 5(x1)` at address 0. -/
def mem_jalr : Memory := ((Memory.new 8).store32 0 0x005080E7).2

/-- The CSR address field `A = w[31:20]` of a word, as an index of the CSR file. -/
def csr_index (w : Nat) : Fin 4096 :=
  ⟨bits w 31 20, show w / 2 ^ 20 % 2 ^ (31 - 20 + 1) < 4096 from Nat.mod_lt _ (by decide)⟩

/-- The source operand of a CSR instruction: the value of register `rs1` for
`funct3` 1, 2, 3 and the 5-bit `rs1` field itself, zero-extended, for `funct3`
5, 6, 7. -/
def csr_src (regs : Fin 32 → Word) (w : Nat) : Nat :=
  if get_bits w 14 12 ∈ [1, 2, 3] then (regs (rs1_field w)).val else (rs1_field w).val

/-- The value of the CSR after a CSR instruction: `src` (CSRRW/CSRRWI),
`old | src` (CSRRS/CSRRSI), `old & ~src` (CSRRC/CSRRCI), the complement taken
on 32 bits. -/
def csr_new (funct3 old src : Nat) : Nat :=
  if funct3 = 1 ∨ funct3 = 5 then src
  else if funct3 = 2 ∨ funct3 = 6 then old ||| src
  else old &&& (4294967295 - src)

/-- An 8-byte memory holding `csrrw x2, 0x305, x1` at address 0. -/
def mem_csrrw : Memory := ((Memory.new 8).store32 0 0x30509173).2

/-- A 16-byte memory holding the program of `test_csr_basic`: `addi x1,x0,0x55;
csrrw x2,0x305,x1; csrrs x3,0x305,x0; ebreak`. -/
def mem_csr_basic : Memory :=
  ((((Memory.new 16).store32 0 0x05500093).2.store32 4 0x30509173).2.store32 8
    0x305021F3).2.store32 12 0x00100073 |>.2

/-- The value a load instruction writes to `rd`, as the specification states
it, from the bytes of the memory at the effective address `E`: LB (0) the byte
`b` at `E` sign-extended from 8 bits, LBU (4) `b`, LH (1) the little-endian
halfword `h` at `E` sign-extended from 16 bits, LHU (5) `h`, LW (2) the
little-endian word at `E`. -/
def load_value (funct3 : Nat) (m : Memory) (E : Nat) : Nat :=
  let b := m.cell E
  let h := m.cell E + 256 * m.cell (E + 1)
  if funct3 = 0 then (if b < 0x80 then b else 0xFFFFFF00 ||| b)
  else if funct3 = 4 then b
  else if funct3 = 1 then (if h < 0x8000 then h else 0xFFFF0000 ||| h)
  else if funct3 = 5 then h
  else m.cell E + 256 * m.cell (E + 1) + 65536 * m.cell (E + 2) + 16777216 * m.cell (E + 3)

/-- The program of `test_lb_lbu_sb` in a memory of 1024 bytes: `addi x1,x0,100;
addi x2,x0,0xFF; sb x2,0(x1); lb x3,0(x1); lbu x4,0(x1); ebreak`. -/
def mem_lb_lbu_sb : Memory :=
  ((((((Memory.new 1024).store32 0 0x06400093).2.store32 4 0x0FF00113).2.store32 8
    0x00208023).2.store32 12 0x00008183).2.store32 16 0x0000C203).2.store32 20 0x00100073 |>.2

/-- An 8-byte memory holding `lb x3, 0(x0)` at address 0; its byte at 0 is `0x83`. -/
def mem_lb : Memory := ((Memory.new 8).store32 0 0x00000183).2

/-- The S-type immediate as the specification states it: the 12-bit
two's-complement value with bits 11:5 = `w[31:25]` and bits 4:0 = `w[11:7]`. -/
def imm_s_spec (w : Nat) : Int :=
  twos_complement 12 (bits w 31 25 * 2 ^ 5 + bits w 11 7)

/-- The effective address `(x + imm) mod 2^32` of a load or store whose base
register holds `x`. -/
def effective_address (x : Word) (imm : Int) : Nat := (mod32 ((x.val : Int) + imm)).val

/-- A 16-byte memory holding `addi x2,x0,42; sw x2,12(x0); lw x3,12(x0)`. -/
def mem_sw_lw : Memory :=
  (((Memory.new 16).store32 0 0x02A00113).2.store32 4 0x00202623).2.store32 8 0x00C02183 |>.2

/-- The I-type instruction word with the 12-bit field `imm12` in `w[31:20]`,
`rs1` in `w[19:15]`, `funct3` in `w[14:12]`, `rd` in `w[11:7]` and `opcode` in
`w[6:0]`. -/
def encode_i (imm12 rs1 funct3 rd opcode : Nat) : Nat :=
  imm12 * 2 ^ 20 + rs1 * 2 ^ 15 + funct3 * 2 ^ 12 + rd * 2 ^ 7 + opcode

/-- The word of `addi rd, rs1, imm`: opcode `0x13`, `funct3 = 0`, and the
12-bit two's-complement pattern of `imm` in `w[31:20]`. -/
def enc_addi (rd rs1 : Fin 32) (imm : Int) : Nat :=
  encode_i (imm % 4096).toNat rs1.val 0 rd.val 0x13

/-- The word of `add rd, rs1, rs2`: opcode `0x33`, `funct3 = 0`, `funct7 = 0`,
and `rs2` in `w[24:20]`. -/
def enc_add (rd rs1 rs2 : Fin 32) : Nat :=
  encode_i rs2.val rs1.val 0 rd.val 0x33

/-- The loop of the tests, `for (i...) mem.store32(base + i * 4, prog[i])`:
the words of a program stored one after the other from `base` on. -/
def load_program (m : Memory) (base : Nat) : List Nat → Memory
  | [] => m
  | w :: ws => load_program (m.store32 base w).2 (base + 4) ws

/-- The program of `test_addi_add`, `addi x1,x0,10; addi x2,x0,20;
add x3,x1,x2; ebreak`, stored in a memory of 16 bytes. -/
def mem_addi_add : Memory :=
  load_program (Memory.new 16) 0 [0x00A00093, 0x01400113, 0x002081B3, 0x00100073]

/-- The program of `test_lui_auipc`, `lui x1,0x12345; auipc x2,0x1; ebreak`,
stored in a memory of 16 bytes. -/
def mem_lui_auipc : Memory :=
  load_program (Memory.new 16) 0 [0x123450B7, 0x00001117, 0x00100073]

/-- The program of `test_fence_ecall`, `fence; ecall`, stored in a memory of
8 bytes. -/
def mem_fence_ecall : Memory := load_program (Memory.new 8) 0 [0x0000000F, 0x00000073]

/-- The program of `test_branch_bne_loop`, `addi x1,x0,0; addi x2,x0,5;
loop: addi x1,x1,1; bne x1,x2,loop; ebreak`, stored in a memory of 20 bytes. -/
def mem_bne_loop : Memory :=
  load_program (Memory.new 20) 0 [0x00000093, 0x00500113, 0x00108093, 0xFE209EE3, 0x00100073]

/-- An 8-byte memory holding `ebreak` at address 0 and `ecall` at address 4. -/
def mem_halts : Memory := load_program (Memory.new 8) 0 [0x00100073, 0x00000073]

/-- An 8-byte memory holding `jal x0, 2` (the word `0x0020006F`) at address 0. -/
def mem_jal2 : Memory := ((Memory.new 8).store32 0 0x0020006F).2

/-- The number of bytes a store writes: 1 for SB (`funct3 = 0`), 2 for SH
(`funct3 = 1`) and 4 for SW (`funct3 = 2`). -/
def store_width (funct3 : Nat) : Nat :=
  if funct3 = 0 then 1 else if funct3 = 1 then 2 else 4

/-- An 8-byte memory holding `sb x0, 5(x0)` (the word `0x000002A3`) at address 0. -/
def mem_sb : Memory := ((Memory.new 8).store32 0 0x000002A3).2

/-- The ALU operations of RV32I. -/
inductive AluOp where
  | ADD | SUB | AND | OR | XOR | SLT | SLTU | SLL | SRL | SRA
  deriving DecidableEq, Repr

/-- The RV32I reference result of an ALU operation on the 32-bit values `a`
and `b` with shift amount `s`: sum and difference `mod 2^32`, bitwise and, or,
xor, 1 or 0 by the signed or the unsigned comparison `a < b`, `a * 2^s mod 2^32`,
`floor(a / 2^s)` on the unsigned value, and `floor(signed(a) / 2^s)` as a
two's-complement 32-bit value. -/
def alu_ref : AluOp → Nat → Nat → Nat → Nat
  | .ADD, a, b, _ => (a + b) % 4294967296
  | .SUB, a, b, _ => (mod32 ((a : Int) - (b : Int))).val
  | .AND, a, b, _ => a &&& b
  | .OR, a, b, _ => a ||| b
  | .XOR, a, b, _ => a ^^^ b
  | .SLT, a, b, _ => if signed32 a < signed32 b then 1 else 0
  | .SLTU, a, b, _ => if a < b then 1 else 0
  | .SLL, a, _, s => (a * 2 ^ s) % 4294967296
  | .SRL, a, _, s => a / 2 ^ s
  | .SRA, a, _, s => (mod32 (Int.fdiv (signed32 a) (2 ^ s))).val

/-- The operation of an I-type ALU instruction (opcode `0x13`) in the RV32I
encoding: `funct3` selects ADDI (0), SLLI (1), SLTI (2), SLTIU (3), XORI (4),
SRLI/SRAI (5), ORI (6), ANDI (7); the shifts need `funct7 = 0x00`, or `0x20`
for SRAI. -/
def op_imm_decode (funct3 funct7 : Nat) : Option AluOp :=
  if funct3 = 0 then some .ADD
  else if funct3 = 1 then (if funct7 = 0x00 then some .SLL else none)
  else if funct3 = 2 then some .SLT
  else if funct3 = 3 then some .SLTU
  else if funct3 = 4 then some .XOR
  else if funct3 = 5 then
    (if funct7 = 0x00 then some .SRL else if funct7 = 0x20 then some .SRA else none)
  else if funct3 = 6 then some .OR
  else if funct3 = 7 then some .AND
  else none

/-- The operation of an R-type ALU instruction (opcode `0x33`) in the RV32I
encoding: with `funct7 = 0x00`, `funct3` selects ADD (0), SLL (1), SLT (2),
SLTU (3), XOR (4), SRL (5), OR (6), AND (7); with `funct7 = 0x20`, SUB (0) and
SRA (5). -/
def op_decode (funct3 funct7 : Nat) : Option AluOp :=
  if funct7 = 0x00 then
    (if funct3 = 0 then some .ADD
    else if funct3 = 1 then some .SLL
    else if funct3 = 2 then some .SLT
    else if funct3 = 3 then some .SLTU
    else if funct3 = 4 then some .XOR
    else if funct3 = 5 then some .SRL
    else if funct3 = 6 then some .OR
    else if funct3 = 7 then some .AND
    else none)
  else if funct7 = 0x20 then
    (if funct3 = 0 then some .SUB else if funct3 = 5 then some .SRA else none)
  else none

/-- A 16-byte memory holding `addi x1,x0,-8; srai x2,x1,1; sltiu x3,x1,-1; sub x4,x0,x1`. -/
def mem_alu : Memory :=
  load_program (Memory.new 16) 0 [0xFF800093, 0x4010D113, 0xFFF0B193, 0x40100233]

/-! ## Lemmas on the fields and on `Memory` -/

theorem get_bits_lt (x hi lo : Nat) : get_bits x hi lo < 2 ^ (hi - lo + 1) := by
  unfold get_bits
  apply Nat.and_lt_two_pow
  rw [Nat.one_shiftLeft]
  exact Nat.sub_lt (Nat.two_pow_pos _) Nat.one_pos

namespace Memory

theorem store8_fail (m : Memory) (a v : Nat) (h : (m.store8 a v).1 ≠ none) :
    (m.store8 a v).2 = m := by
  revert h; unfold store8; split <;> simp

theorem store16_fail (m : Memory) (a v : Nat) (h : (m.store16 a v).1 ≠ none) :
    (m.store16 a v).2 = m := by
  revert h; unfold store16; split <;> [simp; (split <;> simp)]

theorem store32_fail (m : Memory) (a v : Nat) (h : (m.store32 a v).1 ≠ none) :
    (m.store32 a v).2 = m := by
  revert h; unfold store32; split <;> [simp; (split <;> simp)]

theorem check_addr_kind (m : Memory) (a n : Nat) (e : Exn) (h : m.check_addr a n = some e) :
    e = Exn.out_of_range := by
  revert h; unfold check_addr; split <;> simp
  exact fun h => h.symm

theorem load8_error (m : Memory) (a : Nat) (e : Exn) (h : m.load8 a = .error e) :
    e = Exn.out_of_range := by
  revert h; unfold load8
  split
  · rename_i e1 h1
    intro h
    rw [← Except.error.inj h]
    exact check_addr_kind m a 1 e1 h1
  · intro h; simp at h

theorem load16_error (m : Memory) (a : Nat) (e : Exn) (h : m.load16 a = .error e) :
    e = Exn.Misaligned_load16 ∨ e = Exn.out_of_range := by
  revert h; unfold load16
  split
  · intro h; exact Or.inl (Except.error.inj h).symm
  · split
    · rename_i e1 h1
      intro h
      rw [← Except.error.inj h]
      exact Or.inr (check_addr_kind m a 2 e1 h1)
    · intro h; simp at h

theorem load32_error (m : Memory) (a : Nat) (e : Exn) (h : m.load32 a = .error e) :
    e = Exn.Misaligned_load32 ∨ e = Exn.out_of_range := by
  revert h; unfold load32
  split
  · intro h; exact Or.inl (Except.error.inj h).symm
  · split
    · rename_i e1 h1
      intro h
      rw [← Except.error.inj h]
      exact Or.inr (check_addr_kind m a 4 e1 h1)
    · intro h; simp at h

theorem store8_error (m : Memory) (a v : Nat) (e : Exn) (h : (m.store8 a v).1 = some e) :
    e = Exn.out_of_range := by
  revert h; unfold store8
  split
  · rename_i e1 h1
    simp only [Option.some.injEq]
    intro he; rw [← he]; exact check_addr_kind m a 1 e1 h1
  · simp

theorem store16_error (m : Memory) (a v : Nat) (e : Exn) (h : (m.store16 a v).1 = some e) :
    e = Exn.Misaligned_store16 ∨ e = Exn.out_of_range := by
  revert h; unfold store16
  split
  · simp only [Option.some.injEq]
    intro he; exact Or.inl he.symm
  · split
    · rename_i e1 h1
      simp only [Option.some.injEq]
      intro he; rw [← he]; exact Or.inr (check_addr_kind m a 2 e1 h1)
    · simp

theorem store32_error (m : Memory) (a v : Nat) (e : Exn) (h : (m.store32 a v).1 = some e) :
    e = Exn.Misaligned_store32 ∨ e = Exn.out_of_range := by
  revert h; unfold store32
  split
  · simp only [Option.some.injEq]
    intro he; exact Or.inl he.symm
  · split
    · rename_i e1 h1
      simp only [Option.some.injEq]
      intro he; rw [← he]; exact Or.inr (check_addr_kind m a 4 e1 h1)
    · simp

end Memory

/-! ## Case analysis on `step()` -/

namespace CPU

/-- Case analysis on `step()`: a property holds of the result of `step` as soon
as it holds of the result of each arm under the conditions that select it. -/
theorem step_cases (P : StepResult → Prop) (c : CPU) (m : Memory)
    (h_fetch : ∀ e, m.load32 c.pc_.val = .error e → P ⟨some e, c, m⟩)
    (h_ebreak : ∀ inst, m.load32 c.pc_.val = .ok inst → inst = 0x00100073 →
      P ⟨some Exn.EBREAK, c, m⟩)
    (h_ecall : ∀ inst, m.load32 c.pc_.val = .ok inst → inst = 0x00000073 →
      P ⟨some Exn.ECALL, c, m⟩)
    (h_csr : ∀ inst, m.load32 c.pc_.val = .ok inst →
      get_bits inst 6 0 = 0x73 → get_bits inst 14 12 ≠ 0 →
      P (step_csr c m inst (u32 (c.pc_.val + 4))))
    (h_fence : ∀ inst, m.load32 c.pc_.val = .ok inst → get_bits inst 6 0 = 0x0F →
      P (commit c m (u32 (c.pc_.val + 4))))
    (h_op_imm : ∀ inst, m.load32 c.pc_.val = .ok inst → get_bits inst 6 0 = 0x13 →
      P (step_op_imm c m inst (u32 (c.pc_.val + 4))))
    (h_load : ∀ inst, m.load32 c.pc_.val = .ok inst → get_bits inst 6 0 = 0x03 →
      P (step_load c m inst (u32 (c.pc_.val + 4))))
    (h_store : ∀ inst, m.load32 c.pc_.val = .ok inst → get_bits inst 6 0 = 0x23 →
      P (step_store c m inst (u32 (c.pc_.val + 4))))
    (h_jal : ∀ inst, m.load32 c.pc_.val = .ok inst → get_bits inst 6 0 = 0x6F →
      P (step_jal c m inst))
    (h_jalr : ∀ inst, m.load32 c.pc_.val = .ok inst →
      get_bits inst 6 0 = 0x67 → get_bits inst 14 12 = 0 →
      P (step_jalr c m inst))
    (h_lui : ∀ inst, m.load32 c.pc_.val = .ok inst → get_bits inst 6 0 = 0x37 →
      P (step_lui c m inst (u32 (c.pc_.val + 4))))
    (h_auipc : ∀ inst, m.load32 c.pc_.val = .ok inst → get_bits inst 6 0 = 0x17 →
      P (step_auipc c m inst (u32 (c.pc_.val + 4))))
    (h_branch : ∀ inst, m.load32 c.pc_.val = .ok inst → get_bits inst 6 0 = 0x63 →
      P (step_branch c m inst (u32 (c.pc_.val + 4))))
    (h_op : ∀ inst, m.load32 c.pc_.val = .ok inst → get_bits inst 6 0 = 0x33 →
      P (step_op c m inst (u32 (c.pc_.val + 4))))
    (h_illegal : ∀ inst, m.load32 c.pc_.val = .ok inst →
      inst ≠ 0x00100073 → inst ≠ 0x00000073 →
      ¬ (get_bits inst 6 0 = 0x73 ∧ get_bits inst 14 12 ≠ 0) →
      get_bits inst 6 0 ≠ 0x0F → get_bits inst 6 0 ≠ 0x13 → get_bits inst 6 0 ≠ 0x03 →
      get_bits inst 6 0 ≠ 0x23 → get_bits inst 6 0 ≠ 0x6F →
      ¬ (get_bits inst 6 0 = 0x67 ∧ get_bits inst 14 12 = 0) →
      get_bits inst 6 0 ≠ 0x37 → get_bits inst 6 0 ≠ 0x17 → get_bits inst 6 0 ≠ 0x63 →
      get_bits inst 6 0 ≠ 0x33 →
      P ⟨some Exn.ILLEGAL, c, m⟩) :
    P (c.step m) := by
  unfold step
  cases hf : m.load32 c.pc_.val with
  | error e => exact h_fetch e hf
  | ok inst =>
    dsimp only
    by_cases h1 : inst = 0x00100073
    · rw [if_pos h1]; exact h_ebreak inst hf h1
    rw [if_neg h1]
    by_cases h2 : inst = 0x00000073
    · rw [if_pos h2]; exact h_ecall inst hf h2
    rw [if_neg h2]
    by_cases h3 : get_bits inst 6 0 = 0x73 ∧ get_bits inst 14 12 ≠ 0x0
    · rw [if_pos h3]; exact h_csr inst hf h3.1 h3.2
    rw [if_neg h3]
    by_cases h4 : get_bits inst 6 0 = 0x0F
    · rw [if_pos h4]; exact h_fence inst hf h4
    rw [if_neg h4]
    by_cases h5 : get_bits inst 6 0 = 0x13
    · rw [if_pos h5]; exact h_op_imm inst hf h5
    rw [if_neg h5]
    by_cases h6 : get_bits inst 6 0 = 0x03
    · rw [if_pos h6]; exact h_load inst hf h6
    rw [if_neg h6]
    by_cases h7 : get_bits inst 6 0 = 0x23
    · rw [if_pos h7]; exact h_store inst hf h7
    rw [if_neg h7]
    by_cases h8 : get_bits inst 6 0 = 0x6F
    · rw [if_pos h8]; exact h_jal inst hf h8
    rw [if_neg h8]
    by_cases h9 : get_bits inst 6 0 = 0x67 ∧ get_bits inst 14 12 = 0x0
    · rw [if_pos h9]; exact h_jalr inst hf h9.1 h9.2
    rw [if_neg h9]
    by_cases h10 : get_bits inst 6 0 = 0x37
    · rw [if_pos h10]; exact h_lui inst hf h10
    rw [if_neg h10]
    by_cases h11 : get_bits inst 6 0 = 0x17
    · rw [if_pos h11]; exact h_auipc inst hf h11
    rw [if_neg h11]
    by_cases h12 : get_bits inst 6 0 = 0x63
    · rw [if_pos h12]; exact h_branch inst hf h12
    rw [if_neg h12]
    by_cases h13 : get_bits inst 6 0 = 0x33
    · rw [if_pos h13]; exact h_op inst hf h13
    rw [if_neg h13]
    exact h_illegal inst hf h1 h2 h3 h4 h5 h6 h7 h8 h9 h10 h11 h12 h13

/-! ## A step that throws leaves the state as it was -/

theorem step_csr_fail (c : CPU) (m : Memory) (inst : Nat) (npc : Word)
    (h : (step_csr c m inst npc).exn ≠ none) :
    (step_csr c m inst npc).cpu = c ∧ (step_csr c m inst npc).mem = m := by
  revert h; unfold step_csr; simp only []
  split
  · simp
  · intro h; simp only [commit] at h; exact absurd rfl h

theorem step_op_imm_fail (c : CPU) (m : Memory) (inst : Nat) (npc : Word)
    (h : (step_op_imm c m inst npc).exn ≠ none) :
    (step_op_imm c m inst npc).cpu = c ∧ (step_op_imm c m inst npc).mem = m := by
  revert h; unfold step_op_imm; simp only []
  split
  · simp
  · intro h; simp only [commit] at h; exact absurd rfl h

theorem step_load_fail (c : CPU) (m : Memory) (inst : Nat) (npc : Word)
    (h : (step_load c m inst npc).exn ≠ none) :
    (step_load c m inst npc).cpu = c ∧ (step_load c m inst npc).mem = m := by
  revert h; unfold step_load; simp only []
  split
  · simp
  · intro h; simp only [commit] at h; exact absurd rfl h

theorem step_branch_fail (c : CPU) (m : Memory) (inst : Nat) (npc : Word)
    (h : (step_branch c m inst npc).exn ≠ none) :
    (step_branch c m inst npc).cpu = c ∧ (step_branch c m inst npc).mem = m := by
  revert h; unfold step_branch; simp only []
  split
  · simp
  · intro h; simp only [commit] at h; exact absurd rfl h

theorem step_op_fail (c : CPU) (m : Memory) (inst : Nat) (npc : Word)
    (h : (step_op c m inst npc).exn ≠ none) :
    (step_op c m inst npc).cpu = c ∧ (step_op c m inst npc).mem = m := by
  revert h; unfold step_op; simp only []
  split
  · simp
  · intro h; simp only [commit] at h; exact absurd rfl h

theorem step_store_fail (c : CPU) (m : Memory) (inst : Nat) (npc : Word)
    (h : (step_store c m inst npc).exn ≠ none) :
    (step_store c m inst npc).cpu = c ∧ (step_store c m inst npc).mem = m := by
  revert h; unfold step_store; simp only []
  split
  · rename_i e he
    intro _
    refine ⟨rfl, ?_⟩
    show Prod.snd _ = m
    revert he
    split_ifs
    · intro he; apply Memory.store8_fail; rw [he]; simp
    · intro he; apply Memory.store16_fail; rw [he]; simp
    · intro _; dsimp only
    · intro he; apply Memory.store32_fail; rw [he]; simp
    · intro _; dsimp only
  · intro h; simp only [commit] at h; exact absurd rfl h

theorem commit_exn (c : CPU) (m : Memory) (npc : Word) : (commit c m npc).exn = none := by
  simp only [commit]

/-- A call of `step()` that throws leaves the CPU and the memory as they were. -/
theorem step_fail (c : CPU) (m : Memory) (h : (c.step m).exn ≠ none) :
    (c.step m).cpu = c ∧ (c.step m).mem = m := by
  revert h
  refine step_cases (fun r => r.exn ≠ none → r.cpu = c ∧ r.mem = m) c m
    ?_ ?_ ?_ ?_ ?_ ?_ ?_ ?_ ?_ ?_ ?_ ?_ ?_ ?_ ?_
  · intro e _ _; exact ⟨rfl, rfl⟩
  · intro inst _ _ _; exact ⟨rfl, rfl⟩
  · intro inst _ _ _; exact ⟨rfl, rfl⟩
  · intro inst _ _ _; exact step_csr_fail _ _ _ _
  · intro inst _ _ h; exact absurd (commit_exn _ _ _) h
  · intro inst _ _; exact step_op_imm_fail _ _ _ _
  · intro inst _ _; exact step_load_fail _ _ _ _
  · intro inst _ _; exact step_store_fail _ _ _ _
  · intro inst _ _ h; exact absurd (commit_exn _ _ _) h
  · intro inst _ _ _ h; exact absurd (commit_exn _ _ _) h
  · intro inst _ _ h; exact absurd (commit_exn _ _ _) h
  · intro inst _ _ h; exact absurd (commit_exn _ _ _) h
  · intro inst _ _; exact step_branch_fail _ _ _ _
  · intro inst _ _; exact step_op_fail _ _ _ _
  · intro inst _ _ _ _ _ _ _ _ _ _ _ _ _ _ _; exact ⟨rfl, rfl⟩

/-! ## The registers after a step that returns -/

theorem write_rd_self (c : CPU) (rd : Fin 32) :
    (c.write_rd rd (c.regs_ rd)).regs_ = c.regs_ := by
  unfold write_rd
  split
  · simp only [Function.update_eq_self]
  · rfl

theorem write_rd_zero (c : CPU) (v : Word) : c.write_rd 0 v = c := by
  unfold write_rd
  simp

theorem commit_regs (c : CPU) (m : Memory) (npc : Word) :
    (commit c m npc).cpu.regs_ = Function.update c.regs_ 0 0 := by
  simp only [commit]

theorem step_csr_regs (c : CPU) (m : Memory) (inst : Nat) (npc : Word)
    (h : (step_csr c m inst npc).exn = none) :
    ∃ v, (step_csr c m inst npc).cpu.regs_ =
      Function.update (c.write_rd (rd_field inst) v).regs_ 0 0 := by
  revert h; unfold step_csr; simp only []
  split
  · intro h; simp at h
  · intro _
    refine ⟨c.csr_read (get_bits inst 31 20), ?_⟩
    rw [commit_regs]
    split <;> simp only [csr_write]

theorem step_op_imm_regs (c : CPU) (m : Memory) (inst : Nat) (npc : Word)
    (h : (step_op_imm c m inst npc).exn = none) :
    ∃ v, (step_op_imm c m inst npc).cpu.regs_ =
      Function.update (c.write_rd (rd_field inst) v).regs_ 0 0 := by
  revert h; unfold step_op_imm; simp only []
  split
  · intro h; simp at h
  · intro _; exact ⟨_, commit_regs _ _ _⟩

theorem step_load_regs (c : CPU) (m : Memory) (inst : Nat) (npc : Word)
    (h : (step_load c m inst npc).exn = none) :
    ∃ v, (step_load c m inst npc).cpu.regs_ =
      Function.update (c.write_rd (rd_field inst) v).regs_ 0 0 := by
  revert h; unfold step_load; simp only []
  split
  · intro h; simp at h
  · intro _; exact ⟨_, commit_regs _ _ _⟩

theorem step_op_regs (c : CPU) (m : Memory) (inst : Nat) (npc : Word)
    (h : (step_op c m inst npc).exn = none) :
    ∃ v, (step_op c m inst npc).cpu.regs_ =
      Function.update (c.write_rd (rd_field inst) v).regs_ 0 0 := by
  revert h; unfold step_op; simp only []
  split
  · intro h; simp at h
  · intro _; exact ⟨_, commit_regs _ _ _⟩

theorem step_store_regs (c : CPU) (m : Memory) (inst : Nat) (npc : Word)
    (h : (step_store c m inst npc).exn = none) :
    (step_store c m inst npc).cpu.regs_ = Function.update c.regs_ 0 0 := by
  revert h; unfold step_store; simp only []
  split
  · intro h; simp at h
  · intro _; exact commit_regs _ _ _

theorem step_branch_regs (c : CPU) (m : Memory) (inst : Nat) (npc : Word)
    (h : (step_branch c m inst npc).exn = none) :
    (step_branch c m inst npc).cpu.regs_ = Function.update c.regs_ 0 0 := by
  revert h; unfold step_branch; simp only []
  split
  · intro h; simp at h
  · intro _; exact commit_regs _ _ _

/-- The registers after a call of `step()` that returns: `regs_[rd]` may have
been assigned, then `regs_[0] = 0` was executed. -/
theorem step_regs (c : CPU) (m : Memory) (inst : Nat)
    (hf : m.load32 c.pc_.val = .ok inst) (h : (c.step m).exn = none) :
    ∃ v, (c.step m).cpu.regs_ = Function.update (c.write_rd (rd_field inst) v).regs_ 0 0 := by
  have inj : ∀ w, m.load32 c.pc_.val = .ok w → w = inst := by
    intro w hw; rw [hf] at hw; exact (Except.ok.inj hw).symm
  revert h
  refine step_cases
    (fun r => r.exn = none →
      ∃ v, r.cpu.regs_ = Function.update (c.write_rd (rd_field inst) v).regs_ 0 0) c m
    ?_ ?_ ?_ ?_ ?_ ?_ ?_ ?_ ?_ ?_ ?_ ?_ ?_ ?_ ?_
  · intro e _ h; simp at h
  · intro w _ _ h; simp at h
  · intro w _ _ h; simp at h
  · intro w hw _ _ h; have := inj w hw; subst this; exact step_csr_regs _ _ _ _ h
  · intro w _ _ _; exact ⟨c.regs_ (rd_field inst), by rw [commit_regs, write_rd_self]⟩
  · intro w hw _ h; have := inj w hw; subst this; exact step_op_imm_regs _ _ _ _ h
  · intro w hw _ h; have := inj w hw; subst this; exact step_load_regs _ _ _ _ h
  · intro w _ _ h
    exact ⟨c.regs_ (rd_field inst), by rw [step_store_regs _ _ _ _ h, write_rd_self]⟩
  · intro w hw _ _; have := inj w hw; subst this; exact ⟨_, commit_regs _ _ _⟩
  · intro w hw _ _ _; have := inj w hw; subst this; exact ⟨_, commit_regs _ _ _⟩
  · intro w hw _ _; have := inj w hw; subst this; exact ⟨_, commit_regs _ _ _⟩
  · intro w hw _ _; have := inj w hw; subst this; exact ⟨_, commit_regs _ _ _⟩
  · intro w _ _ h
    exact ⟨c.regs_ (rd_field inst), by rw [step_branch_regs _ _ _ _ h, write_rd_self]⟩
  · intro w hw _ h; have := inj w hw; subst this; exact step_op_regs _ _ _ _ h
  · intro w _ _ _ _ _ _ _ _ _ _ _ _ _ _ h; simp at h

theorem step_fetch_of_ok (c : CPU) (m : Memory) (h : (c.step m).exn = none) :
    ∃ inst, m.load32 c.pc_.val = .ok inst := by
  cases hf : m.load32 c.pc_.val with
  | ok inst => exact ⟨inst, rfl⟩
  | error e =>
    exfalso
    revert h
    unfold step
    rw [hf]
    simp

theorem rd_field_eq_zero (inst : Nat) (h : get_bits inst 11 7 = 0) : rd_field inst = 0 := by
  apply Fin.ext
  simpa [rd_field] using h

/-- C2: `step()` is atomic on failure. Whenever `step()` throws (fetch error,
illegal instruction, load/store alignment or bounds error, EBREAK, ECALL), the
CPU (its 32 registers, its 4096 CSRs, its PC) and the memory (every byte, and
the capacity) are exactly what they were before the call. -/
theorem step_atomic_on_failure (c : CPU) (m : Memory) (h : (c.step m).exn ≠ none) :
    (c.step m).cpu = c ∧ (c.step m).mem = m :=
  step_fail c m h

theorem step_atomic_on_failure_witness :
    (CPU.new.step mem_sw_oob).exn ≠ none ∧
      ((CPU.new.step mem_sw_oob).cpu = CPU.new ∧ (CPU.new.step mem_sw_oob).mem = mem_sw_oob) :=
  ⟨by decide, step_atomic_on_failure CPU.new mem_sw_oob (by decide)⟩

/-- C1: register 0 is hard-wired to zero. `reg(0)` is 0 after `reset`; in every
CPU state reachable from `reset(startPc)` by any sequence of `step()` calls
`reg(0)` is 0, and it is 0 again after one more call of `step()` on any memory,
whether that call returns or throws; and a call that returns after fetching a
word whose `rd` field is 0 leaves all 32 registers unchanged. -/
theorem reg_zero_hardwired (c : CPU) (hc : Reachable c) (m : Memory) :
    (∀ (c0 : CPU) (start_pc : Word), (c0.reset start_pc).reg 0 = 0) ∧
    c.reg 0 = 0 ∧
    (c.step m).cpu.reg 0 = 0 ∧
    (∀ w, m.load32 c.pc_.val = .ok w → get_bits w 11 7 = 0 → (c.step m).exn = none →
      ∀ i, (c.step m).cpu.reg i = c.reg i) := by
  have hreset : ∀ (c0 : CPU) (start_pc : Word), (c0.reset start_pc).reg 0 = 0 := by
    intro c0 s; simp [reset, reg]
  have hstep : ∀ (c1 : CPU) (m1 : Memory), c1.reg 0 = 0 → (c1.step m1).cpu.reg 0 = 0 := by
    intro c1 m1 h0
    cases hx : (c1.step m1).exn with
    | some e =>
      have := step_fail c1 m1 (by rw [hx]; simp)
      rw [this.1]; exact h0
    | none =>
      obtain ⟨inst, hf⟩ := step_fetch_of_ok c1 m1 hx
      obtain ⟨v, hv⟩ := step_regs c1 m1 inst hf hx
      simp only [reg, hv, Function.update_same]
  have hreach : ∀ c1, Reachable c1 → c1.reg 0 = 0 := by
    intro c1 h1
    induction h1 with
    | reset c0 s => exact hreset c0 s
    | step c2 m2 _ ih => exact hstep c2 m2 ih
  refine ⟨hreset, hreach c hc, hstep c m (hreach c hc), ?_⟩
  intro w hf hrd hx i
  obtain ⟨v, hv⟩ := step_regs c m w hf hx
  have h0 : c.regs_ 0 = 0 := hreach c hc
  simp only [reg, hv, rd_field_eq_zero w hrd, write_rd_zero]
  rw [← h0, Function.update_eq_self]

theorem reg_zero_hardwired_witness :
    Reachable CPU.new ∧
      (CPU.new.step mem_addi_x0).cpu.reg 0 = 0 ∧
      ∀ i, (CPU.new.step mem_addi_x0).cpu.reg i = CPU.new.reg i :=
  have h := reg_zero_hardwired CPU.new (Reachable.reset _ 0) mem_addi_x0
  ⟨Reachable.reset _ 0, h.2.2.1, h.2.2.2 0x00500013 rfl (by decide) (by decide)⟩

/-! ## Which words make `step()` throw an illegal-instruction exception -/

theorem illegal_mk (e : Exn) (c : CPU) (m : Memory) :
    StepResult.illegal ⟨some e, c, m⟩ ↔ e.kind = ErrorKind.IllegalInstruction := by
  simp [StepResult.illegal]

theorem illegal_commit (c : CPU) (m : Memory) (npc : Word) :
    ¬ StepResult.illegal (commit c m npc) := by
  simp [StepResult.illegal, commit]

theorem step_csr_illegal (c : CPU) (m : Memory) (inst : Nat) (npc : Word) :
    (step_csr c m inst npc).illegal ↔ get_bits inst 14 12 ∉ [1, 2, 3, 5, 6, 7] := by
  unfold step_csr; simp only []
  have hlt : get_bits inst 14 12 < 8 := get_bits_lt inst 14 12
  generalize get_bits inst 14 12 = f3 at hlt ⊢
  interval_cases f3 <;> simp [illegal_mk, illegal_commit, Exn.kind]

theorem step_op_imm_illegal (c : CPU) (m : Memory) (inst : Nat) (npc : Word) :
    (step_op_imm c m inst npc).illegal ↔
      ¬ (get_bits inst 14 12 ∈ [0, 2, 3, 4, 6, 7] ∨
        (get_bits inst 14 12 = 1 ∧ get_bits inst 31 25 = 0x00) ∨
        (get_bits inst 14 12 = 5 ∧ get_bits inst 31 25 ∈ [0x00, 0x20])) := by
  unfold step_op_imm; simp only []
  have hlt : get_bits inst 14 12 < 8 := get_bits_lt inst 14 12
  generalize get_bits inst 14 12 = f3 at hlt ⊢
  generalize get_bits inst 31 25 = f7
  rcases (show f7 = 0 ∨ f7 = 0x20 ∨ (f7 ≠ 0 ∧ f7 ≠ 0x20) by omega) with h | h | ⟨h1, h2⟩
  · subst h; interval_cases f3 <;> simp [illegal_mk, illegal_commit, Exn.kind]
  · subst h; interval_cases f3 <;> simp [illegal_mk, illegal_commit, Exn.kind]
  · interval_cases f3 <;> simp [h1, h2, illegal_mk, illegal_commit, Exn.kind]

theorem step_op_illegal (c : CPU) (m : Memory) (inst : Nat) (npc : Word) :
    (step_op c m inst npc).illegal ↔
      ¬ ((get_bits inst 14 12 ∈ [0, 5] ∧ get_bits inst 31 25 ∈ [0x00, 0x20]) ∨
        (get_bits inst 14 12 ∈ [1, 2, 3, 4, 6, 7] ∧ get_bits inst 31 25 = 0x00)) := by
  unfold step_op; simp only []
  have hlt : get_bits inst 14 12 < 8 := get_bits_lt inst 14 12
  generalize get_bits inst 14 12 = f3 at hlt ⊢
  generalize get_bits inst 31 25 = f7
  rcases (show f7 = 0 ∨ f7 = 0x20 ∨ (f7 ≠ 0 ∧ f7 ≠ 0x20) by omega) with h | h | ⟨h1, h2⟩
  · subst h; interval_cases f3 <;> simp [illegal_mk, illegal_commit, Exn.kind]
  · subst h; interval_cases f3 <;> simp [illegal_mk, illegal_commit, Exn.kind]
  · interval_cases f3 <;> simp [h1, h2, illegal_mk, illegal_commit, Exn.kind]

theorem step_branch_illegal (c : CPU) (m : Memory) (inst : Nat) (npc : Word) :
    (step_branch c m inst npc).illegal ↔ get_bits inst 14 12 ∉ [0, 1, 4, 5, 6, 7] := by
  unfold step_branch; simp only []
  have hlt : get_bits inst 14 12 < 8 := get_bits_lt inst 14 12
  generalize get_bits inst 14 12 = f3 at hlt ⊢
  interval_cases f3 <;> simp [illegal_mk, illegal_commit, Exn.kind]

theorem step_load_illegal (c : CPU) (m : Memory) (inst : Nat) (npc : Word) :
    (step_load c m inst npc).illegal ↔ get_bits inst 14 12 ∉ [0, 1, 2, 4, 5] := by
  unfold step_load; simp only []
  have hlt : get_bits inst 14 12 < 8 := get_bits_lt inst 14 12
  generalize get_bits inst 14 12 = f3 at hlt ⊢
  generalize ((c.regs_ (rs1_field inst)).val + ofInt32 (sign_extend (get_bits inst 31 20) 12))
    % 4294967296 = addr
  have h8 : ∀ e, m.load8 addr = .error e → e.kind ≠ ErrorKind.IllegalInstruction := by
    intro e he; rw [Memory.load8_error m addr e he]; decide
  have h16 : ∀ e, m.load16 addr = .error e → e.kind ≠ ErrorKind.IllegalInstruction := by
    intro e he
    rcases Memory.load16_error m addr e he with h | h <;> rw [h] <;> decide
  have h32 : ∀ e, m.load32 addr = .error e → e.kind ≠ ErrorKind.IllegalInstruction := by
    intro e he
    rcases Memory.load32_error m addr e he with h | h <;> rw [h] <;> decide
  interval_cases f3 <;> simp [illegal_mk, illegal_commit, Exn.kind]
  · cases hl : m.load8 addr with
    | error e => simpa [Except.map, illegal_mk] using h8 e hl
    | ok b => simp [Except.map, illegal_commit]
  · cases hl : m.load16 addr with
    | error e => simpa [Except.map, illegal_mk] using h16 e hl
    | ok b => simp [Except.map, illegal_commit]
  · by_cases ha : addr % 4 = 0
    · cases hl : m.load32 addr with
      | error e => simpa [ha, Except.map, illegal_mk] using h32 e hl
      | ok b => simp [ha, Except.map, illegal_commit]
    · simp [ha, illegal_mk, Exn.kind]
  · cases hl : m.load8 addr with
    | error e => simpa [Except.map, illegal_mk] using h8 e hl
    | ok b => simp [Except.map, illegal_commit]
  · cases hl : m.load16 addr with
    | error e => simpa [Except.map, illegal_mk] using h16 e hl
    | ok b => simp [Except.map, illegal_commit]

theorem step_store_illegal (c : CPU) (m : Memory) (inst : Nat) (npc : Word) :
    (step_store c m inst npc).illegal ↔ get_bits inst 14 12 ∉ [0, 1, 2] := by
  unfold step_store; simp only []
  have hlt : get_bits inst 14 12 < 8 := get_bits_lt inst 14 12
  generalize get_bits inst 14 12 = f3 at hlt ⊢
  generalize ((c.regs_ (rs1_field inst)).val +
    ofInt32 (sign_extend (get_bits inst 31 25 <<< 5 ||| get_bits inst 11 7) 12))
    % 4294967296 = addr
  generalize (c.regs_ (rs2_field inst)).val = v
  have h8 : ∀ x e, (m.store8 addr x).1 = some e → e.kind ≠ ErrorKind.IllegalInstruction := by
    intro x e he; rw [Memory.store8_error m addr x e he]; decide
  have h16 : ∀ x e, (m.store16 addr x).1 = some e → e.kind ≠ ErrorKind.IllegalInstruction := by
    intro x e he
    rcases Memory.store16_error m addr x e he with h | h <;> rw [h] <;> decide
  have h32 : ∀ x e, (m.store32 addr x).1 = some e → e.kind ≠ ErrorKind.IllegalInstruction := by
    intro x e he
    rcases Memory.store32_error m addr x e he with h | h <;> rw [h] <;> decide
  interval_cases f3
  · refine iff_of_false ?_ (by decide)
    rw [if_pos rfl]
    split
    · rename_i e he; rw [illegal_mk]; exact h8 _ e he
    · exact illegal_commit _ _ _
  · refine iff_of_false ?_ (by decide)
    rw [if_neg (by decide), if_pos rfl]
    split
    · rename_i e he; rw [illegal_mk]; exact h16 _ e he
    · exact illegal_commit _ _ _
  · refine iff_of_false ?_ (by decide)
    rw [if_neg (by decide), if_neg (by decide), if_pos rfl]
    by_cases ha : addr % 4 ≠ 0
    · rw [if_pos ha]; rw [illegal_mk]; decide
    · rw [if_neg ha]
      split
      · rename_i e he; rw [illegal_mk]; exact h32 _ e he
      · exact illegal_commit _ _ _
  all_goals
    refine iff_of_true ?_ (by decide)
    rw [if_neg (by decide), if_neg (by decide), if_neg (by decide)]
    rw [illegal_mk]; decide

theorem not_halt_word (w : Nat) (h : get_bits w 6 0 ≠ 0x73 ∨ get_bits w 14 12 ≠ 0) :
    w ≠ 0x00000073 ∧ w ≠ 0x00100073 := by
  constructor
  · intro hw; subst hw; revert h; decide
  · intro hw; subst hw; revert h; decide

/-- C3: for every state whose fetch at PC succeeds with word `w`, `step()`
fails with `IllegalInstruction` if and only if `w` is not a defined encoding
(the list of defined encodings is `defined_encoding`). -/
theorem illegal_iff_not_defined (c : CPU) (m : Memory) (w : Nat)
    (hf : m.load32 c.pc_.val = .ok w) :
    (∃ e, (c.step m).exn = some e ∧ e.kind = ErrorKind.IllegalInstruction) ↔
      ¬ defined_encoding w := by
  have inj : ∀ inst, m.load32 c.pc_.val = .ok inst → inst = w := by
    intro inst hi; rw [hf] at hi; exact (Except.ok.inj hi).symm
  show (c.step m).illegal ↔ ¬ defined_encoding w
  refine step_cases (fun r => r.illegal ↔ ¬ defined_encoding w) c m
    ?_ ?_ ?_ ?_ ?_ ?_ ?_ ?_ ?_ ?_ ?_ ?_ ?_ ?_ ?_
  · intro e he; rw [hf] at he; exact absurd he (by simp)
  · intro inst hi h; have := inj inst hi; subst this
    rw [illegal_mk]; simp [defined_encoding, h, Exn.kind]
  · intro inst hi h; have := inj inst hi; subst this
    rw [illegal_mk]; simp [defined_encoding, h, Exn.kind]
  · intro inst hi hop h3; have := inj inst hi; subst this
    have hne := not_halt_word inst (Or.inr h3)
    rw [step_csr_illegal]; simp [defined_encoding, hne.1, hne.2, hop]
  · intro inst hi hop; have := inj inst hi; subst this
    have hne := not_halt_word inst (Or.inl (by rw [hop]; decide))
    simp [illegal_commit, defined_encoding, hne.1, hne.2, hop]
  · intro inst hi hop; have := inj inst hi; subst this
    have hne := not_halt_word inst (Or.inl (by rw [hop]; decide))
    rw [step_op_imm_illegal]; simp [defined_encoding, hne.1, hne.2, hop]
  · intro inst hi hop; have := inj inst hi; subst this
    have hne := not_halt_word inst (Or.inl (by rw [hop]; decide))
    rw [step_load_illegal]; simp [defined_encoding, hne.1, hne.2, hop]
  · intro inst hi hop; have := inj inst hi; subst this
    have hne := not_halt_word inst (Or.inl (by rw [hop]; decide))
    rw [step_store_illegal]; simp [defined_encoding, hne.1, hne.2, hop]
  · intro inst hi hop; have := inj inst hi; subst this
    have hne := not_halt_word inst (Or.inl (by rw [hop]; decide))
    have : ¬ (step_jal c m inst).illegal := illegal_commit _ _ _
    simp [this, defined_encoding, hne.1, hne.2, hop]
  · intro inst hi hop h3; have := inj inst hi; subst this
    have hne := not_halt_word inst (Or.inl (by rw [hop]; decide))
    have : ¬ (step_jalr c m inst).illegal := illegal_commit _ _ _
    simp [this, defined_encoding, hne.1, hne.2, hop, h3]
  · intro inst hi hop; have := inj inst hi; subst this
    have hne := not_halt_word inst (Or.inl (by rw [hop]; decide))
    have : ¬ (step_lui c m inst (u32 (c.pc_.val + 4))).illegal := illegal_commit _ _ _
    simp [this, defined_encoding, hne.1, hne.2, hop]
  · intro inst hi hop; have := inj inst hi; subst this
    have hne := not_halt_word inst (Or.inl (by rw [hop]; decide))
    have : ¬ (step_auipc c m inst (u32 (c.pc_.val + 4))).illegal := illegal_commit _ _ _
    simp [this, defined_encoding, hne.1, hne.2, hop]
  · intro inst hi hop; have := inj inst hi; subst this
    have hne := not_halt_word inst (Or.inl (by rw [hop]; decide))
    rw [step_branch_illegal]; simp [defined_encoding, hne.1, hne.2, hop]
  · intro inst hi hop; have := inj inst hi; subst this
    have hne := not_halt_word inst (Or.inl (by rw [hop]; decide))
    rw [step_op_illegal]; simp [defined_encoding, hne.1, hne.2, hop]
  · intro inst hi h1 h2 h3 h4 h5 h6 h7 h8 h9 h10 h11 h12 h13
    have := inj inst hi; subst this
    rw [illegal_mk]
    simp only [Exn.kind, true_iff]
    unfold defined_encoding
    simp only [not_or]
    refine ⟨h2, h1, ?_, h4, ?_, ?_, ?_, h8, h9, h10, h11, ?_, ?_⟩
    · rintro ⟨ho, hm⟩; exact h3 ⟨ho, by intro h0; rw [h0] at hm; revert hm; decide⟩
    · rintro ⟨ho, _⟩; exact h5 ho
    · rintro ⟨ho, _⟩; exact h6 ho
    · rintro ⟨ho, _⟩; exact h7 ho
    · rintro ⟨ho, _⟩; exact h12 ho
    · rintro ⟨ho, _⟩; exact h13 ho

theorem illegal_iff_not_defined_witness :
    (Memory.new 8).load32 CPU.new.pc_.val = .ok 0 ∧
      ((∃ e, (CPU.new.step (Memory.new 8)).exn = some e ∧
          e.kind = ErrorKind.IllegalInstruction) ↔ ¬ defined_encoding 0) :=
  ⟨rfl, illegal_iff_not_defined CPU.new (Memory.new 8) 0 rfl⟩

end CPU

/-! ## Outcome of the memory accesses -/

namespace Memory

theorem check_addr_eq (m : Memory) (a n : Nat) (h : a + n < 18446744073709551616) :
    m.check_addr a n = if a + n > m.size then some Exn.out_of_range else none := by
  unfold check_addr size
  rw [Nat.mod_eq_of_lt h]

theorem and_one_ne_zero_iff (a : Nat) : a &&& 0x1 ≠ 0 ↔ a % 2 ≠ 0 := by
  rw [Nat.and_one_is_mod]

theorem and_three_eq (a : Nat) : a &&& 0x3 = a % 4 :=
  Nat.and_pow_two_sub_one_eq_mod a 2

theorem load8_outcome (m : Memory) (a : Nat) (ha : a < 4294967296) :
    load_outcome (m.load8 a) = access_outcome m.size a 1 := by
  have h1 : a + 1 < 18446744073709551616 := by omega
  unfold load8 access_outcome
  rw [check_addr_eq m a 1 h1, Nat.mod_one]
  by_cases hb : a + 1 > m.size
  · rw [if_pos hb, if_neg (by simp), if_neg (by omega)]; rfl
  · rw [if_neg hb, if_neg (by simp), if_pos (by omega)]; rfl

theorem store8_outcome (m : Memory) (a v : Nat) (ha : a < 4294967296) :
    store_outcome (m.store8 a v) = access_outcome m.size a 1 := by
  have h1 : a + 1 < 18446744073709551616 := by omega
  unfold store8 access_outcome
  rw [check_addr_eq m a 1 h1, Nat.mod_one]
  by_cases hb : a + 1 > m.size
  · rw [if_pos hb, if_neg (by simp), if_neg (by omega)]; rfl
  · rw [if_neg hb, if_neg (by simp), if_pos (by omega)]; rfl

theorem load16_outcome (m : Memory) (a : Nat) (ha : a < 4294967296) :
    load_outcome (m.load16 a) = access_outcome m.size a 2 := by
  have h2 : a + 2 < 18446744073709551616 := by omega
  unfold load16 access_outcome
  rw [check_addr_eq m a 2 h2]
  by_cases hal : a % 2 ≠ 0
  · rw [if_pos ((and_one_ne_zero_iff a).2 hal), if_pos hal]; rfl
  · rw [if_neg (fun h => hal ((and_one_ne_zero_iff a).1 h)), if_neg hal]
    by_cases hb : a + 2 > m.size
    · rw [if_pos hb, if_neg (by omega)]; rfl
    · rw [if_neg hb, if_pos (by omega)]; rfl

theorem store16_outcome (m : Memory) (a v : Nat) (ha : a < 4294967296) :
    store_outcome (m.store16 a v) = access_outcome m.size a 2 := by
  have h2 : a + 2 < 18446744073709551616 := by omega
  unfold store16 access_outcome
  rw [check_addr_eq m a 2 h2]
  by_cases hal : a % 2 ≠ 0
  · rw [if_pos ((and_one_ne_zero_iff a).2 hal), if_pos hal]; rfl
  · rw [if_neg (fun h => hal ((and_one_ne_zero_iff a).1 h)), if_neg hal]
    by_cases hb : a + 2 > m.size
    · rw [if_pos hb, if_neg (by omega)]; rfl
    · rw [if_neg hb, if_pos (by omega)]; rfl

theorem load32_outcome (m : Memory) (a : Nat) (ha : a < 4294967296) :
    load_outcome (m.load32 a) = access_outcome m.size a 4 := by
  have h4 : a + 4 < 18446744073709551616 := by omega
  unfold load32 access_outcome
  rw [check_addr_eq m a 4 h4, and_three_eq]
  by_cases hal : a % 4 ≠ 0
  · rw [if_pos hal, if_pos hal]; rfl
  · rw [if_neg hal, if_neg hal]
    by_cases hb : a + 4 > m.size
    · rw [if_pos hb, if_neg (by omega)]; rfl
    · rw [if_neg hb, if_pos (by omega)]; rfl

theorem store32_outcome (m : Memory) (a v : Nat) (ha : a < 4294967296) :
    store_outcome (m.store32 a v) = access_outcome m.size a 4 := by
  have h4 : a + 4 < 18446744073709551616 := by omega
  unfold store32 access_outcome
  rw [check_addr_eq m a 4 h4, and_three_eq]
  by_cases hal : a % 4 ≠ 0
  · rw [if_pos hal, if_pos hal]; rfl
  · rw [if_neg hal, if_neg hal]
    by_cases hb : a + 4 > m.size
    · rw [if_pos hb, if_neg (by omega)]; rfl
    · rw [if_neg hb, if_pos (by omega)]; rfl

/-- C4: memory access outcome. For every 32-bit address `a` and every memory
(of any capacity), each of `load8`, `store8`, `load16`, `store16`, `load32`,
`store32` ends as `access_outcome` says for its size 1, 2 or 4: a misaligned
halfword or word access fails with `Misaligned` whether or not it is in range,
a byte access never does, and an aligned access succeeds exactly when
`a + N ≤ capacity` (no wraparound) and otherwise fails with `OutOfRange`; so a
word access at `0xFFFFFFFC` on a memory smaller than `2^32` bytes fails with
`OutOfRange`. -/
theorem access_outcome_correct (m : Memory) (a v : Nat) (ha : a < 4294967296) :
    load_outcome (m.load8 a) = access_outcome m.size a 1 ∧
    store_outcome (m.store8 a v) = access_outcome m.size a 1 ∧
    load_outcome (m.load16 a) = access_outcome m.size a 2 ∧
    store_outcome (m.store16 a v) = access_outcome m.size a 2 ∧
    load_outcome (m.load32 a) = access_outcome m.size a 4 ∧
    store_outcome (m.store32 a v) = access_outcome m.size a 4 ∧
    (access_outcome m.size a 1 ≠ some ErrorKind.Misaligned) ∧
    (m.size < 4294967296 →
      load_outcome (m.load32 0xFFFFFFFC) = some ErrorKind.OutOfRange ∧
      store_outcome (m.store32 0xFFFFFFFC v) = some ErrorKind.OutOfRange) := by
  refine ⟨load8_outcome m a ha, store8_outcome m a v ha, load16_outcome m a ha,
    store16_outcome m a v ha, load32_outcome m a ha, store32_outcome m a v ha, ?_, ?_⟩
  · unfold access_outcome
    rw [Nat.mod_one, if_neg (by simp)]
    split <;> simp
  · intro hs
    rw [load32_outcome m _ (by decide), store32_outcome m _ v (by decide)]
    unfold access_outcome
    rw [if_neg (by decide), if_neg (by omega)]
    exact ⟨rfl, rfl⟩

theorem access_outcome_correct_witness :
    (1 : Nat) < 4294967296 ∧
      load_outcome ((Memory.new 8).load16 1) = some ErrorKind.Misaligned ∧
      load_outcome ((Memory.new 8).load32 8) = some ErrorKind.OutOfRange :=
  ⟨by decide,
    (access_outcome_correct (Memory.new 8) 1 0 (by decide)).2.2.1.trans (by decide),
    (access_outcome_correct (Memory.new 8) 8 0 (by decide)).2.2.2.2.1.trans (by decide)⟩

theorem out_of_range_counterexample :
    1 + 2 > (Memory.new 0).size ∧
      load_outcome ((Memory.new 0).load16 1) = some ErrorKind.Misaligned ∧
      load_outcome ((Memory.new 0).load16 1) ≠ some ErrorKind.OutOfRange := by
  decide

/-- C5 (amended): bounds. For every memory (of any capacity) and every 32-bit
address `a` that is aligned to the access size `N` in {1, 2, 4} (any address
for a byte access, an even one for a halfword, a multiple of 4 for a word)
and has `a + N > capacity`, the load and the store of that size fail with
`OutOfRange`. -/
theorem out_of_range_when_aligned (m : Memory) (a v : Nat) (ha : a < 4294967296) :
    (a + 1 > m.size →
      load_outcome (m.load8 a) = some ErrorKind.OutOfRange ∧
      store_outcome (m.store8 a v) = some ErrorKind.OutOfRange) ∧
    (a % 2 = 0 → a + 2 > m.size →
      load_outcome (m.load16 a) = some ErrorKind.OutOfRange ∧
      store_outcome (m.store16 a v) = some ErrorKind.OutOfRange) ∧
    (a % 4 = 0 → a + 4 > m.size →
      load_outcome (m.load32 a) = some ErrorKind.OutOfRange ∧
      store_outcome (m.store32 a v) = some ErrorKind.OutOfRange) := by
  refine ⟨?_, ?_, ?_⟩
  · intro hb
    rw [load8_outcome m a ha, store8_outcome m a v ha]
    unfold access_outcome
    rw [Nat.mod_one, if_neg (by simp), if_neg (by omega)]
    exact ⟨rfl, rfl⟩
  · intro hal hb
    rw [load16_outcome m a ha, store16_outcome m a v ha]
    unfold access_outcome
    rw [if_neg (by omega), if_neg (by omega)]
    exact ⟨rfl, rfl⟩
  · intro hal hb
    rw [load32_outcome m a ha, store32_outcome m a v ha]
    unfold access_outcome
    rw [if_neg (by omega), if_neg (by omega)]
    exact ⟨rfl, rfl⟩

theorem out_of_range_when_aligned_witness :
    (8 : Nat) < 4294967296 ∧ 8 % 4 = 0 ∧ 8 + 4 > (Memory.new 8).size ∧
      load_outcome ((Memory.new 8).load32 8) = some ErrorKind.OutOfRange ∧
      store_outcome ((Memory.new 8).store32 8 7) = some ErrorKind.OutOfRange :=
  ⟨by decide, by decide, by decide,
    (out_of_range_when_aligned (Memory.new 8) 8 7 (by decide)).2.2 (by decide) (by decide)⟩

/-! ## Stores followed by loads -/

/-! ### Cells, bytes and little-endian words -/

theorem cell_set (l : List Byte) (i j : Nat) (x : Byte) :
    cell ⟨l.set i x⟩ j = if i = j ∧ i < l.length then x.val else cell ⟨l⟩ j := by
  unfold cell
  simp only [List.getD_eq_getElem?_getD, List.getElem?_set]
  by_cases hij : i = j
  · subst hij
    by_cases hl : i < l.length
    · simp [hl]
    · have : l[i]? = none := List.getElem?_eq_none (by omega)
      simp [hl, this]
  · simp [hij]

theorem u8_and_val (x : Nat) : (u8 (x &&& 0xFF)).val = x % 256 := by
  have h : x &&& 0xFF = x % 256 := Nat.and_pow_two_sub_one_eq_mod x 8
  show (x &&& 0xFF) % 256 = x % 256
  rw [h, Nat.mod_mod]

theorem lo_or_shl (lo hi k : Nat) (h : lo < 2 ^ k) : lo ||| (hi <<< k) = lo + hi * 2 ^ k := by
  rw [Nat.shiftLeft_eq, Nat.or_comm, Nat.mul_comm hi, ← Nat.mul_add_lt_is_or h, Nat.add_comm]

theorem le16_eq (b0 b1 : Nat) (h0 : b0 < 256) :
    b0 ||| (b1 <<< 8) = b0 + b1 * 256 := by
  rw [lo_or_shl b0 b1 8 h0]
  norm_num

theorem le32_eq (b0 b1 b2 b3 : Nat) (h0 : b0 < 256) (h1 : b1 < 256) (h2 : b2 < 256) :
    b0 ||| (b1 <<< 8) ||| (b2 <<< 16) ||| (b3 <<< 24) =
      b0 + b1 * 256 + b2 * 65536 + b3 * 16777216 := by
  rw [lo_or_shl b0 b1 8 h0, lo_or_shl _ b2 16 (by omega), lo_or_shl _ b3 24 (by omega)]
  norm_num

theorem cell_lt (m : Memory) (a : Nat) : m.cell a < 256 := (m.mem_.getD a 0).isLt

theorem access_outcome_none (cap a N : Nat) (h : access_outcome cap a N = none) :
    a % N = 0 ∧ a + N ≤ cap := by
  revert h; unfold access_outcome
  by_cases h1 : a % N ≠ 0
  · rw [if_pos h1]; simp
  · rw [if_neg h1]
    by_cases h2 : a + N ≤ cap
    · intro _; exact ⟨by omega, h2⟩
    · rw [if_neg h2]; simp

theorem load8_ok (m : Memory) (a : Nat) (ha : a < 4294967296) (hb : a + 1 ≤ m.size) :
    m.load8 a = .ok (m.cell a) := by
  unfold load8
  rw [check_addr_eq m a 1 (by omega), if_neg (by omega)]

theorem load16_ok (m : Memory) (a : Nat) (ha : a < 4294967296) (hal : a % 2 = 0)
    (hb : a + 2 ≤ m.size) :
    m.load16 a = .ok ((m.cell (a + 0) ||| (m.cell (a + 1) <<< 8)) % 65536) := by
  unfold load16
  rw [if_neg (fun h => (and_one_ne_zero_iff a).1 h hal), check_addr_eq m a 2 (by omega),
    if_neg (by omega)]

theorem load32_ok (m : Memory) (a : Nat) (ha : a < 4294967296) (hal : a % 4 = 0)
    (hb : a + 4 ≤ m.size) :
    m.load32 a = .ok (m.cell (a + 0) ||| (m.cell (a + 1) <<< 8) ||| (m.cell (a + 2) <<< 16) |||
      (m.cell (a + 3) <<< 24)) := by
  unfold load32
  rw [and_three_eq, if_neg (fun h => h hal), check_addr_eq m a 4 (by omega),
    if_neg (by omega)]

theorem store8_ok (m : Memory) (a v : Nat) (ha : a < 4294967296) (hb : a + 1 ≤ m.size) :
    m.store8 a v = (none, ⟨m.mem_.set a (u8 v)⟩) := by
  unfold store8
  rw [check_addr_eq m a 1 (by omega), if_neg (by omega)]

theorem store16_ok (m : Memory) (a v : Nat) (ha : a < 4294967296) (hal : a % 2 = 0)
    (hb : a + 2 ≤ m.size) :
    m.store16 a v = (none,
      ⟨(m.mem_.set (a + 0) (u8 (v &&& 0xFF))).set (a + 1) (u8 ((v >>> 8) &&& 0xFF))⟩) := by
  unfold store16
  rw [if_neg (fun h => (and_one_ne_zero_iff a).1 h hal), check_addr_eq m a 2 (by omega),
    if_neg (by omega)]

theorem store32_ok (m : Memory) (a v : Nat) (ha : a < 4294967296) (hal : a % 4 = 0)
    (hb : a + 4 ≤ m.size) :
    m.store32 a v = (none,
      ⟨(((m.mem_.set (a + 0) (u8 (v &&& 0xFF))).set (a + 1) (u8 ((v >>> 8) &&& 0xFF))).set
        (a + 2) (u8 ((v >>> 16) &&& 0xFF))).set (a + 3) (u8 ((v >>> 24) &&& 0xFF))⟩) := by
  unfold store32
  rw [and_three_eq, if_neg (fun h => h hal), check_addr_eq m a 4 (by omega),
    if_neg (by omega)]

/-- The cells of a memory after a successful `store8`. -/
theorem store8_cell (m : Memory) (a v j : Nat) (ha : a < 4294967296) (hb : a + 1 ≤ m.size) :
    (m.store8 a v).2.cell j = if j = a then v % 256 else m.cell j := by
  rw [store8_ok m a v ha hb]
  show cell ⟨m.mem_.set a (u8 v)⟩ j = _
  rw [cell_set]
  have hl : a < m.mem_.length := by unfold size at hb; omega
  by_cases h : j = a
  · rw [if_pos ⟨h.symm, hl⟩, if_pos h]; rfl
  · rw [if_neg (fun hh => h hh.1.symm), if_neg h]

/-- The cells of a memory after a successful `store16`. -/
theorem store16_cell (m : Memory) (a v j : Nat) (ha : a < 4294967296) (hal : a % 2 = 0)
    (hb : a + 2 ≤ m.size) :
    (m.store16 a v).2.cell j =
      if j = a then v % 256 else if j = a + 1 then v / 256 % 256 else m.cell j := by
  rw [store16_ok m a v ha hal hb]
  show cell ⟨(m.mem_.set (a + 0) _).set (a + 1) _⟩ j = _
  rw [cell_set, cell_set, u8_and_val, u8_and_val, List.length_set, Nat.shiftRight_eq_div_pow]
  have hl : a + 1 < m.mem_.length := by unfold size at hb; omega
  by_cases h1 : j = a + 1
  · rw [if_pos ⟨h1.symm, hl⟩, if_neg (by omega), if_pos h1]
  · rw [if_neg (fun hh => h1 hh.1.symm)]
    by_cases h0 : j = a
    · rw [if_pos ⟨by omega, by omega⟩, if_pos h0]
    · rw [if_neg (fun hh => h0 (by omega)), if_neg h0, if_neg h1]

/-- The cells of a memory after a successful `store32`. -/
theorem store32_cell (m : Memory) (a v j : Nat) (ha : a < 4294967296) (hal : a % 4 = 0)
    (hb : a + 4 ≤ m.size) :
    (m.store32 a v).2.cell j =
      if j = a then v % 256 else if j = a + 1 then v / 256 % 256
      else if j = a + 2 then v / 65536 % 256 else if j = a + 3 then v / 16777216 % 256
      else m.cell j := by
  rw [store32_ok m a v ha hal hb]
  show cell ⟨(((m.mem_.set (a + 0) _).set (a + 1) _).set (a + 2) _).set (a + 3) _⟩ j = _
  rw [cell_set, cell_set, cell_set, cell_set, u8_and_val, u8_and_val, u8_and_val, u8_and_val,
    List.length_set, List.length_set, List.length_set, Nat.shiftRight_eq_div_pow,
    Nat.shiftRight_eq_div_pow, Nat.shiftRight_eq_div_pow]
  have hl : a + 3 < m.mem_.length := by unfold size at hb; omega
  by_cases h3 : j = a + 3
  · rw [if_pos ⟨h3.symm, hl⟩, if_neg (by omega), if_neg (by omega), if_neg (by omega),
      if_pos h3]
  rw [if_neg (fun hh => h3 hh.1.symm)]
  by_cases h2 : j = a + 2
  · rw [if_pos ⟨h2.symm, by omega⟩, if_neg (by omega), if_neg (by omega), if_pos h2]
  rw [if_neg (fun hh => h2 hh.1.symm)]
  by_cases h1 : j = a + 1
  · rw [if_pos ⟨h1.symm, by omega⟩, if_neg (by omega), if_pos h1]
  rw [if_neg (fun hh => h1 hh.1.symm)]
  by_cases h0 : j = a
  · rw [if_pos ⟨by omega, by omega⟩, if_pos h0]
  · rw [if_neg (fun hh => h0 (by omega)), if_neg h0, if_neg h1, if_neg h2, if_neg h3]

/-- A store, successful or not, keeps the capacity. -/
theorem store_size (m : Memory) (a v : Nat) :
    (m.store8 a v).2.size = m.size ∧ (m.store16 a v).2.size = m.size ∧
      (m.store32 a v).2.size = m.size := by
  refine ⟨?_, ?_, ?_⟩
  · unfold store8; split <;> simp [size]
  · unfold store16; split <;> [rfl; (split <;> simp [size])]
  · unfold store32; split <;> [rfl; (split <;> simp [size])]

/-- Reading back a word stored at an aligned in-range address. -/
theorem load32_store32 (m : Memory) (a v : Nat) (ha : a < 4294967296) (hal : a % 4 = 0)
    (hb : a + 4 ≤ m.size) :
    (m.store32 a v).2.load32 a = .ok (v % 4294967296) := by
  have hs : a + 4 ≤ (m.store32 a v).2.size := by rw [(store_size m a v).2.2]; exact hb
  rw [load32_ok _ a ha hal hs, le32_eq _ _ _ _ (cell_lt _ _) (cell_lt _ _) (cell_lt _ _),
    store32_cell m a v _ ha hal hb, store32_cell m a v _ ha hal hb,
    store32_cell m a v _ ha hal hb, store32_cell m a v _ ha hal hb]
  rw [if_pos (by omega), if_neg (by omega), if_pos (by omega), if_neg (by omega),
    if_neg (by omega), if_pos (by omega), if_neg (by omega), if_neg (by omega),
    if_neg (by omega), if_pos (by omega)]
  congr 1
  omega

/-- Reading back a halfword stored at an even in-range address. -/
theorem load16_store16 (m : Memory) (a v : Nat) (ha : a < 4294967296) (hal : a % 2 = 0)
    (hb : a + 2 ≤ m.size) :
    (m.store16 a v).2.load16 a = .ok (v % 65536) := by
  have hs : a + 2 ≤ (m.store16 a v).2.size := by rw [(store_size m a v).2.1]; exact hb
  rw [load16_ok _ a ha hal hs, le16_eq _ _ (cell_lt _ _),
    store16_cell m a v _ ha hal hb, store16_cell m a v _ ha hal hb]
  rw [if_pos (by omega), if_neg (by omega), if_pos (by omega)]
  congr 1
  omega

/-- Reading back a byte stored at an in-range address. -/
theorem load8_store8 (m : Memory) (a v : Nat) (ha : a < 4294967296) (hb : a + 1 ≤ m.size) :
    (m.store8 a v).2.load8 a = .ok (v % 256) := by
  have hs : a + 1 ≤ (m.store8 a v).2.size := by rw [(store_size m a v).1]; exact hb
  rw [load8_ok _ a ha hs, store8_cell m a v _ ha hb, if_pos rfl]

/-- C6: memory round trip. For every memory and every 32-bit address `a`:
when `a mod 4 == 0` and `a + 4 <= capacity`, `store32(a, v)` of a 32-bit value
succeeds and `load32(a)` afterwards returns exactly `v`; likewise
`store16`/`load16` of a 16-bit value at an even in-range address and
`store8`/`load8` of a byte at an in-range address. -/
theorem store_load_round_trip (m : Memory) (a v : Nat) (ha : a < 4294967296) :
    (a % 4 = 0 → a + 4 ≤ m.size → v < 4294967296 →
      (m.store32 a v).1 = none ∧ (m.store32 a v).2.load32 a = .ok v) ∧
    (a % 2 = 0 → a + 2 ≤ m.size → v < 65536 →
      (m.store16 a v).1 = none ∧ (m.store16 a v).2.load16 a = .ok v) ∧
    (a + 1 ≤ m.size → v < 256 →
      (m.store8 a v).1 = none ∧ (m.store8 a v).2.load8 a = .ok v) := by
  refine ⟨?_, ?_, ?_⟩
  · intro hal hb hv
    refine ⟨by rw [store32_ok m a v ha hal hb], ?_⟩
    rw [load32_store32 m a v ha hal hb, Nat.mod_eq_of_lt hv]
  · intro hal hb hv
    refine ⟨by rw [store16_ok m a v ha hal hb], ?_⟩
    rw [load16_store16 m a v ha hal hb, Nat.mod_eq_of_lt hv]
  · intro hb hv
    refine ⟨by rw [store8_ok m a v ha hb], ?_⟩
    rw [load8_store8 m a v ha hb, Nat.mod_eq_of_lt hv]

theorem store_load_round_trip_witness :
    (4 : Nat) < 4294967296 ∧ 4 % 4 = 0 ∧ 4 + 4 ≤ (Memory.new 8).size ∧
      (42 : Nat) < 4294967296 ∧
      ((Memory.new 8).store32 4 42).2.load32 4 = .ok 42 :=
  ⟨by decide, by decide, by decide, by decide,
    ((store_load_round_trip (Memory.new 8) 4 42 (by decide)).1
      (by decide) (by decide) (by decide)).2⟩

theorem store32_none (m : Memory) (a v : Nat) (ha : a < 4294967296)
    (h : (m.store32 a v).1 = none) : a % 4 = 0 ∧ a + 4 ≤ m.size := by
  apply access_outcome_none
  rw [← store32_outcome m a v ha]
  unfold store_outcome
  rw [h]; rfl

theorem store16_none (m : Memory) (a v : Nat) (ha : a < 4294967296)
    (h : (m.store16 a v).1 = none) : a % 2 = 0 ∧ a + 2 ≤ m.size := by
  apply access_outcome_none
  rw [← store16_outcome m a v ha]
  unfold store_outcome
  rw [h]; rfl

theorem store8_none (m : Memory) (a v : Nat) (ha : a < 4294967296)
    (h : (m.store8 a v).1 = none) : a + 1 ≤ m.size := by
  refine (access_outcome_none m.size a 1 ?_).2
  rw [← store8_outcome m a v ha]
  unfold store_outcome
  rw [h]; rfl

theorem load32_some (m : Memory) (a x : Nat) (ha : a < 4294967296)
    (h : m.load32 a = .ok x) : a % 4 = 0 ∧ a + 4 ≤ m.size := by
  apply access_outcome_none
  rw [← load32_outcome m a ha, h]; rfl

theorem load16_some (m : Memory) (a x : Nat) (ha : a < 4294967296)
    (h : m.load16 a = .ok x) : a % 2 = 0 ∧ a + 2 ≤ m.size := by
  apply access_outcome_none
  rw [← load16_outcome m a ha, h]; rfl

theorem shr_and_ff (v k : Nat) : (v >>> k) &&& 0xFF = v / 2 ^ k % 256 := by
  rw [Nat.shiftRight_eq_div_pow]
  exact Nat.and_pow_two_sub_one_eq_mod _ 8

/-- C7: little-endian layout. After a successful `store32(a, v)` of a 32-bit
value at a 32-bit address, `load8(a+i)` returns `(v >> 8*i) & 0xFF` for
`i = 0..3`, `load16(a)` returns `v & 0xFFFF` and `load16(a+2)` returns
`v >> 16`; and for any memory contents a `load32(a)` that returns gives
`b0 | b1<<8 | b2<<16 | b3<<24` and a `load16(a)` that returns gives
`b0 | b1<<8`, where `b0, b1, ...` are what `load8` returns at `a, a+1, ...`;
the values are unsigned (the sum of the bytes weighted by powers of 256,
below `2^32`, resp. `2^16`). -/
theorem little_endian_layout (m : Memory) (a v : Nat) (ha : a < 4294967296)
    (hv : v < 4294967296) :
    ((m.store32 a v).1 = none →
      (m.store32 a v).2.load8 a = .ok (v &&& 0xFF) ∧
      (m.store32 a v).2.load8 (a + 1) = .ok ((v >>> 8) &&& 0xFF) ∧
      (m.store32 a v).2.load8 (a + 2) = .ok ((v >>> 16) &&& 0xFF) ∧
      (m.store32 a v).2.load8 (a + 3) = .ok ((v >>> 24) &&& 0xFF) ∧
      (m.store32 a v).2.load16 a = .ok (v &&& 0xFFFF) ∧
      (m.store32 a v).2.load16 (a + 2) = .ok (v >>> 16)) ∧
    (∀ x, m.load32 a = .ok x →
      ∃ b0 b1 b2 b3, m.load8 a = .ok b0 ∧ m.load8 (a + 1) = .ok b1 ∧
        m.load8 (a + 2) = .ok b2 ∧ m.load8 (a + 3) = .ok b3 ∧
        x = b0 ||| (b1 <<< 8) ||| (b2 <<< 16) ||| (b3 <<< 24) ∧
        x = b0 + 256 * b1 + 65536 * b2 + 16777216 * b3 ∧ x < 4294967296) ∧
    (∀ x, m.load16 a = .ok x →
      ∃ b0 b1, m.load8 a = .ok b0 ∧ m.load8 (a + 1) = .ok b1 ∧
        x = b0 ||| (b1 <<< 8) ∧ x = b0 + 256 * b1 ∧ x < 65536) := by
  refine ⟨?_, ?_, ?_⟩
  · intro hs
    obtain ⟨hal, hb⟩ := store32_none m a v ha hs
    have hsz : (m.store32 a v).2.size = m.size := (store_size m a v).2.2
    have e0 : v &&& 0xFF = v % 256 := Nat.and_pow_two_sub_one_eq_mod v 8
    have e16 : v &&& 0xFFFF = v % 65536 := Nat.and_pow_two_sub_one_eq_mod v 16
    refine ⟨?_, ?_, ?_, ?_, ?_, ?_⟩
    · rw [load8_ok _ a ha (by omega), store32_cell m a v _ ha hal hb, if_pos rfl, e0]
    · rw [load8_ok _ (a + 1) (by omega) (by omega), store32_cell m a v _ ha hal hb,
        if_neg (by omega), if_pos rfl, shr_and_ff]
      norm_num
    · rw [load8_ok _ (a + 2) (by omega) (by omega), store32_cell m a v _ ha hal hb,
        if_neg (by omega), if_neg (by omega), if_pos rfl, shr_and_ff]
      norm_num
    · rw [load8_ok _ (a + 3) (by omega) (by omega), store32_cell m a v _ ha hal hb,
        if_neg (by omega), if_neg (by omega), if_neg (by omega), if_pos rfl, shr_and_ff]
      norm_num
    · rw [load16_ok _ a ha (by omega) (by omega), le16_eq _ _ (cell_lt _ _),
        store32_cell m a v _ ha hal hb, store32_cell m a v _ ha hal hb,
        if_pos (by omega), if_neg (by omega), if_pos (by omega), e16]
      congr 1
      omega
    · rw [load16_ok _ (a + 2) (by omega) (by omega) (by omega), le16_eq _ _ (cell_lt _ _),
        store32_cell m a v _ ha hal hb, store32_cell m a v _ ha hal hb,
        if_neg (by omega), if_neg (by omega), if_pos (by omega),
        if_neg (by omega), if_neg (by omega), if_neg (by omega), if_pos (by omega),
        Nat.shiftRight_eq_div_pow]
      congr 1
      omega
  · intro x hx
    obtain ⟨hal, hb⟩ := load32_some m a x ha hx
    rw [load32_ok m a ha hal hb] at hx
    have hx' := (Except.ok.inj hx).symm
    refine ⟨m.cell (a + 0), m.cell (a + 1), m.cell (a + 2), m.cell (a + 3),
      load8_ok m a ha (by omega), load8_ok m (a + 1) (by omega) (by omega),
      load8_ok m (a + 2) (by omega) (by omega), load8_ok m (a + 3) (by omega) (by omega),
      hx', ?_, ?_⟩
    · rw [hx', le32_eq _ _ _ _ (cell_lt _ _) (cell_lt _ _) (cell_lt _ _)]; omega
    · rw [hx', le32_eq _ _ _ _ (cell_lt _ _) (cell_lt _ _) (cell_lt _ _)]
      have := cell_lt m (a + 0); have := cell_lt m (a + 1)
      have := cell_lt m (a + 2); have := cell_lt m (a + 3)
      omega
  · intro x hx
    obtain ⟨hal, hb⟩ := load16_some m a x ha hx
    rw [load16_ok m a ha hal hb, le16_eq _ _ (cell_lt _ _)] at hx
    have h0 := cell_lt m (a + 0)
    have h1 := cell_lt m (a + 1)
    rw [Nat.mod_eq_of_lt (by omega)] at hx
    have hx' := (Except.ok.inj hx).symm
    refine ⟨m.cell (a + 0), m.cell (a + 1),
      load8_ok m a ha (by omega), load8_ok m (a + 1) (by omega) (by omega), ?_, ?_, ?_⟩
    · rw [hx', le16_eq _ _ h0]
    · rw [hx']; omega
    · rw [hx']; omega

theorem little_endian_layout_witness :
    (4 : Nat) < 4294967296 ∧ (0x12345678 : Nat) < 4294967296 ∧
      ((Memory.new 8).store32 4 0x12345678).1 = none ∧
      ((Memory.new 8).store32 4 0x12345678).2.load8 4 = .ok 0x78 ∧
      ((Memory.new 8).store32 4 0x12345678).2.load16 (4 + 2) = .ok 0x1234 :=
  have h := (little_endian_layout (Memory.new 8) 4 0x12345678 (by decide) (by decide)).1
    (by decide)
  ⟨by decide, by decide, by decide, h.1, h.2.2.2.2.2⟩

theorem load8_congr (m1 m2 : Memory) (j : Nat) (hs : m1.size = m2.size)
    (hc : m1.cell j = m2.cell j) : m1.load8 j = m2.load8 j := by
  unfold load8 check_addr
  unfold size at hs
  rw [hs, hc]

end Memory

/-- C8: store frame. A successful `store8`/`store16`/`store32` at a 32-bit
address `a` changes only the bytes `a .. a+N-1` (`N` = 1, 2, 4): `load8` at
every other address gives what it gave before; a store, successful or not,
keeps the capacity; a store that fails leaves the memory as it was; and a load
(a `const` member, issued by `step()` for opcode `0x03`) leaves the memory as
it was. -/
theorem store_frame (m : Memory) (a v : Nat) (ha : a < 4294967296) :
    ((m.store8 a v).1 = none → ∀ j, j ≠ a → (m.store8 a v).2.load8 j = m.load8 j) ∧
    ((m.store16 a v).1 = none → ∀ j, j < a ∨ a + 2 ≤ j →
      (m.store16 a v).2.load8 j = m.load8 j) ∧
    ((m.store32 a v).1 = none → ∀ j, j < a ∨ a + 4 ≤ j →
      (m.store32 a v).2.load8 j = m.load8 j) ∧
    ((m.store8 a v).2.size = m.size ∧ (m.store16 a v).2.size = m.size ∧
      (m.store32 a v).2.size = m.size) ∧
    ((m.store8 a v).1 ≠ none → (m.store8 a v).2 = m) ∧
    ((m.store16 a v).1 ≠ none → (m.store16 a v).2 = m) ∧
    ((m.store32 a v).1 ≠ none → (m.store32 a v).2 = m) ∧
    (∀ (c : CPU) (inst : Nat) (npc : Word), (c.step_load m inst npc).mem = m) := by
  refine ⟨?_, ?_, ?_, Memory.store_size m a v, Memory.store8_fail m a v,
    Memory.store16_fail m a v, Memory.store32_fail m a v, ?_⟩
  · intro hs j hj
    have hb := Memory.store8_none m a v ha hs
    apply Memory.load8_congr _ _ _ (Memory.store_size m a v).1
    rw [Memory.store8_cell m a v j ha hb, if_neg hj]
  · intro hs j hj
    obtain ⟨hal, hb⟩ := Memory.store16_none m a v ha hs
    apply Memory.load8_congr _ _ _ (Memory.store_size m a v).2.1
    rw [Memory.store16_cell m a v j ha hal hb, if_neg (by omega), if_neg (by omega)]
  · intro hs j hj
    obtain ⟨hal, hb⟩ := Memory.store32_none m a v ha hs
    apply Memory.load8_congr _ _ _ (Memory.store_size m a v).2.2
    rw [Memory.store32_cell m a v j ha hal hb, if_neg (by omega), if_neg (by omega),
      if_neg (by omega), if_neg (by omega)]
  · intro c inst npc
    unfold CPU.step_load; simp only []
    split
    · rfl
    · simp only [CPU.commit]

theorem store_frame_witness :
    (4 : Nat) < 4294967296 ∧ ((Memory.new 8).store32 4 0xFFFFFFFF).1 = none ∧
      ((Memory.new 8).store32 4 0xFFFFFFFF).2.load8 3 = (Memory.new 8).load8 3 ∧
      ((Memory.new 8).store32 4 0xFFFFFFFF).2.size = (Memory.new 8).size :=
  have h := store_frame (Memory.new 8) 4 0xFFFFFFFF (by decide)
  ⟨by decide, by decide, h.2.2.1 (by decide) 3 (by decide), h.2.2.2.1.2.2⟩

/-! ## Immediate decoding -/

theorem get_bits_eq_bits (x hi lo : Nat) : get_bits x hi lo = bits x hi lo := by
  unfold get_bits bits
  rw [Nat.shiftRight_eq_div_pow, Nat.one_shiftLeft, Nat.and_pow_two_sub_one_eq_mod]

theorem bits_lt (x hi lo : Nat) : bits x hi lo < 2 ^ (hi - lo + 1) :=
  Nat.mod_lt _ (Nat.two_pow_pos _)

theorem hi_or_lo (x y k : Nat) (hx : x % 2 ^ k = 0) (hy : y < 2 ^ k) : x ||| y = x + y := by
  have h := Nat.mul_add_lt_is_or hy (x / 2 ^ k)
  have hx' : 2 ^ k * (x / 2 ^ k) = x := by
    have := Nat.div_add_mod x (2 ^ k)
    omega
  rw [hx'] at h
  exact h.symm

theorem xor_two_pow_of_lt (x k : Nat) (hx : x < 2 ^ k) : x ^^^ 2 ^ k = x + 2 ^ k := by
  apply Nat.eq_of_testBit_eq
  intro i
  have h1 : x + 2 ^ k = 2 ^ k * 1 + x := by omega
  rw [h1, Nat.mul_add_lt_is_or hx 1, Nat.testBit_xor, Nat.testBit_or, Nat.mul_one,
    Nat.testBit_two_pow]
  by_cases hik : k = i
  · subst hik
    simp [Nat.testBit_lt_two_pow hx]
  · simp [hik]

theorem xor_two_pow_of_ge (x k : Nat) (h1 : 2 ^ k ≤ x) (h2 : x < 2 ^ (k + 1)) :
    x ^^^ 2 ^ k = x - 2 ^ k := by
  have hp : 2 ^ (k + 1) = 2 * 2 ^ k := by rw [Nat.pow_succ]; omega
  have hy : x - 2 ^ k < 2 ^ k := by omega
  have h := xor_two_pow_of_lt (x - 2 ^ k) k hy
  have hx : x = (x - 2 ^ k) ^^^ 2 ^ k := by rw [h]; omega
  conv_lhs => rw [hx]
  rw [Nat.xor_assoc, Nat.xor_self, Nat.xor_zero]

/-- What `sign_extend(x, n)` computes on an `n`-bit pattern, `1 ≤ n ≤ 32`. -/
theorem sign_extend_eq (x n : Nat) (h1 : 1 ≤ n) (h2 : n ≤ 32) (hx : x < 2 ^ n) :
    sign_extend x n = twos_complement n x := by
  unfold sign_extend twos_complement i32
  simp only []
  rw [Nat.one_shiftLeft]
  have hn : 2 ^ n = 2 * 2 ^ (n - 1) := by
    have : n = (n - 1) + 1 := by omega
    conv_lhs => rw [this, Nat.pow_succ]
    omega
  have hP : 2 ^ (n - 1) ≤ 2 ^ 31 := Nat.pow_le_pow_right (by decide) (by omega)
  have hP0 : 0 < 2 ^ (n - 1) := Nat.two_pow_pos _
  norm_num at hP
  rw [Nat.mod_eq_of_lt (by omega : 2 ^ (n - 1) < 4294967296)]
  by_cases hlt : x < 2 ^ (n - 1)
  · rw [xor_two_pow_of_lt x (n - 1) hlt, if_pos hlt]
    rw [hn] at hx
    generalize 2 ^ (n - 1) = P at *
    have e : (x + P + 4294967296 - P) % 4294967296 % 4294967296 = x := by omega
    rw [e, if_pos (by omega)]
  · have hx2 : x < 2 ^ ((n - 1) + 1) := by
      rw [Nat.pow_succ]; omega
    rw [xor_two_pow_of_ge x (n - 1) (by omega) hx2, if_neg hlt]
    rw [hn] at hx ⊢
    generalize 2 ^ (n - 1) = P at *
    have e : (x - P + 4294967296 - P) % 4294967296 % 4294967296 =
        x + 4294967296 - 2 * P := by omega
    rw [e, if_neg (by omega)]
    push_cast
    omega

theorem imm_b_eq_spec (w : Nat) : imm_b w = imm_b_spec w := by
  unfold imm_b imm_b_spec
  simp only []
  rw [get_bits_eq_bits, get_bits_eq_bits, get_bits_eq_bits, get_bits_eq_bits]
  have hs := bits_lt w 31 31
  have h7 := bits_lt w 7 7
  have hh := bits_lt w 30 25
  have hl := bits_lt w 11 8
  norm_num at hs h7 hh hl
  generalize bits w 31 31 = s at *
  generalize bits w 7 7 = b7 at *
  generalize bits w 30 25 = hi at *
  generalize bits w 11 8 = lo at *
  rw [Nat.shiftLeft_eq, Nat.shiftLeft_eq, Nat.shiftLeft_eq, Nat.shiftLeft_eq]
  rw [hi_or_lo (s * 2 ^ 12) (b7 * 2 ^ 11) 12 (by omega) (by omega),
    hi_or_lo _ (hi * 2 ^ 5) 11 (by omega) (by omega),
    hi_or_lo _ (lo * 2 ^ 1) 5 (by omega) (by omega)]
  exact sign_extend_eq _ 13 (by decide) (by decide) (by omega)

theorem imm_j_eq_spec (w : Nat) : imm_j w = imm_j_spec w := by
  unfold imm_j imm_j_spec
  simp only []
  rw [get_bits_eq_bits, get_bits_eq_bits, get_bits_eq_bits, get_bits_eq_bits]
  have hs := bits_lt w 31 31
  have h19 := bits_lt w 19 12
  have h20 := bits_lt w 20 20
  have hl := bits_lt w 30 21
  norm_num at hs h19 h20 hl
  generalize bits w 31 31 = s at *
  generalize bits w 19 12 = hi at *
  generalize bits w 20 20 = b11 at *
  generalize bits w 30 21 = lo at *
  rw [Nat.shiftLeft_eq, Nat.shiftLeft_eq, Nat.shiftLeft_eq, Nat.shiftLeft_eq]
  rw [hi_or_lo (s * 2 ^ 20) (hi * 2 ^ 12) 20 (by omega) (by omega),
    hi_or_lo _ (b11 * 2 ^ 11) 12 (by omega) (by omega),
    hi_or_lo _ (lo * 2 ^ 1) 11 (by omega) (by omega)]
  exact sign_extend_eq _ 21 (by decide) (by decide) (by omega)

theorem imm_b_formula (w : Nat) :
    imm_b w = ((bits w 7 7 * 2048 + bits w 30 25 * 32 + bits w 11 8 * 2 : Nat) : Int) -
      ((bits w 31 31 * 4096 : Nat) : Int) := by
  rw [imm_b_eq_spec]
  unfold imm_b_spec twos_complement
  have hs := bits_lt w 31 31
  have h7 := bits_lt w 7 7
  have hh := bits_lt w 30 25
  have hl := bits_lt w 11 8
  norm_num at hs h7 hh hl ⊢
  generalize bits w 31 31 = s at *
  generalize bits w 7 7 = b7 at *
  generalize bits w 30 25 = hi at *
  generalize bits w 11 8 = lo at *
  split_ifs <;> omega

theorem b_fields (s b7 hi lo : Nat) (hs : s < 2) (h7 : b7 < 2) (hh : hi < 64) (hl : lo < 16) :
    bits (s * 2147483648 + hi * 33554432 + lo * 256 + b7 * 128) 31 31 = s ∧
    bits (s * 2147483648 + hi * 33554432 + lo * 256 + b7 * 128) 7 7 = b7 ∧
    bits (s * 2147483648 + hi * 33554432 + lo * 256 + b7 * 128) 30 25 = hi ∧
    bits (s * 2147483648 + hi * 33554432 + lo * 256 + b7 * 128) 11 8 = lo := by
  unfold bits
  norm_num
  refine ⟨?_, ?_, ?_, ?_⟩ <;> omega

theorem imm_b_onto (k : Int) (hk : k % 2 = 0) (h1 : -4096 ≤ k) (h2 : k ≤ 4094) :
    ∃ w, w < 4294967296 ∧ imm_b w = k := by
  obtain ⟨u, hu⟩ : ∃ u : Nat, (u : Int) = k % 8192 := ⟨(k % 8192).toNat, by omega⟩
  obtain ⟨s, b7, hi, lo, hdec, hs, h7, hh, hl⟩ : ∃ s b7 hi lo : Nat,
      u = s * 4096 + b7 * 2048 + hi * 32 + lo * 2 ∧ s < 2 ∧ b7 < 2 ∧ hi < 64 ∧ lo < 16 :=
    ⟨u / 4096, u / 2048 % 2, u / 32 % 64, u / 2 % 16, by omega, by omega, by omega,
      by omega, by omega⟩
  refine ⟨s * 2147483648 + hi * 33554432 + lo * 256 + b7 * 128, by omega, ?_⟩
  obtain ⟨f1, f2, f3, f4⟩ := b_fields s b7 hi lo hs h7 hh hl
  rw [imm_b_formula, f1, f2, f3, f4]
  omega

/-- C9: B-type immediate decode is exact. For every word `w`, `imm_b(w)` is the
13-bit two's-complement value with bit 12 = `w[31]`, bit 11 = `w[7]`, bits
10:5 = `w[30:25]`, bits 4:1 = `w[11:8]` and bit 0 = 0 (`imm_b_spec`); it is
even and lies in [-4096, 4094]; it depends on no other bit of `w`; words with
the same immediate agree on those 12 bits, and every even offset in the range
is the immediate of some 32-bit word; `0xFE209EE3` decodes to -4. -/
theorem imm_b_exact (w : Nat) :
    imm_b w = imm_b_spec w ∧
    imm_b w % 2 = 0 ∧ -4096 ≤ imm_b w ∧ imm_b w ≤ 4094 ∧
    (∀ w', bits w' 31 31 = bits w 31 31 → bits w' 7 7 = bits w 7 7 →
      bits w' 30 25 = bits w 30 25 → bits w' 11 8 = bits w 11 8 → imm_b w' = imm_b w) ∧
    (∀ w', imm_b w' = imm_b w →
      bits w' 31 31 = bits w 31 31 ∧ bits w' 7 7 = bits w 7 7 ∧
      bits w' 30 25 = bits w 30 25 ∧ bits w' 11 8 = bits w 11 8) ∧
    (∀ k : Int, k % 2 = 0 → -4096 ≤ k → k ≤ 4094 → ∃ w', w' < 4294967296 ∧ imm_b w' = k) ∧
    imm_b 0xFE209EE3 = -4 := by
  have hs := bits_lt w 31 31
  have h7 := bits_lt w 7 7
  have hh := bits_lt w 30 25
  have hl := bits_lt w 11 8
  norm_num at hs h7 hh hl
  refine ⟨imm_b_eq_spec w, ?_, ?_, ?_, ?_, ?_, imm_b_onto, ?_⟩
  · rw [imm_b_formula]; omega
  · rw [imm_b_formula]; omega
  · rw [imm_b_formula]; omega
  · intro w' e1 e2 e3 e4
    rw [imm_b_formula, imm_b_formula, e1, e2, e3, e4]
  · intro w' he
    rw [imm_b_formula, imm_b_formula] at he
    have hs' := bits_lt w' 31 31
    have h7' := bits_lt w' 7 7
    have hh' := bits_lt w' 30 25
    have hl' := bits_lt w' 11 8
    norm_num at hs' h7' hh' hl'
    omega
  · rw [imm_b_formula]
    unfold bits
    norm_num

theorem imm_j_formula (w : Nat) :
    imm_j w = ((bits w 19 12 * 4096 + bits w 20 20 * 2048 + bits w 30 21 * 2 : Nat) : Int) -
      ((bits w 31 31 * 1048576 : Nat) : Int) := by
  rw [imm_j_eq_spec]
  unfold imm_j_spec twos_complement
  have hs := bits_lt w 31 31
  have h19 := bits_lt w 19 12
  have h20 := bits_lt w 20 20
  have hl := bits_lt w 30 21
  norm_num at hs h19 h20 hl ⊢
  generalize bits w 31 31 = s at *
  generalize bits w 19 12 = hi at *
  generalize bits w 20 20 = b11 at *
  generalize bits w 30 21 = lo at *
  split_ifs <;> omega

theorem j_fields (s hi b11 lo : Nat) (hs : s < 2) (hh : hi < 256) (h11 : b11 < 2)
    (hl : lo < 1024) :
    bits (s * 2147483648 + lo * 2097152 + b11 * 1048576 + hi * 4096) 31 31 = s ∧
    bits (s * 2147483648 + lo * 2097152 + b11 * 1048576 + hi * 4096) 19 12 = hi ∧
    bits (s * 2147483648 + lo * 2097152 + b11 * 1048576 + hi * 4096) 20 20 = b11 ∧
    bits (s * 2147483648 + lo * 2097152 + b11 * 1048576 + hi * 4096) 30 21 = lo := by
  unfold bits
  norm_num
  refine ⟨?_, ?_, ?_, ?_⟩ <;> omega

theorem imm_j_onto (k : Int) (hk : k % 2 = 0) (h1 : -1048576 ≤ k) (h2 : k ≤ 1048574) :
    ∃ w, w < 4294967296 ∧ imm_j w = k := by
  obtain ⟨u, hu⟩ : ∃ u : Nat, (u : Int) = k % 2097152 := ⟨(k % 2097152).toNat, by omega⟩
  obtain ⟨s, hi, b11, lo, hdec, hs, hh, h11, hl⟩ : ∃ s hi b11 lo : Nat,
      u = s * 1048576 + hi * 4096 + b11 * 2048 + lo * 2 ∧
        s < 2 ∧ hi < 256 ∧ b11 < 2 ∧ lo < 1024 :=
    ⟨u / 1048576, u / 4096 % 256, u / 2048 % 2, u / 2 % 1024, by omega, by omega, by omega,
      by omega, by omega⟩
  refine ⟨s * 2147483648 + lo * 2097152 + b11 * 1048576 + hi * 4096, by omega, ?_⟩
  obtain ⟨f1, f2, f3, f4⟩ := j_fields s hi b11 lo hs hh h11 hl
  rw [imm_j_formula, f1, f2, f3, f4]
  omega

theorem bits_31_12 (w : Nat) :
    bits w 31 12 =
      bits w 19 12 + bits w 20 20 * 256 + bits w 30 21 * 512 + bits w 31 31 * 524288 := by
  unfold bits
  norm_num
  omega

theorem bits_of_high (w w' hi lo : Nat) (hlo : 12 ≤ lo) (h : w' / 4096 = w / 4096) :
    bits w' hi lo = bits w hi lo := by
  unfold bits
  have e : ∀ x : Nat, x / 2 ^ lo = x / 4096 / 2 ^ (lo - 12) := by
    intro x
    rw [Nat.div_div_eq_div_mul]
    congr 1
    have : lo = 12 + (lo - 12) := by omega
    conv_lhs => rw [this, Nat.pow_add]
  rw [e w', e w, h]

/-- C10: J-type immediate decode is exact. For every word `w`, `imm_j(w)` is
the 21-bit two's-complement value with bit 20 = `w[31]`, bits 19:12 =
`w[19:12]`, bit 11 = `w[20]`, bits 10:1 = `w[30:21]` and bit 0 = 0
(`imm_j_spec`); it is even and lies in [-1048576, 1048574]; it depends on no
bit of `w` below bit 12; words with the same immediate agree on `w[31:12]`,
and every even offset in the range is the immediate of some 32-bit word. -/
theorem imm_j_exact (w : Nat) :
    imm_j w = imm_j_spec w ∧
    imm_j w % 2 = 0 ∧ -1048576 ≤ imm_j w ∧ imm_j w ≤ 1048574 ∧
    (∀ w', w' / 4096 = w / 4096 → imm_j w' = imm_j w) ∧
    (∀ w', imm_j w' = imm_j w → bits w' 31 12 = bits w 31 12) ∧
    (∀ k : Int, k % 2 = 0 → -1048576 ≤ k → k ≤ 1048574 →
      ∃ w', w' < 4294967296 ∧ imm_j w' = k) := by
  have hs := bits_lt w 31 31
  have h19 := bits_lt w 19 12
  have h20 := bits_lt w 20 20
  have hl := bits_lt w 30 21
  norm_num at hs h19 h20 hl
  refine ⟨imm_j_eq_spec w, ?_, ?_, ?_, ?_, ?_, imm_j_onto⟩
  · rw [imm_j_formula]; omega
  · rw [imm_j_formula]; omega
  · rw [imm_j_formula]; omega
  · intro w' e
    rw [imm_j_formula, imm_j_formula, bits_of_high w w' 19 12 (by decide) e,
      bits_of_high w w' 20 20 (by decide) e, bits_of_high w w' 30 21 (by decide) e,
      bits_of_high w w' 31 31 (by decide) e]
  · intro w' he
    rw [imm_j_formula, imm_j_formula] at he
    have hs' := bits_lt w' 31 31
    have h19' := bits_lt w' 19 12
    have h20' := bits_lt w' 20 20
    have hl' := bits_lt w' 30 21
    norm_num at hs' h19' h20' hl'
    rw [bits_31_12, bits_31_12]
    omega

end rv

namespace rv
namespace CPU

/-! ## Which arm of `step()` runs -/

/-- After a successful fetch of `w`, `step()` is its chain of arms on `w`. -/
theorem step_of_fetch (c : CPU) (m : Memory) (w : Nat) (hf : m.load32 c.pc_.val = .ok w) :
    c.step m =
      if w = 0x00100073 then ⟨some Exn.EBREAK, c, m⟩
      else if w = 0x00000073 then ⟨some Exn.ECALL, c, m⟩
      else if get_bits w 6 0 = 0x73 ∧ get_bits w 14 12 ≠ 0x0 then
        step_csr c m w (u32 (c.pc_.val + 4))
      else if get_bits w 6 0 = 0x0F then commit c m (u32 (c.pc_.val + 4))
      else if get_bits w 6 0 = 0x13 then step_op_imm c m w (u32 (c.pc_.val + 4))
      else if get_bits w 6 0 = 0x03 then step_load c m w (u32 (c.pc_.val + 4))
      else if get_bits w 6 0 = 0x23 then step_store c m w (u32 (c.pc_.val + 4))
      else if get_bits w 6 0 = 0x6F then step_jal c m w
      else if get_bits w 6 0 = 0x67 ∧ get_bits w 14 12 = 0x0 then step_jalr c m w
      else if get_bits w 6 0 = 0x37 then step_lui c m w (u32 (c.pc_.val + 4))
      else if get_bits w 6 0 = 0x17 then step_auipc c m w (u32 (c.pc_.val + 4))
      else if get_bits w 6 0 = 0x63 then step_branch c m w (u32 (c.pc_.val + 4))
      else if get_bits w 6 0 = 0x33 then step_op c m w (u32 (c.pc_.val + 4))
      else ⟨some Exn.ILLEGAL, c, m⟩ := by
  unfold step
  rw [hf]

theorem opcode_ne_halt (w : Nat) (h : get_bits w 6 0 ≠ 0x73) :
    w ≠ 0x00100073 ∧ w ≠ 0x00000073 := by
  constructor
  · intro hw; subst hw; revert h; decide
  · intro hw; subst hw; revert h; decide

theorem step_eq_csr (c : CPU) (m : Memory) (w : Nat) (hf : m.load32 c.pc_.val = .ok w)
    (hop : get_bits w 6 0 = 0x73) (hf3 : get_bits w 14 12 ≠ 0) :
    c.step m = step_csr c m w (u32 (c.pc_.val + 4)) := by
  have h1 : w ≠ 0x00100073 := by intro hw; subst hw; revert hf3; decide
  have h2 : w ≠ 0x00000073 := by intro hw; subst hw; revert hf3; decide
  rw [step_of_fetch c m w hf, if_neg h1, if_neg h2, if_pos ⟨hop, hf3⟩]

theorem step_eq_fence (c : CPU) (m : Memory) (w : Nat) (hf : m.load32 c.pc_.val = .ok w)
    (hop : get_bits w 6 0 = 0xF) :
    c.step m = commit c m (u32 (c.pc_.val + 4)) := by
  have hne := opcode_ne_halt w (by rw [hop]; decide)
  rw [step_of_fetch c m w hf, if_neg hne.1, if_neg hne.2, hop]
  rw [if_neg (fun h => absurd h.1 (by decide)), if_pos rfl]

theorem step_eq_op_imm (c : CPU) (m : Memory) (w : Nat) (hf : m.load32 c.pc_.val = .ok w)
    (hop : get_bits w 6 0 = 0x13) :
    c.step m = step_op_imm c m w (u32 (c.pc_.val + 4)) := by
  have hne := opcode_ne_halt w (by rw [hop]; decide)
  rw [step_of_fetch c m w hf, if_neg hne.1, if_neg hne.2, hop]
  rw [if_neg (fun h => absurd h.1 (by decide)), if_neg (by decide), if_pos rfl]

theorem step_eq_load (c : CPU) (m : Memory) (w : Nat) (hf : m.load32 c.pc_.val = .ok w)
    (hop : get_bits w 6 0 = 0x3) :
    c.step m = step_load c m w (u32 (c.pc_.val + 4)) := by
  have hne := opcode_ne_halt w (by rw [hop]; decide)
  rw [step_of_fetch c m w hf, if_neg hne.1, if_neg hne.2, hop]
  rw [if_neg (fun h => absurd h.1 (by decide)), if_neg (by decide), if_neg (by decide), if_pos
    rfl]

theorem step_eq_store (c : CPU) (m : Memory) (w : Nat) (hf : m.load32 c.pc_.val = .ok w)
    (hop : get_bits w 6 0 = 0x23) :
    c.step m = step_store c m w (u32 (c.pc_.val + 4)) := by
  have hne := opcode_ne_halt w (by rw [hop]; decide)
  rw [step_of_fetch c m w hf, if_neg hne.1, if_neg hne.2, hop]
  rw [if_neg (fun h => absurd h.1 (by decide)), if_neg (by decide), if_neg (by decide), if_neg
    (by decide), if_pos rfl]

theorem step_eq_jal (c : CPU) (m : Memory) (w : Nat) (hf : m.load32 c.pc_.val = .ok w)
    (hop : get_bits w 6 0 = 0x6F) :
    c.step m = step_jal c m w := by
  have hne := opcode_ne_halt w (by rw [hop]; decide)
  rw [step_of_fetch c m w hf, if_neg hne.1, if_neg hne.2, hop]
  rw [if_neg (fun h => absurd h.1 (by decide)), if_neg (by decide), if_neg (by decide), if_neg
    (by decide), if_neg (by decide), if_pos rfl]

theorem step_eq_jalr (c : CPU) (m : Memory) (w : Nat) (hf : m.load32 c.pc_.val = .ok w)
    (hop : get_bits w 6 0 = 0x67) (hf3 : get_bits w 14 12 = 0) :
    c.step m = step_jalr c m w := by
  have hne := opcode_ne_halt w (by rw [hop]; decide)
  rw [step_of_fetch c m w hf, if_neg hne.1, if_neg hne.2, hop]
  rw [if_neg (fun h => absurd h.1 (by decide)), if_neg (by decide), if_neg (by decide), if_neg
    (by decide), if_neg (by decide), if_neg (by decide), if_pos ⟨rfl, hf3⟩]

theorem step_eq_lui (c : CPU) (m : Memory) (w : Nat) (hf : m.load32 c.pc_.val = .ok w)
    (hop : get_bits w 6 0 = 0x37) :
    c.step m = step_lui c m w (u32 (c.pc_.val + 4)) := by
  have hne := opcode_ne_halt w (by rw [hop]; decide)
  rw [step_of_fetch c m w hf, if_neg hne.1, if_neg hne.2, hop]
  rw [if_neg (fun h => absurd h.1 (by decide)), if_neg (by decide), if_neg (by decide), if_neg
    (by decide), if_neg (by decide), if_neg (by decide), if_neg (fun h => absurd h.1 (by decide)),
    if_pos rfl]

theorem step_eq_auipc (c : CPU) (m : Memory) (w : Nat) (hf : m.load32 c.pc_.val = .ok w)
    (hop : get_bits w 6 0 = 0x17) :
    c.step m = step_auipc c m w (u32 (c.pc_.val + 4)) := by
  have hne := opcode_ne_halt w (by rw [hop]; decide)
  rw [step_of_fetch c m w hf, if_neg hne.1, if_neg hne.2, hop]
  rw [if_neg (fun h => absurd h.1 (by decide)), if_neg (by decide), if_neg (by decide), if_neg
    (by decide), if_neg (by decide), if_neg (by decide), if_neg (fun h => absurd h.1 (by decide)),
    if_neg (by decide), if_pos rfl]

theorem step_eq_branch (c : CPU) (m : Memory) (w : Nat) (hf : m.load32 c.pc_.val = .ok w)
    (hop : get_bits w 6 0 = 0x63) :
    c.step m = step_branch c m w (u32 (c.pc_.val + 4)) := by
  have hne := opcode_ne_halt w (by rw [hop]; decide)
  rw [step_of_fetch c m w hf, if_neg hne.1, if_neg hne.2, hop]
  rw [if_neg (fun h => absurd h.1 (by decide)), if_neg (by decide), if_neg (by decide), if_neg
    (by decide), if_neg (by decide), if_neg (by decide), if_neg (fun h => absurd h.1 (by decide)),
    if_neg (by decide), if_neg (by decide), if_pos rfl]

theorem step_eq_op (c : CPU) (m : Memory) (w : Nat) (hf : m.load32 c.pc_.val = .ok w)
    (hop : get_bits w 6 0 = 0x33) :
    c.step m = step_op c m w (u32 (c.pc_.val + 4)) := by
  have hne := opcode_ne_halt w (by rw [hop]; decide)
  rw [step_of_fetch c m w hf, if_neg hne.1, if_neg hne.2, hop]
  rw [if_neg (fun h => absurd h.1 (by decide)), if_neg (by decide), if_neg (by decide), if_neg
    (by decide), if_neg (by decide), if_neg (by decide), if_neg (fun h => absurd h.1 (by decide)),
    if_neg (by decide), if_neg (by decide), if_neg (by decide), if_pos rfl]

theorem step_eq_ebreak (c : CPU) (m : Memory) (hf : m.load32 c.pc_.val = .ok 0x00100073) :
    c.step m = ⟨some Exn.EBREAK, c, m⟩ := by
  rw [step_of_fetch c m _ hf, if_pos rfl]

theorem step_eq_ecall (c : CPU) (m : Memory) (hf : m.load32 c.pc_.val = .ok 0x00000073) :
    c.step m = ⟨some Exn.ECALL, c, m⟩ := by
  rw [step_of_fetch c m _ hf, if_neg (by decide), if_pos rfl]

/-! ## Register 0 in reachable states, and the state after `commit` -/

theorem reachable_reg_zero (c : CPU) (hc : Reachable c) : c.regs_ 0 = 0 := by
  induction hc with
  | reset c0 s => simp [reset]
  | step c1 m1 _ ih =>
    cases hx : (c1.step m1).exn with
    | some e =>
      have := step_fail c1 m1 (by rw [hx]; simp)
      rw [this.1]; exact ih
    | none =>
      obtain ⟨inst, hf⟩ := step_fetch_of_ok c1 m1 hx
      obtain ⟨v, hv⟩ := step_regs c1 m1 inst hf hx
      simp only [hv, Function.update_same]

theorem set_reg_of_write_rd (c : CPU) (rd : Fin 32) (v : Word) (h0 : c.regs_ 0 = 0) :
    Function.update (c.write_rd rd v).regs_ 0 0 = set_reg c.regs_ rd v := by
  funext i
  unfold write_rd set_reg
  by_cases hrd : rd ≠ 0
  · rw [if_pos hrd]
    by_cases hi0 : i = 0
    · subst hi0
      rw [Function.update_same, if_neg (fun h => hrd h.1.symm), h0]
    · rw [Function.update_noteq hi0]
      by_cases hir : i = rd
      · subst hir
        simp only [Function.update_same, hrd, ne_eq, not_false_eq_true, and_self, if_true]
      · simp only [Function.update_noteq hir, hir, false_and, if_false]
  · rw [if_neg hrd, if_neg (fun h => hrd h.2), ← h0, Function.update_eq_self]

theorem update_zero_self (c : CPU) (h0 : c.regs_ 0 = 0) :
    Function.update c.regs_ 0 0 = c.regs_ := by
  rw [← h0, Function.update_eq_self]

/-- The result of `commit` after the guarded write back, when register 0 holds 0. -/
theorem commit_write_rd (c : CPU) (m : Memory) (rd : Fin 32) (v npc : Word)
    (h0 : c.regs_ 0 = 0) :
    commit (c.write_rd rd v) m npc =
      ⟨none, { pc_ := npc, regs_ := set_reg c.regs_ rd v, trace_ := c.trace_, csr_ := c.csr_ },
        m⟩ := by
  unfold commit
  rw [set_reg_of_write_rd c rd v h0]
  unfold write_rd
  split <;> rfl

/-- The result of `commit` when no register was written and register 0 holds 0. -/
theorem commit_same (c : CPU) (m : Memory) (npc : Word) (h0 : c.regs_ 0 = 0) :
    commit c m npc =
      ⟨none, { pc_ := npc, regs_ := c.regs_, trace_ := c.trace_, csr_ := c.csr_ }, m⟩ := by
  unfold commit
  rw [update_zero_self c h0]

/-! ## 32-bit arithmetic -/

theorem u32_val (n : Nat) : (u32 n).val = n % 4294967296 := rfl

theorem u32_val_of_lt (n : Nat) (h : n < 4294967296) : (u32 n).val = n := by
  rw [u32_val, Nat.mod_eq_of_lt h]

theorem u32_self (x : Word) : u32 x.val = x := by
  apply Fin.ext
  exact u32_val_of_lt _ x.isLt

theorem ofInt32_eq_mod32 (i : Int) : ofInt32 i = (mod32 i).val := rfl

theorem u32_add_ofInt32 (a : Nat) (i : Int) :
    u32 (a + ofInt32 i) = mod32 ((a : Int) + i) := by
  apply Fin.ext
  show (a + ofInt32 i) % 4294967296 = (((a : Int) + i) % 4294967296).toNat
  unfold ofInt32
  omega

theorem add_ofInt32_mod (a : Nat) (i : Int) :
    (a + ofInt32 i) % 4294967296 = (mod32 ((a : Int) + i)).val := by
  show (a + ofInt32 i) % 4294967296 = (((a : Int) + i) % 4294967296).toNat
  unfold ofInt32
  omega

theorem u32_add_four (a : Nat) : u32 (a + 4) = mod32 ((a : Int) + 4) := by
  apply Fin.ext
  show (a + 4) % 4294967296 = (((a : Int) + 4) % 4294967296).toNat
  omega

theorem and_not32_one (x : Nat) (hx : x < 4294967296) : x &&& not32 1 = x - x % 2 := by
  have hn : not32 1 = 4294967294 := by decide
  rw [hn]
  have h1 : x &&& 4294967295 = x := by
    have := Nat.and_pow_two_sub_one_eq_mod x 32
    norm_num at this
    rw [this, Nat.mod_eq_of_lt hx]
  have h2 : (4294967294 : Nat) ||| 1 = 4294967295 := by decide
  have hne : (x &&& 4294967294) % 2 ≠ 1 := by
    intro h
    have := (Nat.and_mod_two_eq_one.1 h).2
    revert this; decide
  have h3 : (x &&& 4294967294) % 2 ^ 1 = 0 := by omega
  have h5 : x &&& 1 = x % 2 := Nat.and_one_is_mod x
  have h6 := Nat.and_or_distrib_left x 4294967294 1
  rw [h2, h1, h5, hi_or_lo (x &&& 4294967294) (x % 2) 1 h3 (by omega)] at h6
  omega

theorem sign_extend_12 (w : Nat) : sign_extend (get_bits w 31 20) 12 = sext12 w := by
  rw [get_bits_eq_bits]
  exact sign_extend_eq _ 12 (by decide) (by decide) (bits_lt w 31 20)

theorem i32_eq_signed32 (x : Nat) (hx : x < 4294967296) : i32 x = signed32 x := by
  unfold i32 signed32 twos_complement
  rw [Nat.mod_eq_of_lt hx]
  norm_num

end CPU

namespace Memory

theorem load32_lt (m : Memory) (a x : Nat) (ha : a < 4294967296) (h : m.load32 a = .ok x) :
    x < 4294967296 := by
  obtain ⟨hal, hb⟩ := load32_some m a x ha h
  rw [load32_ok m a ha hal hb] at h
  rw [← Except.ok.inj h, le32_eq _ _ _ _ (cell_lt _ _) (cell_lt _ _) (cell_lt _ _)]
  have := cell_lt m (a + 0); have := cell_lt m (a + 1)
  have := cell_lt m (a + 2); have := cell_lt m (a + 3)
  omega

end Memory

namespace CPU

/-! ## Branches -/

theorem step_branch_eq (c : CPU) (m : Memory) (w : Nat) (npc : Word) (h0 : c.regs_ 0 = 0)
    (hf3 : get_bits w 14 12 ∈ [0, 1, 4, 5, 6, 7]) :
    step_branch c m w npc =
      ⟨none,
        { pc_ := if branch_taken (get_bits w 14 12) (c.regs_ (rs1_field w)).val
              (c.regs_ (rs2_field w)).val
            then u32 (c.pc_.val + ofInt32 (imm_b w)) else npc,
          regs_ := c.regs_, trace_ := c.trace_, csr_ := c.csr_ }, m⟩ := by
  unfold step_branch branch_taken
  simp only []
  have hx := (c.regs_ (rs1_field w)).isLt
  have hy := (c.regs_ (rs2_field w)).isLt
  rw [i32_eq_signed32 _ hx, i32_eq_signed32 _ hy]
  generalize (c.regs_ (rs1_field w)).val = x at *
  generalize (c.regs_ (rs2_field w)).val = y at *
  have hlt : get_bits w 14 12 < 8 := get_bits_lt w 14 12
  generalize get_bits w 14 12 = f3 at hlt hf3 ⊢
  interval_cases f3 <;> simp at hf3 <;> simp [commit_same _ _ _ h0]

/-- C11: branch semantics. In a reachable state, for every fetched word with
opcode `0x63` and `funct3` in {0,1,4,5,6,7}, the step completes, changes no
register, CSR or memory byte, and sets PC to `(PC + imm_b(w)) mod 2^32` when
the condition holds (`branch_taken`: equal, not equal, signed less-than, signed
greater-or-equal, unsigned less-than, unsigned greater-or-equal) and to
`(PC + 4) mod 2^32` otherwise; with `rs1 = 0xFFFFFFFF` and `rs2 = 0`, BLT is
taken and BLTU is not. -/
theorem branch_semantics (c : CPU) (hc : Reachable c) (m : Memory) (w : Nat)
    (hf : m.load32 c.pc_.val = .ok w) (hop : get_bits w 6 0 = 0x63)
    (hf3 : get_bits w 14 12 ∈ [0, 1, 4, 5, 6, 7]) :
    (c.step m).exn = none ∧ (c.step m).cpu.regs_ = c.regs_ ∧
    (c.step m).cpu.csr_ = c.csr_ ∧ (c.step m).mem = m ∧
    (c.step m).cpu.pc_ =
      (if branch_taken (get_bits w 14 12) (c.regs_ (rs1_field w)).val
          (c.regs_ (rs2_field w)).val
        then mod32 ((c.pc_.val : Int) + imm_b w) else mod32 ((c.pc_.val : Int) + 4)) ∧
    branch_taken 4 0xFFFFFFFF 0 = true ∧ branch_taken 6 0xFFFFFFFF 0 = false := by
  rw [step_eq_branch c m w hf hop, step_branch_eq c m w _ (reachable_reg_zero c hc) hf3]
  refine ⟨rfl, rfl, rfl, rfl, ?_, by decide, by decide⟩
  dsimp only
  split
  · exact u32_add_ofInt32 _ _
  · exact u32_add_four _

theorem branch_semantics_witness :
    Reachable CPU.new ∧ mem_beq.load32 CPU.new.pc_.val = .ok 0x00000263 ∧
      get_bits 0x00000263 6 0 = 0x63 ∧ get_bits 0x00000263 14 12 ∈ [0, 1, 4, 5, 6, 7] ∧
      (CPU.new.step mem_beq).exn = none ∧ (CPU.new.step mem_beq).cpu.pc_ = 4 :=
  have h := branch_semantics CPU.new (Reachable.reset _ 0) mem_beq 0x00000263 rfl
    (by decide) (by decide)
  ⟨Reachable.reset _ 0, rfl, by decide, by decide, h.1, h.2.2.2.2.1.trans (by decide)⟩

/-! ## Jumps -/

theorem step_jal_eq (c : CPU) (m : Memory) (w : Nat) (h0 : c.regs_ 0 = 0) :
    step_jal c m w =
      ⟨none,
        { pc_ := mod32 ((c.pc_.val : Int) + imm_j w),
          regs_ := set_reg c.regs_ (rd_field w) (mod32 ((c.pc_.val : Int) + 4)),
          trace_ := c.trace_, csr_ := c.csr_ }, m⟩ := by
  unfold step_jal
  simp only []
  rw [commit_write_rd _ _ _ _ _ h0, u32_add_four, u32_add_ofInt32]

theorem step_jalr_eq (c : CPU) (m : Memory) (w : Nat) (h0 : c.regs_ 0 = 0) :
    step_jalr c m w =
      ⟨none,
        { pc_ := clear_bit0 (mod32 (((c.regs_ (rs1_field w)).val : Int) + sext12 w)),
          regs_ := set_reg c.regs_ (rd_field w) (mod32 ((c.pc_.val : Int) + 4)),
          trace_ := c.trace_, csr_ := c.csr_ }, m⟩ := by
  unfold step_jalr
  simp only []
  have ht : u32 ((((c.regs_ (rs1_field w)).val + ofInt32 (sign_extend (get_bits w 31 20) 12))
      % 4294967296) &&& not32 1) =
      clear_bit0 (mod32 (((c.regs_ (rs1_field w)).val : Int) + sext12 w)) := by
    apply Fin.ext
    rw [u32_val, sign_extend_12, add_ofInt32_mod,
      and_not32_one _ (mod32 _).isLt]
    have := (mod32 (((c.regs_ (rs1_field w)).val : Int) + sext12 w)).isLt
    exact Nat.mod_eq_of_lt (by omega)
  rw [commit_write_rd _ _ _ _ _ h0, u32_add_four, ht]

/-- C12: jump-and-link semantics. In a reachable state, a fetched JAL (opcode
`0x6F`) completes, sets `rd` (if `rd != 0`) to `(PC + 4) mod 2^32` and PC to
`(PC + imm_j(w)) mod 2^32`; a fetched JALR (opcode `0x67`, `funct3` 0)
completes, sets `rd` (if `rd != 0`) to `(PC + 4) mod 2^32` and PC to
`(rs1 + sext12(w[31:20])) mod 2^32` with bit 0 cleared, `rs1` being the value
before the instruction, also when `rd` and `rs1` are the same register; no
other register, CSR or memory byte changes. -/
theorem jump_and_link_semantics (c : CPU) (hc : Reachable c) (m : Memory) (w : Nat)
    (hf : m.load32 c.pc_.val = .ok w) :
    (get_bits w 6 0 = 0x6F →
      c.step m =
        ⟨none,
          { pc_ := mod32 ((c.pc_.val : Int) + imm_j w),
            regs_ := set_reg c.regs_ (rd_field w) (mod32 ((c.pc_.val : Int) + 4)),
            trace_ := c.trace_, csr_ := c.csr_ }, m⟩) ∧
    (get_bits w 6 0 = 0x67 → get_bits w 14 12 = 0 →
      c.step m =
        ⟨none,
          { pc_ := clear_bit0 (mod32 (((c.regs_ (rs1_field w)).val : Int) + sext12 w)),
            regs_ := set_reg c.regs_ (rd_field w) (mod32 ((c.pc_.val : Int) + 4)),
            trace_ := c.trace_, csr_ := c.csr_ }, m⟩) := by
  have h0 := reachable_reg_zero c hc
  constructor
  · intro hop
    rw [step_eq_jal c m w hf hop, step_jal_eq c m w h0]
  · intro hop hf3
    rw [step_eq_jalr c m w hf hop hf3, step_jalr_eq c m w h0]

theorem jump_and_link_semantics_witness :
    Reachable CPU.new ∧ mem_jalr.load32 CPU.new.pc_.val = .ok 0x005080E7 ∧
      get_bits 0x005080E7 6 0 = 0x67 ∧ get_bits 0x005080E7 14 12 = 0 ∧
      CPU.new.step mem_jalr =
        ⟨none,
          { pc_ := clear_bit0
              (mod32 (((CPU.new.regs_ (rs1_field 0x005080E7)).val : Int) + sext12 0x005080E7)),
            regs_ := set_reg CPU.new.regs_ (rd_field 0x005080E7)
              (mod32 ((CPU.new.pc_.val : Int) + 4)),
            trace_ := CPU.new.trace_, csr_ := CPU.new.csr_ }, mem_jalr⟩ ∧
      clear_bit0
        (mod32 (((CPU.new.regs_ (rs1_field 0x005080E7)).val : Int) + sext12 0x005080E7)) = 4 :=
  ⟨Reachable.reset _ 0, rfl, by decide, by decide,
    (jump_and_link_semantics CPU.new (Reachable.reset _ 0) mem_jalr 0x005080E7 rfl).2
      (by decide) (by decide), by decide⟩

/-! ## CSR instructions -/

theorem not32_eq (x : Nat) (hx : x < 4294967296) : not32 x = 4294967295 - x := by
  unfold not32
  rw [Nat.mod_eq_of_lt hx]
  apply Nat.eq_of_testBit_eq
  intro i
  have e1 : (4294967295 : Nat) = 2 ^ 32 - 1 := by norm_num
  have e2 : 4294967295 - x = 2 ^ 32 - (x + 1) := by omega
  rw [Nat.testBit_xor, e2, Nat.testBit_two_pow_sub_succ (by norm_num; exact hx), e1,
    Nat.testBit_two_pow_sub_one]
  by_cases hi : i < 32
  · simp [hi]
  · have hx2 : x < 2 ^ i := by
      have : 2 ^ 32 ≤ 2 ^ i := Nat.pow_le_pow_right (by decide) (by omega)
      omega
    simp [hi, Nat.testBit_lt_two_pow hx2]

theorem csr_index_eq (w : Nat) :
    (⟨get_bits w 31 20 &&& 0xFFF,
      show get_bits w 31 20 &&& 0xFFF < 2 ^ 12 from Nat.and_lt_two_pow _ (by decide)⟩ :
        Fin 4096) = csr_index w := by
  apply Fin.ext
  show get_bits w 31 20 &&& 0xFFF = bits w 31 20
  have h := Nat.and_pow_two_sub_one_eq_mod (get_bits w 31 20) 12
  have hlt := bits_lt w 31 20
  norm_num at h hlt
  rw [h, get_bits_eq_bits, Nat.mod_eq_of_lt hlt]

theorem csr_read_eq (c : CPU) (w : Nat) : c.csr_read (get_bits w 31 20) = c.csr_ (csr_index w) := by
  unfold csr_read
  rw [csr_index_eq]

/-- End of the CSR arm: write back of `old`, then the CSR write unless skipped;
a skipped write is one that would store the value the CSR already holds. -/
theorem csr_finish (c : CPU) (m : Memory) (w : Nat) (newv npc : Word) (do_write : Bool)
    (h0 : c.regs_ 0 = 0) (hskip : do_write = false → newv = c.csr_ (csr_index w)) :
    commit
        (if do_write then
          (c.write_rd (rd_field w) (c.csr_ (csr_index w))).csr_write (get_bits w 31 20) newv
        else c.write_rd (rd_field w) (c.csr_ (csr_index w))) m npc =
      ⟨none,
        { pc_ := npc, regs_ := set_reg c.regs_ (rd_field w) (c.csr_ (csr_index w)),
          trace_ := c.trace_, csr_ := Function.update c.csr_ (csr_index w) newv }, m⟩ := by
  cases do_write with
  | true =>
    rw [if_pos rfl]
    unfold csr_write commit
    rw [csr_index_eq]
    dsimp only
    rw [set_reg_of_write_rd c _ _ h0]
    unfold write_rd
    split <;> rfl
  | false =>
    rw [if_neg (by simp), commit_write_rd _ _ _ _ _ h0, hskip rfl, Function.update_eq_self]

theorem and_mask32 (x : Nat) (hx : x < 4294967296) : x &&& 4294967295 = x := by
  have := Nat.and_pow_two_sub_one_of_lt_two_pow (n := 32) (x := x) (by norm_num; exact hx)
  norm_num at this
  exact this

theorem and_mask5 (x : Nat) (hx : x < 32) : x &&& 31 = x := by
  have := Nat.and_pow_two_sub_one_of_lt_two_pow (n := 5) (x := x) (by norm_num; exact hx)
  norm_num at this
  exact this

theorem step_csr_eq (c : CPU) (m : Memory) (w : Nat) (npc : Word) (h0 : c.regs_ 0 = 0)
    (hf3 : get_bits w 14 12 ∈ [1, 2, 3, 5, 6, 7]) :
    step_csr c m w npc =
      ⟨none,
        { pc_ := npc, regs_ := set_reg c.regs_ (rd_field w) (c.csr_ (csr_index w)),
          trace_ := c.trace_,
          csr_ := Function.update c.csr_ (csr_index w)
            (u32 (csr_new (get_bits w 14 12) (c.csr_ (csr_index w)).val (csr_src c.regs_ w))) },
        m⟩ := by
  unfold step_csr csr_src csr_new
  simp only []
  rw [csr_read_eq]
  have hold := (c.csr_ (csr_index w)).isLt
  have hreg := (c.regs_ (rs1_field w)).isLt
  have hrs : (rs1_field w).val < 32 := (rs1_field w).isLt
  have hlt : get_bits w 14 12 < 8 := get_bits_lt w 14 12
  generalize get_bits w 14 12 = f3 at hlt hf3 ⊢
  interval_cases f3 <;> simp at hf3
  · simpa using csr_finish c m w (u32 (c.regs_ (rs1_field w)).val) npc true h0 (by simp)
  · have h := csr_finish c m w
      (u32 ((c.csr_ (csr_index w)).val ||| (c.regs_ (rs1_field w)).val)) npc
      (!((c.regs_ (rs1_field w)).val == 0)) h0 (by
        intro hs
        have : (c.regs_ (rs1_field w)).val = 0 := by simpa using hs
        rw [this, Nat.or_zero, u32_self])
    simpa using h
  · have h := csr_finish c m w
      (u32 ((c.csr_ (csr_index w)).val &&& not32 (c.regs_ (rs1_field w)).val)) npc
      (!((c.regs_ (rs1_field w)).val == 0)) h0 (by
        intro hs
        have : (c.regs_ (rs1_field w)).val = 0 := by simpa using hs
        rw [this, not32_eq 0 (by decide), Nat.sub_zero, and_mask32 _ hold, u32_self])
    rw [not32_eq _ hreg] at h
    simpa [not32_eq _ hreg, (by decide : 3 &&& 4 = 0)] using h
  · have h := csr_finish c m w (u32 ((rs1_field w).val &&& 0x1F)) npc true h0 (by simp)
    rw [and_mask5 _ hrs] at h
    simpa [and_mask5 _ hrs] using h
  · have h := csr_finish c m w
      (u32 ((c.csr_ (csr_index w)).val ||| ((rs1_field w).val &&& 0x1F))) npc
      (!(((rs1_field w).val &&& 0x1F) == 0)) h0 (by
        intro hs
        have : (rs1_field w).val &&& 0x1F = 0 := by simpa using hs
        rw [this, Nat.or_zero, u32_self])
    rw [and_mask5 _ hrs] at h
    simpa [and_mask5 _ hrs] using h
  · have h := csr_finish c m w
      (u32 ((c.csr_ (csr_index w)).val &&& not32 ((rs1_field w).val &&& 0x1F))) npc
      (!(((rs1_field w).val &&& 0x1F) == 0)) h0 (by
        intro hs
        have : (rs1_field w).val &&& 0x1F = 0 := by simpa using hs
        rw [this, not32_eq 0 (by decide), Nat.sub_zero, and_mask32 _ hold, u32_self])
    have hrs' : (rs1_field w).val < 4294967296 := by omega
    rw [and_mask5 _ hrs, not32_eq _ hrs'] at h
    simpa [and_mask5 _ hrs, not32_eq _ hrs'] using h

theorem csr_new_lt (f3 old src : Nat) (ho : old < 4294967296) (hs : src < 4294967296) :
    csr_new f3 old src < 4294967296 := by
  unfold csr_new
  split
  · exact hs
  · split
    · exact Nat.or_lt_two_pow (n := 32) (by norm_num; exact ho) (by norm_num; exact hs)
    · exact Nat.lt_of_le_of_lt Nat.and_le_left ho

theorem csr_src_lt (regs : Fin 32 → Word) (w : Nat) : csr_src regs w < 4294967296 := by
  unfold csr_src
  split
  · exact (regs (rs1_field w)).isLt
  · have := (rs1_field w).isLt
    omega

/-- C13: CSR read/modify/write protocol. In a reachable state, for every
fetched word with opcode `0x73` and `funct3` in {1,2,3,5,6,7}, with
`A = w[31:20]`, `old = csr_read(A)` and `src` the value of `rs1` before the
instruction (`funct3` 1,2,3) or the 5-bit `rs1` field (`funct3` 5,6,7): the
step completes, `rd` (if `rd != 0`) receives `old`, the CSR `A` holds `src`,
`old | src` or `old & ~src` (`csr_new`), every other CSR, every other register
and the memory are unchanged, and PC becomes `(PC + 4) mod 2^32`; with
`src == 0` the set and clear forms leave the CSR at `old`, and CSRRW stores the
old value of `rs1`, so with `rd == rs1 != 0` register and CSR are swapped. -/
theorem csr_protocol (c : CPU) (hc : Reachable c) (m : Memory) (w : Nat)
    (hf : m.load32 c.pc_.val = .ok w) (hop : get_bits w 6 0 = 0x73)
    (hf3 : get_bits w 14 12 ∈ [1, 2, 3, 5, 6, 7]) :
    c.step m =
      ⟨none,
        { pc_ := mod32 ((c.pc_.val : Int) + 4),
          regs_ := set_reg c.regs_ (rd_field w) (c.csr_ (csr_index w)),
          trace_ := c.trace_,
          csr_ := Function.update c.csr_ (csr_index w)
            (u32 (csr_new (get_bits w 14 12) (c.csr_ (csr_index w)).val (csr_src c.regs_ w))) },
        m⟩ ∧
    (u32 (csr_new (get_bits w 14 12) (c.csr_ (csr_index w)).val (csr_src c.regs_ w))).val =
      csr_new (get_bits w 14 12) (c.csr_ (csr_index w)).val (csr_src c.regs_ w) ∧
    c.csr_read (bits w 31 20) = c.csr_ (csr_index w) ∧
    (csr_src c.regs_ w = 0 → get_bits w 14 12 ∈ [2, 3, 6, 7] →
      csr_new (get_bits w 14 12) (c.csr_ (csr_index w)).val (csr_src c.regs_ w) =
        (c.csr_ (csr_index w)).val) ∧
    (get_bits w 14 12 = 1 →
      csr_new (get_bits w 14 12) (c.csr_ (csr_index w)).val (csr_src c.regs_ w) =
        (c.regs_ (rs1_field w)).val) := by
  have h0 := reachable_reg_zero c hc
  have hf3' : get_bits w 14 12 ≠ 0 := by
    intro h; rw [h] at hf3; revert hf3; decide
  refine ⟨?_, ?_, ?_, ?_, ?_⟩
  · rw [step_eq_csr c m w hf hop hf3', step_csr_eq c m w _ h0 hf3, u32_add_four]
  · exact u32_val_of_lt _ (csr_new_lt _ _ _ (c.csr_ (csr_index w)).isLt (csr_src_lt _ _))
  · rw [← get_bits_eq_bits, csr_read_eq]
  · intro hs hm
    rw [hs]
    unfold csr_new
    have hold := (c.csr_ (csr_index w)).isLt
    generalize get_bits w 14 12 = f3 at hm ⊢
    simp only [List.mem_cons, List.mem_singleton, List.not_mem_nil, or_false] at hm
    rcases hm with h | h | h | h <;> subst h <;>
      simp [and_mask32 _ hold]
  · intro h1
    rw [h1]
    unfold csr_new csr_src
    rw [h1]
    simp

theorem csr_protocol_witness :
    Reachable CPU.new ∧ mem_csrrw.load32 CPU.new.pc_.val = .ok 0x30509173 ∧
      get_bits 0x30509173 6 0 = 0x73 ∧ get_bits 0x30509173 14 12 ∈ [1, 2, 3, 5, 6, 7] ∧
      (CPU.new.step mem_csrrw).exn = none :=
  ⟨Reachable.reset _ 0, rfl, by decide, by decide,
    congrArg StepResult.exn
      (csr_protocol CPU.new (Reachable.reset _ 0) mem_csrrw 0x30509173 rfl (by decide)
        (by decide)).1⟩

/-! ## Runs of several steps -/

theorem run_zero (c : CPU) (m : Memory) : run 0 c m = ⟨none, c, m⟩ := rfl

theorem run_succ_ok (n : Nat) (c c' : CPU) (m m' : Memory) (e : c.step m = ⟨none, c', m'⟩) :
    run (n + 1) c m = run n c' m' := by
  rw [run, e]

theorem run_succ_fail (n : Nat) (c c' : CPU) (m m' : Memory) (x : Exn)
    (e : c.step m = ⟨some x, c', m'⟩) :
    run (n + 1) c m = ⟨some x, c', m'⟩ := by
  rw [run, e]

theorem set_reg_zero (regs : Fin 32 → Word) (rd : Fin 32) (v : Word) :
    set_reg regs rd v 0 = regs 0 := by
  unfold set_reg
  rw [if_neg (fun h => h.2 h.1.symm)]

theorem set_reg_same (regs : Fin 32 → Word) (rd : Fin 32) (v : Word) (h : rd ≠ 0) :
    set_reg regs rd v rd = v := by
  unfold set_reg
  rw [if_pos ⟨rfl, h⟩]

theorem set_reg_other (regs : Fin 32 → Word) (rd i : Fin 32) (v : Word) (h : i ≠ rd) :
    set_reg regs rd v i = regs i := by
  unfold set_reg
  rw [if_neg (fun hh => h hh.1)]

theorem mod32_val (i : Int) : ((mod32 i).val : Int) = i % 4294967296 := by
  unfold mod32
  simp only []
  omega

theorem mod32_add_mod32 (i j : Int) : mod32 (((mod32 i).val : Int) + j) = mod32 (i + j) := by
  apply Fin.ext
  have h1 := mod32_val (((mod32 i).val : Int) + j)
  have h2 := mod32_val (i + j)
  have h3 := mod32_val i
  omega

theorem csr_read_mk (pc : Word) (regs : Fin 32 → Word) (tr : Bool) (csr : Fin 4096 → Word)
    (w : Nat) :
    CPU.csr_read { pc_ := pc, regs_ := regs, trace_ := tr, csr_ := csr } (bits w 31 20) =
      csr (csr_index w) := by
  rw [← get_bits_eq_bits, csr_read_eq]

/-- C14: CSR write/read-back round trip. In a reachable state whose next two
words are `csrrw rd1, A, rs1` (opcode `0x73`, `funct3 = 1`) and
`csrrs rd2, A, x0` (opcode `0x73`, `funct3 = 2`, `rs1` field 0, same CSR
address), with `v` the value of `rs1` and `old` the value of CSR `A` before
the first instruction: both steps complete; afterwards `rd1` (if non-zero and
different from `rd2`) holds `old`, `rd2` (if non-zero) holds `v`,
`csr_read(A) == v`, and nothing else but PC has changed. The program of
`test_csr_basic`, run from reset, stops at its `ebreak` with `x2 = 0`,
`x3 = 0x55` and CSR `0x305 == 0x55`. -/
theorem csr_round_trip (c : CPU) (hc : Reachable c) (m : Memory) (w1 w2 : Nat)
    (hf1 : m.load32 c.pc_.val = .ok w1)
    (hf2 : m.load32 (mod32 ((c.pc_.val : Int) + 4)).val = .ok w2)
    (h1 : get_bits w1 6 0 = 0x73) (h1f : get_bits w1 14 12 = 1)
    (h2 : get_bits w2 6 0 = 0x73) (h2f : get_bits w2 14 12 = 2) (h2r : rs1_field w2 = 0)
    (hA : csr_index w2 = csr_index w1) :
    (c.step m).exn = none ∧
    run 2 c m =
      ⟨none,
        { pc_ := mod32 ((c.pc_.val : Int) + 8),
          regs_ := set_reg (set_reg c.regs_ (rd_field w1) (c.csr_ (csr_index w1))) (rd_field w2)
            (c.regs_ (rs1_field w1)),
          trace_ := c.trace_,
          csr_ := Function.update c.csr_ (csr_index w1) (c.regs_ (rs1_field w1)) },
        m⟩ ∧
    (rd_field w1 ≠ 0 → rd_field w1 ≠ rd_field w2 →
      (run 2 c m).cpu.reg (rd_field w1) = c.csr_ (csr_index w1)) ∧
    (rd_field w2 ≠ 0 → (run 2 c m).cpu.reg (rd_field w2) = c.regs_ (rs1_field w1)) ∧
    (run 2 c m).cpu.csr_read (bits w1 31 20) = c.regs_ (rs1_field w1) ∧
    ((run 4 CPU.new mem_csr_basic).exn = some Exn.EBREAK ∧
      (run 4 CPU.new mem_csr_basic).cpu.reg 2 = 0 ∧
      (run 4 CPU.new mem_csr_basic).cpu.reg 3 = 0x55 ∧
      (run 4 CPU.new mem_csr_basic).cpu.csr_read 0x305 = 0x55) := by
  have h0 := reachable_reg_zero c hc
  have e1 : c.step m =
      ⟨none,
        { pc_ := mod32 ((c.pc_.val : Int) + 4),
          regs_ := set_reg c.regs_ (rd_field w1) (c.csr_ (csr_index w1)),
          trace_ := c.trace_,
          csr_ := Function.update c.csr_ (csr_index w1) (c.regs_ (rs1_field w1)) }, m⟩ := by
    rw [step_eq_csr c m w1 hf1 h1 (by rw [h1f]; decide),
      step_csr_eq c m w1 _ h0 (by rw [h1f]; decide), u32_add_four, h1f]
    have : csr_new 1 (c.csr_ (csr_index w1)).val (csr_src c.regs_ w1) =
        (c.regs_ (rs1_field w1)).val := by
      unfold csr_new csr_src
      rw [h1f]
      simp
    rw [this, u32_self]
  have e2 : CPU.step
        { pc_ := mod32 ((c.pc_.val : Int) + 4),
          regs_ := set_reg c.regs_ (rd_field w1) (c.csr_ (csr_index w1)),
          trace_ := c.trace_,
          csr_ := Function.update c.csr_ (csr_index w1) (c.regs_ (rs1_field w1)) } m =
      ⟨none,
        { pc_ := mod32 ((c.pc_.val : Int) + 8),
          regs_ := set_reg (set_reg c.regs_ (rd_field w1) (c.csr_ (csr_index w1))) (rd_field w2)
            (c.regs_ (rs1_field w1)),
          trace_ := c.trace_,
          csr_ := Function.update c.csr_ (csr_index w1) (c.regs_ (rs1_field w1)) }, m⟩ := by
    have h0' : set_reg c.regs_ (rd_field w1) (c.csr_ (csr_index w1)) 0 = 0 := by
      rw [set_reg_zero, h0]
    rw [step_eq_csr _ m w2 hf2 h2 (by rw [h2f]; decide),
      step_csr_eq _ m w2 _ h0' (by rw [h2f]; decide), u32_add_four, h2f, hA]
    simp only [Function.update_same]
    have : csr_new 2 (c.regs_ (rs1_field w1)).val
        (csr_src (set_reg c.regs_ (rd_field w1) (c.csr_ (csr_index w1))) w2) =
        (c.regs_ (rs1_field w1)).val := by
      unfold csr_new csr_src
      rw [h2f, h2r, h0']
      simp
    rw [this, u32_self, Function.update_idem, mod32_add_mod32, add_assoc]
    rfl
  have hrun : run 2 c m = _ := (run_succ_ok 1 c _ m m e1).trans
    ((run_succ_ok 0 _ _ m m e2).trans (run_zero _ _))
  refine ⟨by rw [e1], hrun, ?_, ?_, ?_, ?_⟩
  · intro hz hne
    rw [hrun]
    show set_reg _ _ _ _ = _
    rw [set_reg_other _ _ _ _ hne, set_reg_same _ _ _ hz]
  · intro hz
    rw [hrun]
    show set_reg _ _ _ _ = _
    rw [set_reg_same _ _ _ hz]
  · rw [hrun]
    show CPU.csr_read _ _ = _
    rw [csr_read_mk, Function.update_same]
  · decide

theorem csr_round_trip_witness :
    Reachable (CPU.new.step mem_csr_basic).cpu ∧
      mem_csr_basic.load32 (CPU.new.step mem_csr_basic).cpu.pc_.val = .ok 0x30509173 ∧
      (run 2 (CPU.new.step mem_csr_basic).cpu mem_csr_basic).cpu.csr_read
          (bits 0x30509173 31 20) =
        (CPU.new.step mem_csr_basic).cpu.regs_ (rs1_field 0x30509173) :=
  ⟨Reachable.step _ _ (Reachable.reset _ 0), rfl,
    (csr_round_trip (CPU.new.step mem_csr_basic).cpu
      (Reachable.step _ _ (Reachable.reset _ 0)) mem_csr_basic 0x30509173 0x305021F3 rfl rfl
      (by decide) (by decide) (by decide) (by decide) (by decide) (by decide)).2.2.2.2.1⟩

end CPU

namespace Memory

theorem load8_cases (m : Memory) (a : Nat) (ha : a < 4294967296) :
    (a + 1 ≤ m.size ∧ m.load8 a = .ok (m.cell a)) ∨ ∃ e, m.load8 a = .error e := by
  by_cases hb : a + 1 ≤ m.size
  · exact Or.inl ⟨hb, load8_ok m a ha hb⟩
  · right
    unfold load8
    rw [check_addr_eq m a 1 (by omega), if_pos (by omega)]
    exact ⟨_, rfl⟩

theorem load16_cases (m : Memory) (a : Nat) (ha : a < 4294967296) :
    (a % 2 = 0 ∧ a + 2 ≤ m.size ∧ m.load16 a = .ok (m.cell a + 256 * m.cell (a + 1))) ∨
      ∃ e, m.load16 a = .error e := by
  cases h : m.load16 a with
  | error e => exact Or.inr ⟨e, rfl⟩
  | ok x =>
    left
    obtain ⟨hal, hb⟩ := load16_some m a x ha h
    refine ⟨hal, hb, ?_⟩
    rw [← h, load16_ok m a ha hal hb, le16_eq _ _ (cell_lt m _)]
    have h0 := cell_lt m a
    have h1 := cell_lt m (a + 1)
    rw [Nat.add_zero, Nat.mod_eq_of_lt (by omega), Nat.mul_comm]

theorem load32_cases (m : Memory) (a : Nat) (ha : a < 4294967296) :
    (a % 4 = 0 ∧ a + 4 ≤ m.size ∧ m.load32 a = .ok (m.cell a + 256 * m.cell (a + 1) +
        65536 * m.cell (a + 2) + 16777216 * m.cell (a + 3))) ∨
      ∃ e, m.load32 a = .error e := by
  cases h : m.load32 a with
  | error e => exact Or.inr ⟨e, rfl⟩
  | ok x =>
    left
    obtain ⟨hal, hb⟩ := load32_some m a x ha h
    refine ⟨hal, hb, ?_⟩
    rw [← h, load32_ok m a ha hal hb,
      le32_eq _ _ _ _ (cell_lt m _) (cell_lt m _) (cell_lt m _), Nat.add_zero]
    congr 1
    omega

end Memory

namespace CPU

/-! ## Loads -/

theorem sext8_eq (b : Nat) (hb : b < 256) :
    ofInt32 (i8 b) = if b < 0x80 then b else 0xFFFFFF00 ||| b := by
  unfold ofInt32 i8
  rw [Nat.mod_eq_of_lt hb]
  by_cases h : b < 128
  · rw [if_pos h, if_pos h]; omega
  · rw [if_neg h, if_neg h, hi_or_lo 0xFFFFFF00 b 8 (by decide) (by norm_num; exact hb)]
    omega

theorem sext16_eq (x : Nat) (hx : x < 65536) :
    ofInt32 (i16 x) = if x < 0x8000 then x else 0xFFFF0000 ||| x := by
  unfold ofInt32 i16
  rw [Nat.mod_eq_of_lt hx]
  by_cases h : x < 32768
  · rw [if_pos h, if_pos h]; omega
  · rw [if_neg h, if_neg h, hi_or_lo 0xFFFF0000 x 16 (by decide) (by norm_num; exact hx)]
    omega

theorem load_value_lt (f3 : Nat) (m : Memory) (E : Nat) : load_value f3 m E < 4294967296 := by
  have h0 := Memory.cell_lt m E
  have h1 := Memory.cell_lt m (E + 1)
  have h2 := Memory.cell_lt m (E + 2)
  have h3 := Memory.cell_lt m (E + 3)
  have e8 := sext8_eq (m.cell E) h0
  have e16 := sext16_eq (m.cell E + 256 * m.cell (E + 1)) (by omega)
  have b8 : ofInt32 (i8 (m.cell E)) < 4294967296 := by unfold ofInt32; omega
  have b16 : ofInt32 (i16 (m.cell E + 256 * m.cell (E + 1))) < 4294967296 := by
    unfold ofInt32; omega
  unfold load_value
  simp only []
  rw [← e8, ← e16]
  split_ifs <;> omega

theorem step_load_eq (c : CPU) (m : Memory) (w : Nat) (npc : Word) (h0 : c.regs_ 0 = 0)
    (hok : (step_load c m w npc).exn = none) :
    get_bits w 14 12 ∈ [0, 1, 2, 4, 5] ∧
    step_load c m w npc =
      ⟨none,
        { pc_ := npc,
          regs_ := set_reg c.regs_ (rd_field w)
            (u32 (load_value (get_bits w 14 12) m
              (mod32 (((c.regs_ (rs1_field w)).val : Int) + sext12 w)).val)),
          trace_ := c.trace_, csr_ := c.csr_ }, m⟩ := by
  revert hok
  unfold step_load
  simp only []
  rw [sign_extend_12, add_ofInt32_mod]
  have hE := (mod32 (((c.regs_ (rs1_field w)).val : Int) + sext12 w)).isLt
  generalize (mod32 (((c.regs_ (rs1_field w)).val : Int) + sext12 w)).val = E at hE ⊢
  have hlt : get_bits w 14 12 < 8 := get_bits_lt w 14 12
  have c0 := Memory.cell_lt m E
  have c1 := Memory.cell_lt m (E + 1)
  generalize get_bits w 14 12 = f3 at hlt ⊢
  interval_cases f3
  · rcases Memory.load8_cases m E hE with ⟨_, hl⟩ | ⟨e, hl⟩
    · intro _
      refine ⟨by decide, ?_⟩
      rw [hl]
      simp only [if_pos, Except.map]
      rw [commit_write_rd _ _ _ _ _ h0, sext8_eq _ c0]
      rfl
    · rw [hl]; simp [Except.map]
  · rcases Memory.load16_cases m E hE with ⟨_, _, hl⟩ | ⟨e, hl⟩
    · intro _
      refine ⟨by decide, ?_⟩
      rw [hl]
      simp only [if_neg, if_pos, Except.map, one_ne_zero, if_false, if_true]
      rw [commit_write_rd _ _ _ _ _ h0, sext16_eq _ (by omega)]
      rfl
    · rw [hl]; simp [Except.map]
  · by_cases hal : E % 4 = 0
    · rcases Memory.load32_cases m E hE with ⟨_, _, hl⟩ | ⟨e, hl⟩
      · intro _
        refine ⟨by decide, ?_⟩
        rw [hl]
        simp [Except.map, hal, commit_write_rd _ _ _ _ _ h0, load_value]
      · rw [hl]; simp [Except.map, hal]
    · simp [hal]
  · simp
  · rcases Memory.load8_cases m E hE with ⟨_, hl⟩ | ⟨e, hl⟩
    · intro _
      refine ⟨by decide, ?_⟩
      rw [hl]
      simp [Except.map, commit_write_rd _ _ _ _ _ h0, load_value]
    · rw [hl]; simp [Except.map]
  · rcases Memory.load16_cases m E hE with ⟨_, _, hl⟩ | ⟨e, hl⟩
    · intro _
      refine ⟨by decide, ?_⟩
      rw [hl]
      simp [Except.map, commit_write_rd _ _ _ _ _ h0, load_value]
    · rw [hl]; simp [Except.map]
  · simp
  · simp

set_option maxRecDepth 1000000 in
theorem lb_lbu_sb_run :
    (run 6 CPU.new mem_lb_lbu_sb).exn = some Exn.EBREAK ∧
      (run 6 CPU.new mem_lb_lbu_sb).cpu.reg 3 = 0xFFFFFFFF ∧
      (run 6 CPU.new mem_lb_lbu_sb).cpu.reg 4 = 0xFF := by
  decide

/-- C15: load extension. In a reachable state, when the step of a fetched
word with opcode `0x03` completes, then with
`E = (rs1 + sext12(w[31:20])) mod 2^32` the instruction is LB, LH, LW, LBU or
LHU, `rd` (if `rd != 0`) holds `load_value`: the byte at `E` sign-extended from
8 bits (LB) or zero-extended (LBU), the little-endian halfword at `E`
sign-extended from 16 bits (LH) or zero-extended (LHU), or the little-endian
word at `E` (LW); PC is `(PC + 4) mod 2^32` and nothing else changes. For a
byte `0xFF` at `E`, LB gives `0xFFFFFFFF` and LBU gives `0xFF`, as the run of
`test_lb_lbu_sb` shows. -/
theorem load_extension (c : CPU) (hc : Reachable c) (m : Memory) (w : Nat)
    (hf : m.load32 c.pc_.val = .ok w) (hop : get_bits w 6 0 = 0x03)
    (hok : (c.step m).exn = none) :
    get_bits w 14 12 ∈ [0, 1, 2, 4, 5] ∧
    c.step m =
      ⟨none,
        { pc_ := mod32 ((c.pc_.val : Int) + 4),
          regs_ := set_reg c.regs_ (rd_field w)
            (u32 (load_value (get_bits w 14 12) m
              (mod32 (((c.regs_ (rs1_field w)).val : Int) + sext12 w)).val)),
          trace_ := c.trace_, csr_ := c.csr_ }, m⟩ ∧
    (rd_field w ≠ 0 →
      ((c.step m).cpu.reg (rd_field w)).val =
        load_value (get_bits w 14 12) m
          (mod32 (((c.regs_ (rs1_field w)).val : Int) + sext12 w)).val) ∧
    (∀ (m' : Memory) (E : Nat), m'.cell E = 0xFF →
      load_value 0 m' E = 0xFFFFFFFF ∧ load_value 4 m' E = 0xFF) ∧
    ((run 6 CPU.new mem_lb_lbu_sb).exn = some Exn.EBREAK ∧
      (run 6 CPU.new mem_lb_lbu_sb).cpu.reg 3 = 0xFFFFFFFF ∧
      (run 6 CPU.new mem_lb_lbu_sb).cpu.reg 4 = 0xFF) := by
  have h0 := reachable_reg_zero c hc
  have he := step_eq_load c m w hf hop
  rw [he] at hok
  obtain ⟨hf3, hs⟩ := step_load_eq c m w _ h0 hok
  have hst := he.trans hs
  rw [u32_add_four] at hst
  refine ⟨hf3, hst, ?_, ?_, ?_⟩
  · intro hrd
    rw [hst]
    show (set_reg _ _ _ _).val = _
    rw [set_reg_same _ _ _ hrd, u32_val_of_lt _ (load_value_lt _ _ _)]
  · intro m' E hb
    exact ⟨by simp [load_value, hb], by simp [load_value, hb]⟩
  · exact lb_lbu_sb_run

theorem load_extension_witness :
    Reachable CPU.new ∧ mem_lb.load32 CPU.new.pc_.val = .ok 0x00000183 ∧
      get_bits 0x00000183 6 0 = 0x03 ∧ (CPU.new.step mem_lb).exn = none ∧
      ((CPU.new.step mem_lb).cpu.reg 3).val = 0xFFFFFF83 :=
  ⟨Reachable.reset _ 0, rfl, by decide, by decide,
    ((load_extension CPU.new (Reachable.reset _ 0) mem_lb 0x00000183 rfl (by decide)
      (by decide)).2.2.1 (by decide)).trans (by decide)⟩

end CPU

namespace Memory

theorem store32_cell_other (m : Memory) (a v j : Nat) (ha : a < 4294967296)
    (hal : a % 4 = 0) (hb : a + 4 ≤ m.size) (hj : j < a ∨ a + 4 ≤ j) :
    (m.store32 a v).2.cell j = m.cell j := by
  have h0 : ¬ j = a := by omega
  have h1 : ¬ j = a + 1 := by omega
  have h2 : ¬ j = a + 2 := by omega
  have h3 : ¬ j = a + 3 := by omega
  rw [store32_cell m a v j ha hal hb, if_neg h0, if_neg h1, if_neg h2, if_neg h3]

theorem load32_store32_other (m : Memory) (a v b x : Nat) (ha : a < 4294967296)
    (hal : a % 4 = 0) (hb : a + 4 ≤ m.size) (hb' : b < 4294967296) (hne : b ≠ a)
    (hl : m.load32 b = .ok x) :
    (m.store32 a v).2.load32 b = .ok x := by
  obtain ⟨hbl, hbb⟩ := load32_some m b x hb' hl
  have hs : b + 4 ≤ (m.store32 a v).2.size := by rw [(store_size m a v).2.2]; exact hbb
  have hout : ∀ k, k < 4 → (m.store32 a v).2.cell (b + k) = m.cell (b + k) := by
    intro k hk
    exact store32_cell_other m a v (b + k) ha hal hb (by omega)
  rw [load32_ok m b hb' hbl hbb] at hl
  rw [load32_ok _ b hb' hbl hs, hout 0 (by decide), hout 1 (by decide), hout 2 (by decide),
    hout 3 (by decide)]
  exact hl

end Memory

namespace CPU

/-! ## Stores, and a store followed by a load -/

theorem sign_extend_s (w : Nat) :
    sign_extend ((get_bits w 31 25 <<< 5) ||| get_bits w 11 7) 12 = imm_s_spec w := by
  have h1 : get_bits w 11 7 < 2 ^ 5 := get_bits_lt w 11 7
  have h2 : get_bits w 31 25 < 2 ^ 7 := get_bits_lt w 31 25
  rw [Nat.or_comm, Memory.lo_or_shl _ _ 5 h1, sign_extend_eq _ 12 (by decide) (by decide) (by
    norm_num at h1 h2 ⊢; omega)]
  unfold imm_s_spec
  rw [← get_bits_eq_bits, ← get_bits_eq_bits, Nat.add_comm]

theorem step_sw_eq (c : CPU) (m : Memory) (w : Nat) (npc : Word) (h0 : c.regs_ 0 = 0)
    (hf3 : get_bits w 14 12 = 2)
    (hal : effective_address (c.regs_ (rs1_field w)) (imm_s_spec w) % 4 = 0)
    (hb : effective_address (c.regs_ (rs1_field w)) (imm_s_spec w) + 4 ≤ m.size) :
    step_store c m w npc =
      ⟨none, { pc_ := npc, regs_ := c.regs_, trace_ := c.trace_, csr_ := c.csr_ },
        (m.store32 (effective_address (c.regs_ (rs1_field w)) (imm_s_spec w))
          (c.regs_ (rs2_field w)).val).2⟩ := by
  unfold step_store
  simp only []
  rw [sign_extend_s, add_ofInt32_mod, hf3]
  unfold effective_address at hal hb ⊢
  have hE := (mod32 (((c.regs_ (rs1_field w)).val : Int) + imm_s_spec w)).isLt
  generalize (mod32 (((c.regs_ (rs1_field w)).val : Int) + imm_s_spec w)).val = E at hE hal hb ⊢
  have hs : (m.store32 E (c.regs_ (rs2_field w)).val).1 = none := by
    rw [Memory.store32_ok m E _ hE hal hb]
  rw [if_neg (by decide), if_neg (by decide), if_pos rfl, if_neg (not_not.2 hal)]
  simp only [hs]
  rw [commit_same _ _ _ h0]

theorem step_lw_eq (c : CPU) (m : Memory) (w : Nat) (npc : Word) (v : Nat)
    (h0 : c.regs_ 0 = 0) (hf3 : get_bits w 14 12 = 2)
    (hal : effective_address (c.regs_ (rs1_field w)) (sext12 w) % 4 = 0)
    (hl : m.load32 (effective_address (c.regs_ (rs1_field w)) (sext12 w)) = .ok v) :
    step_load c m w npc =
      ⟨none,
        { pc_ := npc, regs_ := set_reg c.regs_ (rd_field w) (u32 v), trace_ := c.trace_,
          csr_ := c.csr_ }, m⟩ := by
  unfold step_load
  simp only []
  rw [sign_extend_12, add_ofInt32_mod, hf3]
  unfold effective_address at hal hl
  rw [if_neg (by decide), if_neg (by decide), if_pos rfl, if_neg (not_not.2 hal), hl]
  simp only [Except.map]
  rw [commit_write_rd _ _ _ _ _ h0]

/-- C16: store then load through the CPU. In a reachable state with PC `p`
whose word at `p` is `sw rs2, imm(rs1)` and whose word at `p + 4` is
`lw rd, imm(rs1)` with the same `rs1` and the same 12-bit immediate (for the
store reassembled from `w[31:25]` and `w[11:7]`) and `rd != 0`, where
`E = (regs[rs1] + sext12(imm)) mod 2^32` has `E mod 4 == 0`,
`E + 4 <= capacity` and `E != p + 4`: both steps complete; afterwards `rd`
holds the value `rs2` had before the store, `load32(E)` gives that value, the
memory is the one the store left, no other register changed, and PC is `p + 8`
(in the 32-bit arithmetic of the PC, so `p + 8` itself unless that exceeds
`2^32 - 1`). -/
theorem store_then_load (c : CPU) (hc : Reachable c) (m : Memory) (w1 w2 : Nat)
    (hf1 : m.load32 c.pc_.val = .ok w1)
    (hf2 : m.load32 (mod32 ((c.pc_.val : Int) + 4)).val = .ok w2)
    (h1 : get_bits w1 6 0 = 0x23) (h1f : get_bits w1 14 12 = 2)
    (h2 : get_bits w2 6 0 = 0x03) (h2f : get_bits w2 14 12 = 2)
    (hrs : rs1_field w2 = rs1_field w1)
    (himm : bits w2 31 20 = bits w1 31 25 * 2 ^ 5 + bits w1 11 7)
    (hrd : rd_field w2 ≠ 0)
    (hal : effective_address (c.regs_ (rs1_field w1)) (imm_s_spec w1) % 4 = 0)
    (hb : effective_address (c.regs_ (rs1_field w1)) (imm_s_spec w1) + 4 ≤ m.size)
    (hne : effective_address (c.regs_ (rs1_field w1)) (imm_s_spec w1) ≠
      (mod32 ((c.pc_.val : Int) + 4)).val) :
    (c.step m).exn = none ∧
    run 2 c m =
      ⟨none,
        { pc_ := mod32 ((c.pc_.val : Int) + 8),
          regs_ := set_reg c.regs_ (rd_field w2) (c.regs_ (rs2_field w1)),
          trace_ := c.trace_, csr_ := c.csr_ },
        (m.store32 (effective_address (c.regs_ (rs1_field w1)) (imm_s_spec w1))
          (c.regs_ (rs2_field w1)).val).2⟩ ∧
    (run 2 c m).cpu.reg (rd_field w2) = c.regs_ (rs2_field w1) ∧
    (run 2 c m).mem.load32 (effective_address (c.regs_ (rs1_field w1)) (imm_s_spec w1)) =
      .ok (c.regs_ (rs2_field w1)).val ∧
    (c.pc_.val + 8 < 4294967296 → (run 2 c m).cpu.pc_.val = c.pc_.val + 8) := by
  have h0 := reachable_reg_zero c hc
  have hE : effective_address (c.regs_ (rs1_field w1)) (imm_s_spec w1) < 4294967296 :=
    (mod32 _).isLt
  have hv := (c.regs_ (rs2_field w1)).isLt
  have hsx : sext12 w2 = imm_s_spec w1 := by
    unfold sext12 imm_s_spec
    rw [himm]
  generalize hEdef : effective_address (c.regs_ (rs1_field w1)) (imm_s_spec w1) = E
    at hal hb hne hE ⊢
  have hload : (m.store32 E (c.regs_ (rs2_field w1)).val).2.load32 E =
      .ok (c.regs_ (rs2_field w1)).val := by
    rw [Memory.load32_store32 m E _ hE hal hb, Nat.mod_eq_of_lt hv]
  have e1 : c.step m =
      ⟨none,
        { pc_ := mod32 ((c.pc_.val : Int) + 4), regs_ := c.regs_, trace_ := c.trace_,
          csr_ := c.csr_ },
        (m.store32 E (c.regs_ (rs2_field w1)).val).2⟩ := by
    rw [step_eq_store c m w1 hf1 h1,
      step_sw_eq c m w1 _ h0 h1f (by rw [hEdef]; exact hal) (by rw [hEdef]; exact hb),
      u32_add_four, hEdef]
  have hf2' : (m.store32 E (c.regs_ (rs2_field w1)).val).2.load32
      (mod32 ((c.pc_.val : Int) + 4)).val = .ok w2 :=
    Memory.load32_store32_other m E _ _ w2 hE hal hb (mod32 _).isLt (Ne.symm hne) hf2
  have e2 : CPU.step
        { pc_ := mod32 ((c.pc_.val : Int) + 4), regs_ := c.regs_, trace_ := c.trace_,
          csr_ := c.csr_ }
        (m.store32 E (c.regs_ (rs2_field w1)).val).2 =
      ⟨none,
        { pc_ := mod32 ((c.pc_.val : Int) + 8),
          regs_ := set_reg c.regs_ (rd_field w2) (c.regs_ (rs2_field w1)),
          trace_ := c.trace_, csr_ := c.csr_ },
        (m.store32 E (c.regs_ (rs2_field w1)).val).2⟩ := by
    have hE2 : effective_address (c.regs_ (rs1_field w2)) (sext12 w2) = E := by
      rw [hrs, hsx, hEdef]
    rw [step_eq_load _ _ w2 hf2' h2,
      step_lw_eq
        { pc_ := mod32 ((c.pc_.val : Int) + 4), regs_ := c.regs_, trace_ := c.trace_,
          csr_ := c.csr_ } _ w2 _ (c.regs_ (rs2_field w1)).val h0 h2f
        (by rw [hE2]; exact hal) (by rw [hE2]; exact hload),
      u32_add_four, u32_self, mod32_add_mod32, add_assoc]
    rfl
  have hrun : run 2 c m = _ := (run_succ_ok 1 c _ m _ e1).trans
    ((run_succ_ok 0 _ _ _ _ e2).trans (run_zero _ _))
  refine ⟨by rw [e1], hrun, ?_, ?_, ?_⟩
  · rw [hrun]
    show set_reg _ _ _ _ = _
    rw [set_reg_same _ _ _ hrd]
  · rw [hrun]
    exact hload
  · intro hp
    rw [hrun]
    show (mod32 _).val = _
    have := mod32_val ((c.pc_.val : Int) + 8)
    omega

theorem store_then_load_witness :
    Reachable (CPU.new.step mem_sw_lw).cpu ∧
      mem_sw_lw.load32 (CPU.new.step mem_sw_lw).cpu.pc_.val = .ok 0x00202623 ∧
      (run 2 (CPU.new.step mem_sw_lw).cpu mem_sw_lw).cpu.reg 3 = 42 :=
  ⟨Reachable.step _ _ (Reachable.reset _ 0), rfl,
    ((store_then_load (CPU.new.step mem_sw_lw).cpu (Reachable.step _ _ (Reachable.reset _ 0))
      mem_sw_lw 0x00202623 0x00C02183 rfl rfl (by decide) (by decide) (by decide) (by decide)
      (by decide) (by decide) (by decide) (by decide) (by decide) (by decide)).2.2.1).trans
      (by decide)⟩

end CPU

/-! ## Instruction words and their fields -/

theorem encode_i_fields (i rs1 f3 rd op : Nat) (hi : i < 4096) (hrs1 : rs1 < 32) (hf : f3 < 8)
    (hrd : rd < 32) (hop : op < 128) :
    (i * 1048576 + rs1 * 32768 + f3 * 4096 + rd * 128 + op) % 128 = op ∧
    (i * 1048576 + rs1 * 32768 + f3 * 4096 + rd * 128 + op) / 128 % 32 = rd ∧
    (i * 1048576 + rs1 * 32768 + f3 * 4096 + rd * 128 + op) / 4096 % 8 = f3 ∧
    (i * 1048576 + rs1 * 32768 + f3 * 4096 + rd * 128 + op) / 32768 % 32 = rs1 ∧
    (i * 1048576 + rs1 * 32768 + f3 * 4096 + rd * 128 + op) / 1048576 % 4096 = i ∧
    (i * 1048576 + rs1 * 32768 + f3 * 4096 + rd * 128 + op) / 1048576 % 32 = i % 32 ∧
    (i * 1048576 + rs1 * 32768 + f3 * 4096 + rd * 128 + op) / 33554432 % 128 = i / 32 ∧
    i * 1048576 + rs1 * 32768 + f3 * 4096 + rd * 128 + op < 4294967296 := by
  omega

theorem encode_i_bits (i rs1 f3 rd op : Nat) (hi : i < 4096) (hrs1 : rs1 < 32) (hf : f3 < 8)
    (hrd : rd < 32) (hop : op < 128) :
    get_bits (encode_i i rs1 f3 rd op) 6 0 = op ∧
    get_bits (encode_i i rs1 f3 rd op) 11 7 = rd ∧
    get_bits (encode_i i rs1 f3 rd op) 14 12 = f3 ∧
    get_bits (encode_i i rs1 f3 rd op) 19 15 = rs1 ∧
    get_bits (encode_i i rs1 f3 rd op) 31 20 = i ∧
    get_bits (encode_i i rs1 f3 rd op) 24 20 = i % 32 ∧
    get_bits (encode_i i rs1 f3 rd op) 31 25 = i / 32 ∧
    encode_i i rs1 f3 rd op < 4294967296 := by
  have h := encode_i_fields i rs1 f3 rd op hi hrs1 hf hrd hop
  simp only [get_bits_eq_bits]
  unfold bits encode_i
  norm_num
  exact h

namespace CPU

/-! ## ADDI and ADD -/

theorem step_op_imm_addi (c : CPU) (m : Memory) (w : Nat) (npc : Word) (h0 : c.regs_ 0 = 0)
    (hf3 : get_bits w 14 12 = 0) :
    step_op_imm c m w npc =
      ⟨none,
        { pc_ := npc,
          regs_ := set_reg c.regs_ (rd_field w)
            (mod32 (((c.regs_ (rs1_field w)).val : Int) + sext12 w)),
          trace_ := c.trace_, csr_ := c.csr_ }, m⟩ := by
  unfold step_op_imm
  simp only []
  rw [hf3, if_pos rfl]
  simp only []
  rw [commit_write_rd _ _ _ _ _ h0, sign_extend_12, u32_add_ofInt32]

theorem step_op_add (c : CPU) (m : Memory) (w : Nat) (npc : Word) (h0 : c.regs_ 0 = 0)
    (hf3 : get_bits w 14 12 = 0) (hf7 : get_bits w 31 25 = 0) :
    step_op c m w npc =
      ⟨none,
        { pc_ := npc,
          regs_ := set_reg c.regs_ (rd_field w)
            (u32 ((c.regs_ (rs1_field w)).val + (c.regs_ (rs2_field w)).val)),
          trace_ := c.trace_, csr_ := c.csr_ }, m⟩ := by
  unfold step_op
  simp only []
  rw [hf3, hf7, if_pos rfl, if_pos rfl]
  simp only []
  rw [commit_write_rd _ _ _ _ _ h0]

theorem sext12_enc_addi (rd rs1 : Fin 32) (imm : Int) (h1 : -2048 ≤ imm) (h2 : imm ≤ 2047) :
    sext12 (enc_addi rd rs1 imm) = imm := by
  have hi : (imm % 4096).toNat < 4096 := by omega
  unfold sext12 enc_addi
  rw [← get_bits_eq_bits,
    (encode_i_bits _ rs1.val 0 rd.val 0x13 hi rs1.isLt (by decide) rd.isLt (by decide)).2.2.2.2.1]
  unfold twos_complement
  norm_num
  split_ifs <;> omega

/-- The step of `addi rd, rs1, imm`. -/
theorem step_enc_addi (c : CPU) (m : Memory) (rd rs1 : Fin 32) (imm : Int)
    (h1 : -2048 ≤ imm) (h2 : imm ≤ 2047) (h0 : c.regs_ 0 = 0)
    (hf : m.load32 c.pc_.val = .ok (enc_addi rd rs1 imm)) :
    c.step m =
      ⟨none,
        { pc_ := mod32 ((c.pc_.val : Int) + 4),
          regs_ := set_reg c.regs_ rd (mod32 (((c.regs_ rs1).val : Int) + imm)),
          trace_ := c.trace_, csr_ := c.csr_ }, m⟩ := by
  have hi : (imm % 4096).toNat < 4096 := by omega
  have hb := encode_i_bits _ rs1.val 0 rd.val 0x13 hi rs1.isLt (by decide) rd.isLt (by decide)
  have hrd : rd_field (enc_addi rd rs1 imm) = rd := Fin.ext hb.2.1
  have hrs : rs1_field (enc_addi rd rs1 imm) = rs1 := Fin.ext hb.2.2.2.1
  rw [step_eq_op_imm c m _ hf hb.1, step_op_imm_addi c m (enc_addi rd rs1 imm) _ h0 hb.2.2.1,
    hrd, hrs,
    sext12_enc_addi rd rs1 imm h1 h2, u32_add_four]

/-- The step of `add rd, rs1, rs2`. -/
theorem step_enc_add (c : CPU) (m : Memory) (rd rs1 rs2 : Fin 32) (h0 : c.regs_ 0 = 0)
    (hf : m.load32 c.pc_.val = .ok (enc_add rd rs1 rs2)) :
    c.step m =
      ⟨none,
        { pc_ := mod32 ((c.pc_.val : Int) + 4),
          regs_ := set_reg c.regs_ rd (u32 ((c.regs_ rs1).val + (c.regs_ rs2).val)),
          trace_ := c.trace_, csr_ := c.csr_ }, m⟩ := by
  have hi : rs2.val < 4096 := by have := rs2.isLt; omega
  have hb := encode_i_bits rs2.val rs1.val 0 rd.val 0x33 hi rs1.isLt (by decide) rd.isLt
    (by decide)
  have hrd : rd_field (enc_add rd rs1 rs2) = rd := Fin.ext hb.2.1
  have hrs : rs1_field (enc_add rd rs1 rs2) = rs1 := Fin.ext hb.2.2.2.1
  have hrs2 : rs2_field (enc_add rd rs1 rs2) = rs2 :=
    Fin.ext (hb.2.2.2.2.2.1.trans (Nat.mod_eq_of_lt rs2.isLt))
  have hf7 : get_bits (enc_add rd rs1 rs2) 31 25 = 0 := by
    have := rs2.isLt
    rw [show enc_add rd rs1 rs2 = encode_i rs2.val rs1.val 0 rd.val 0x33 from rfl,
      hb.2.2.2.2.2.2.1]
    omega
  rw [step_eq_op c m _ hf hb.1, step_op_add c m (enc_add rd rs1 rs2) _ h0 hb.2.2.1 hf7,
    hrd, hrs, hrs2,
    u32_add_four]

theorem u32_add_mod32 (a b : Int) : u32 ((mod32 a).val + (mod32 b).val) = mod32 (a + b) := by
  apply Fin.ext
  have h1 := mod32_val a
  have h2 := mod32_val b
  have h3 := mod32_val (a + b)
  rw [u32_val]
  omega

end CPU

/-! ## Programs stored in the memory -/

theorem load_program_size (ws : List Nat) (m : Memory) (base : Nat) :
    (load_program m base ws).size = m.size := by
  induction ws generalizing m base with
  | nil => rfl
  | cons w ws ih =>
    show (load_program (m.store32 base w).2 (base + 4) ws).size = m.size
    rw [ih, (Memory.store_size m base w).2.2]

theorem load_program_frame (ws : List Nat) (m : Memory) (base a x : Nat) (hal : base % 4 = 0)
    (hfit : base + 4 * ws.length ≤ m.size) (h32 : base + 4 * ws.length ≤ 4294967296)
    (ha : a + 4 ≤ base) (hl : m.load32 a = .ok x) :
    (load_program m base ws).load32 a = .ok x := by
  induction ws generalizing m base with
  | nil => exact hl
  | cons w ws ih =>
    rw [List.length_cons] at hfit h32
    show (load_program (m.store32 base w).2 (base + 4) ws).load32 a = .ok x
    apply ih
    · omega
    · rw [(Memory.store_size m base w).2.2]; omega
    · omega
    · omega
    · exact Memory.load32_store32_other m base w a x (by omega) hal (by omega) (by omega)
        (by omega) hl

theorem load_program_get (ws : List Nat) (m : Memory) (base i w : Nat) (hal : base % 4 = 0)
    (hfit : base + 4 * ws.length ≤ m.size) (h32 : base + 4 * ws.length ≤ 4294967296)
    (hw : ws[i]? = some w) (hlt : w < 4294967296) :
    (load_program m base ws).load32 (base + 4 * i) = .ok w := by
  induction ws generalizing m base i with
  | nil => simp at hw
  | cons v ws ih =>
    rw [List.length_cons] at hfit h32
    show (load_program (m.store32 base v).2 (base + 4) ws).load32 (base + 4 * i) = .ok w
    cases i with
    | zero =>
      have hv : v = w := by simpa using hw
      subst hv
      apply load_program_frame
      · omega
      · rw [(Memory.store_size m base v).2.2]; omega
      · omega
      · omega
      · rw [Nat.mul_zero, Nat.add_zero,
          Memory.load32_store32 m base v (by omega) hal (by omega), Nat.mod_eq_of_lt hlt]
    | succ j =>
      have hw' : ws[j]? = some w := by simpa using hw
      have := ih (m.store32 base v).2 (base + 4) j (by omega)
        (by rw [(Memory.store_size m base v).2.2]; omega) (by omega) hw'
      rw [show base + 4 * (j + 1) = base + 4 + 4 * j by omega]
      exact this

namespace CPU

/-- C17: end-to-end scenario A. For all 12-bit signed immediates `a`, `b` in
`[-2048, 2047]`, in every memory that holds the program
`[addi x1,x0,a; addi x2,x0,b; add x3,x1,x2; ebreak]` at addresses 0..15, from
the CPU reset to PC 0: exactly three steps complete and the fourth fails with
Breakpoint at PC 12, leaving `reg(1) == a mod 2^32`, `reg(2) == b mod 2^32`,
`reg(3) == (a + b) mod 2^32`, every other register as reset left it, and the
memory as it was. For `a = 10`, `b = 20` the words are those of
`test_addi_add`, and the loop of the test that stores the program in a fresh
memory of at least 16 bytes makes it hold the program. -/
theorem scenario_a (a b : Int) (ha1 : -2048 ≤ a) (ha2 : a ≤ 2047) (hb1 : -2048 ≤ b)
    (hb2 : b ≤ 2047) (c0 : CPU) (m : Memory)
    (hm0 : m.load32 0 = .ok (enc_addi 1 0 a)) (hm1 : m.load32 4 = .ok (enc_addi 2 0 b))
    (hm2 : m.load32 8 = .ok (enc_add 3 1 2)) (hm3 : m.load32 12 = .ok 0x00100073) :
    run 3 (c0.reset 0) m =
      ⟨none,
        { pc_ := 12,
          regs_ := set_reg (set_reg (set_reg (c0.reset 0).regs_ 1 (mod32 a)) 2 (mod32 b)) 3
            (mod32 (a + b)),
          trace_ := c0.trace_, csr_ := (c0.reset 0).csr_ }, m⟩ ∧
    run 4 (c0.reset 0) m =
      ⟨some Exn.EBREAK,
        { pc_ := 12,
          regs_ := set_reg (set_reg (set_reg (c0.reset 0).regs_ 1 (mod32 a)) 2 (mod32 b)) 3
            (mod32 (a + b)),
          trace_ := c0.trace_, csr_ := (c0.reset 0).csr_ }, m⟩ ∧
    Exn.EBREAK.kind = ErrorKind.Breakpoint ∧
    (run 4 (c0.reset 0) m).cpu.reg 1 = mod32 a ∧
    (run 4 (c0.reset 0) m).cpu.reg 2 = mod32 b ∧
    (run 4 (c0.reset 0) m).cpu.reg 3 = mod32 (a + b) ∧
    [enc_addi 1 0 10, enc_addi 2 0 20, enc_add 3 1 2] = [0x00A00093, 0x01400113, 0x002081B3] ∧
    (∀ n : Nat, 16 ≤ n → ∀ (i w : Nat),
      [enc_addi 1 0 a, enc_addi 2 0 b, enc_add 3 1 2, 0x00100073][i]? = some w →
      (load_program (Memory.new n) 0
        [enc_addi 1 0 a, enc_addi 2 0 b, enc_add 3 1 2, 0x00100073]).load32 (0 + 4 * i) =
          .ok w) := by
  have h0 : (c0.reset 0).regs_ 0 = 0 := reachable_reg_zero _ (Reachable.reset c0 0)
  have e1 : (c0.reset 0).step m =
      ⟨none,
        { pc_ := 4, regs_ := set_reg (c0.reset 0).regs_ 1 (mod32 a), trace_ := c0.trace_,
          csr_ := (c0.reset 0).csr_ }, m⟩ := by
    rw [step_enc_addi (c0.reset 0) m 1 0 a ha1 ha2 h0 hm0, h0]
    have : mod32 ((((0 : Word).val : Nat) : Int) + a) = mod32 a := by
      rw [show (((0 : Word).val : Nat) : Int) = 0 from rfl, zero_add]
    rw [this]
    rfl
  have h1 : set_reg (c0.reset 0).regs_ 1 (mod32 a) 0 = 0 := by rw [set_reg_zero, h0]
  have e2 : CPU.step
        { pc_ := 4, regs_ := set_reg (c0.reset 0).regs_ 1 (mod32 a), trace_ := c0.trace_,
          csr_ := (c0.reset 0).csr_ } m =
      ⟨none,
        { pc_ := 8, regs_ := set_reg (set_reg (c0.reset 0).regs_ 1 (mod32 a)) 2 (mod32 b),
          trace_ := c0.trace_, csr_ := (c0.reset 0).csr_ }, m⟩ := by
    rw [step_enc_addi
      { pc_ := 4, regs_ := set_reg (c0.reset 0).regs_ 1 (mod32 a), trace_ := c0.trace_,
        csr_ := (c0.reset 0).csr_ } m 2 0 b hb1 hb2 h1 hm1]
    simp only [h1]
    have : mod32 ((((0 : Word).val : Nat) : Int) + b) = mod32 b := by
      rw [show (((0 : Word).val : Nat) : Int) = 0 from rfl, zero_add]
    rw [this]
    rfl
  have h2 : set_reg (set_reg (c0.reset 0).regs_ 1 (mod32 a)) 2 (mod32 b) 0 = 0 := by
    rw [set_reg_zero, h1]
  have r1 : set_reg (set_reg (c0.reset 0).regs_ 1 (mod32 a)) 2 (mod32 b) 1 = mod32 a := by
    rw [set_reg_other _ _ _ _ (by decide), set_reg_same _ _ _ (by decide)]
  have r2 : set_reg (set_reg (c0.reset 0).regs_ 1 (mod32 a)) 2 (mod32 b) 2 = mod32 b := by
    rw [set_reg_same _ _ _ (by decide)]
  have e3 : CPU.step
        { pc_ := 8, regs_ := set_reg (set_reg (c0.reset 0).regs_ 1 (mod32 a)) 2 (mod32 b),
          trace_ := c0.trace_, csr_ := (c0.reset 0).csr_ } m =
      ⟨none,
        { pc_ := 12,
          regs_ := set_reg (set_reg (set_reg (c0.reset 0).regs_ 1 (mod32 a)) 2 (mod32 b)) 3
            (mod32 (a + b)),
          trace_ := c0.trace_, csr_ := (c0.reset 0).csr_ }, m⟩ := by
    rw [step_enc_add
      { pc_ := 8, regs_ := set_reg (set_reg (c0.reset 0).regs_ 1 (mod32 a)) 2 (mod32 b),
        trace_ := c0.trace_, csr_ := (c0.reset 0).csr_ } m 3 1 2 h2 hm2]
    simp only [r1, r2, u32_add_mod32]
    rfl
  have e4 : CPU.step
        { pc_ := 12,
          regs_ := set_reg (set_reg (set_reg (c0.reset 0).regs_ 1 (mod32 a)) 2 (mod32 b)) 3
            (mod32 (a + b)),
          trace_ := c0.trace_, csr_ := (c0.reset 0).csr_ } m =
      ⟨some Exn.EBREAK,
        { pc_ := 12,
          regs_ := set_reg (set_reg (set_reg (c0.reset 0).regs_ 1 (mod32 a)) 2 (mod32 b)) 3
            (mod32 (a + b)),
          trace_ := c0.trace_, csr_ := (c0.reset 0).csr_ }, m⟩ :=
    step_eq_ebreak _ m hm3
  have hrun3 : run 3 (c0.reset 0) m = _ :=
    (run_succ_ok 2 _ _ m m e1).trans ((run_succ_ok 1 _ _ m m e2).trans
      ((run_succ_ok 0 _ _ m m e3).trans (run_zero _ _)))
  have hrun4 : run 4 (c0.reset 0) m = _ :=
    (run_succ_ok 3 _ _ m m e1).trans ((run_succ_ok 2 _ _ m m e2).trans
      ((run_succ_ok 1 _ _ m m e3).trans (run_succ_fail 0 _ _ m m _ e4)))
  refine ⟨hrun3, hrun4, rfl, ?_, ?_, ?_, by decide, ?_⟩
  · rw [hrun4]
    unfold CPU.reg
    dsimp only
    rw [set_reg_other _ _ _ _ (by decide), r1]
  · rw [hrun4]
    unfold CPU.reg
    dsimp only
    rw [set_reg_other _ _ _ _ (by decide), r2]
  · rw [hrun4]
    unfold CPU.reg
    dsimp only
    rw [set_reg_same _ _ _ (by decide)]
  · intro n hn i w hw
    have hia : (a % 4096).toNat < 4096 := by omega
    have hib : (b % 4096).toNat < 4096 := by omega
    have l0 : enc_addi 1 0 a < 4294967296 :=
      (encode_i_bits _ _ 0 _ 0x13 hia (by decide) (by decide) (by decide) (by decide)).2.2.2.2.2.2.2
    have l1 : enc_addi 2 0 b < 4294967296 :=
      (encode_i_bits _ _ 0 _ 0x13 hib (by decide) (by decide) (by decide) (by decide)).2.2.2.2.2.2.2
    have hsz : (Memory.new n).size = n := List.length_replicate _ _
    apply load_program_get _ _ 0 i w (by decide) (by rw [hsz]; simpa using hn)
      (by simp) hw
    rcases i with _ | _ | _ | _ | i
    · have : enc_addi 1 0 a = w := by simpa using hw
      omega
    · have : enc_addi 2 0 b = w := by simpa using hw
      omega
    · have : enc_add 3 1 2 = w := by simpa using hw
      rw [← this]; decide
    · have : 0x00100073 = w := by simpa using hw
      omega
    · simp at hw

theorem scenario_a_witness :
    mem_addi_add.load32 0 = .ok (enc_addi 1 0 10) ∧
      (run 4 (CPU.new.reset 0) mem_addi_add).exn = some Exn.EBREAK ∧
      (run 4 (CPU.new.reset 0) mem_addi_add).cpu.reg 3 = 30 :=
  ⟨rfl,
    congrArg StepResult.exn
      (scenario_a 10 20 (by decide) (by decide) (by decide) (by decide) CPU.new mem_addi_add
        rfl rfl rfl rfl).2.1,
    ((scenario_a 10 20 (by decide) (by decide) (by decide) (by decide) CPU.new mem_addi_add
      rfl rfl rfl rfl).2.2.2.2.2.1).trans (by decide)⟩

/-! ## LUI and AUIPC -/

theorem and_upper_mask (w : Nat) : w &&& 0xFFFFF000 = bits w 31 12 * 2 ^ 12 := by
  unfold bits
  apply Nat.eq_of_testBit_eq
  intro i
  have hm : (0xFFFFF000 : Nat) = 2 ^ 12 * (2 ^ 20 - 1) := by norm_num
  rw [Nat.testBit_and, hm, Nat.mul_comm (_ % _) (2 ^ 12), Nat.testBit_mul_pow_two,
    Nat.testBit_mul_pow_two, Nat.testBit_two_pow_sub_one, Nat.testBit_mod_two_pow,
    ← Nat.shiftRight_eq_div_pow, Nat.testBit_shiftRight]
  by_cases h : 12 ≤ i
  · have : 12 + (i - 12) = i := by omega
    simp [h, this]
    exact Bool.and_comm _ _
  · simp [h]

theorem upper_imm_lt (w : Nat) : bits w 31 12 * 2 ^ 12 < 4294967296 := by
  have := bits_lt w 31 12
  norm_num at this ⊢
  omega

theorem step_lui_eq (c : CPU) (m : Memory) (w : Nat) (npc : Word) (h0 : c.regs_ 0 = 0) :
    step_lui c m w npc =
      ⟨none,
        { pc_ := npc, regs_ := set_reg c.regs_ (rd_field w) (u32 (w &&& 0xFFFFF000)),
          trace_ := c.trace_, csr_ := c.csr_ }, m⟩ := by
  unfold step_lui
  simp only []
  rw [commit_write_rd _ _ _ _ _ h0]

theorem step_auipc_eq (c : CPU) (m : Memory) (w : Nat) (npc : Word) (h0 : c.regs_ 0 = 0) :
    step_auipc c m w npc =
      ⟨none,
        { pc_ := npc,
          regs_ := set_reg c.regs_ (rd_field w)
            (mod32 ((c.pc_.val : Int) + ((w &&& 0xFFFFF000 : Nat) : Int))),
          trace_ := c.trace_, csr_ := c.csr_ }, m⟩ := by
  unfold step_auipc
  simp only []
  rw [commit_write_rd _ _ _ _ _ h0]
  have hv : (u32 (w &&& 0xFFFFF000)).val = w &&& 0xFFFFF000 := by
    rw [and_upper_mask]
    exact u32_val_of_lt _ (upper_imm_lt w)
  have : u32 (c.pc_.val + (u32 (w &&& 0xFFFFF000)).val) =
      mod32 ((c.pc_.val : Int) + ((w &&& 0xFFFFF000 : Nat) : Int)) := by
    rw [hv]
    apply Fin.ext
    have := mod32_val ((c.pc_.val : Int) + ((w &&& 0xFFFFF000 : Nat) : Int))
    rw [u32_val]
    omega
  rw [this]

/-- C18: upper-immediate semantics. In a reachable state with PC `p`, for
every fetched word `w`: with opcode `0x37` (LUI) the step completes and `rd`
(if `rd != 0`) holds `w & 0xFFFFF000`, which is `w[31:12]` in place with the
low 12 bits zero; with opcode `0x17` (AUIPC) the step completes and `rd` (if
`rd != 0`) holds `(p + (w & 0xFFFFF000)) mod 2^32`, `p` being the address of
the AUIPC itself; in both cases PC becomes `(p + 4) mod 2^32` and nothing else
changes. The program of `test_lui_auipc` (`lui x1,0x12345` at 0,
`auipc x2,0x1` at 4) gives `x1 = 0x12345000` and `x2 = 0x00001004`. -/
theorem upper_immediate_semantics (c : CPU) (hc : Reachable c) (m : Memory) (w : Nat)
    (hf : m.load32 c.pc_.val = .ok w) :
    (get_bits w 6 0 = 0x37 →
      c.step m =
        ⟨none,
          { pc_ := mod32 ((c.pc_.val : Int) + 4),
            regs_ := set_reg c.regs_ (rd_field w) (u32 (w &&& 0xFFFFF000)),
            trace_ := c.trace_, csr_ := c.csr_ }, m⟩) ∧
    (get_bits w 6 0 = 0x17 →
      c.step m =
        ⟨none,
          { pc_ := mod32 ((c.pc_.val : Int) + 4),
            regs_ := set_reg c.regs_ (rd_field w)
              (mod32 ((c.pc_.val : Int) + ((w &&& 0xFFFFF000 : Nat) : Int))),
            trace_ := c.trace_, csr_ := c.csr_ }, m⟩) ∧
    (w &&& 0xFFFFF000 = bits w 31 12 * 2 ^ 12 ∧ (w &&& 0xFFFFF000) % 2 ^ 12 = 0 ∧
      (w &&& 0xFFFFF000) / 2 ^ 12 = bits w 31 12) ∧
    (rd_field w ≠ 0 → get_bits w 6 0 = 0x37 →
      ((c.step m).cpu.reg (rd_field w)).val = w &&& 0xFFFFF000) ∧
    (rd_field w ≠ 0 → get_bits w 6 0 = 0x17 →
      ((c.step m).cpu.reg (rd_field w)).val =
        (c.pc_.val + (w &&& 0xFFFFF000)) % 4294967296) ∧
    ((run 3 CPU.new mem_lui_auipc).exn = some Exn.EBREAK ∧
      (run 3 CPU.new mem_lui_auipc).cpu.reg 1 = 0x12345000 ∧
      (run 3 CPU.new mem_lui_auipc).cpu.reg 2 = 0x00001004) := by
  have h0 := reachable_reg_zero c hc
  have hlui : get_bits w 6 0 = 0x37 → c.step m = _ := fun hop => by
    rw [step_eq_lui c m w hf hop, step_lui_eq c m w _ h0, u32_add_four]
  have hauipc : get_bits w 6 0 = 0x17 → c.step m = _ := fun hop => by
    rw [step_eq_auipc c m w hf hop, step_auipc_eq c m w _ h0, u32_add_four]
  have hu := and_upper_mask w
  have hul := upper_imm_lt w
  refine ⟨hlui, hauipc, ⟨hu, ?_, ?_⟩, ?_, ?_, by decide⟩
  · rw [hu]; exact Nat.mul_mod_left _ _
  · rw [hu]; exact Nat.mul_div_cancel _ (by norm_num)
  · intro hrd hop
    rw [hlui hop]
    unfold CPU.reg
    dsimp only
    rw [set_reg_same _ _ _ hrd, hu, u32_val_of_lt _ hul]
  · intro hrd hop
    rw [hauipc hop]
    unfold CPU.reg
    dsimp only
    rw [set_reg_same _ _ _ hrd]
    have := mod32_val ((c.pc_.val : Int) + ((w &&& 0xFFFFF000 : Nat) : Int))
    omega

theorem upper_immediate_semantics_witness :
    Reachable CPU.new ∧ mem_lui_auipc.load32 CPU.new.pc_.val = .ok 0x123450B7 ∧
      ((CPU.new.step mem_lui_auipc).cpu.reg 1).val = 0x12345000 :=
  ⟨Reachable.reset _ 0, rfl,
    ((upper_immediate_semantics CPU.new (Reachable.reset _ 0) mem_lui_auipc 0x123450B7
      rfl).2.2.2.1 (by decide) (by decide)).trans (by decide)⟩

/-! ## Runs in two parts, and FENCE -/

theorem run_add_ok (a b : Nat) (c c' : CPU) (m m' : Memory)
    (h : run a c m = ⟨none, c', m'⟩) : run (a + b) c m = run b c' m' := by
  induction a generalizing c m with
  | zero =>
    rw [run_zero] at h
    injection h with _ h2 h3
    rw [Nat.zero_add, h2, h3]
  | succ a ih =>
    rw [show a + 1 + b = (a + b) + 1 by omega]
    cases hx : (c.step m).exn with
    | some e =>
      exfalso
      have : run (a + 1) c m = c.step m := by
        rw [run]; simp only [hx]
      rw [this] at h
      rw [h] at hx
      exact Option.noConfusion hx
    | none =>
      have h1 : ∀ n, run (n + 1) c m = run n (c.step m).cpu (c.step m).mem := by
        intro n
        rw [run]; simp only [hx]
      rw [h1] at h ⊢
      exact ih _ _ h

theorem step_fence_eq (c : CPU) (m : Memory) (w : Nat) (h0 : c.regs_ 0 = 0)
    (hf : m.load32 c.pc_.val = .ok w) (hop : get_bits w 6 0 = 0x0F) :
    c.step m =
      ⟨none,
        { pc_ := mod32 ((c.pc_.val : Int) + 4), regs_ := c.regs_, trace_ := c.trace_,
          csr_ := c.csr_ }, m⟩ := by
  rw [step_eq_fence c m w hf hop, commit_same c m _ h0, u32_add_four]

theorem run_fences (n : Nat) (c : CPU) (m : Memory) (h0 : c.regs_ 0 = 0)
    (hm : ∀ i, i < n → ∃ w, m.load32 (c.pc_.val + 4 * i) = .ok w ∧ get_bits w 6 0 = 0x0F)
    (hlt : c.pc_.val + 4 * n < 4294967296) :
    run n c m =
      ⟨none,
        { pc_ := u32 (c.pc_.val + 4 * n), regs_ := c.regs_, trace_ := c.trace_,
          csr_ := c.csr_ }, m⟩ := by
  induction n generalizing c with
  | zero =>
    rw [run_zero, Nat.mul_zero, Nat.add_zero, u32_self]
  | succ n ih =>
    obtain ⟨w, hw, hop⟩ := hm 0 (by omega)
    rw [Nat.mul_zero, Nat.add_zero] at hw
    have hpc : (mod32 ((c.pc_.val : Int) + 4)).val = c.pc_.val + 4 := by
      have := mod32_val ((c.pc_.val : Int) + 4)
      omega
    rw [run_succ_ok n c _ m m (step_fence_eq c m w h0 hw hop),
      ih ⟨mod32 ((c.pc_.val : Int) + 4), c.regs_, c.trace_, c.csr_⟩ h0
        (by
          intro i hi
          obtain ⟨w', hw', hop'⟩ := hm (i + 1) (by omega)
          refine ⟨w', ?_, hop'⟩
          show m.load32 ((mod32 ((c.pc_.val : Int) + 4)).val + 4 * i) = _
          rw [hpc, show c.pc_.val + 4 + 4 * i = c.pc_.val + 4 * (i + 1) by omega]
          exact hw')
        (by
          show (mod32 ((c.pc_.val : Int) + 4)).val + 4 * n < 4294967296
          rw [hpc]; omega)]
    dsimp only
    rw [hpc, show c.pc_.val + 4 + 4 * n = c.pc_.val + 4 * (n + 1) by omega]

theorem reset_regs (c0 : CPU) (s : Word) (i : Fin 32) : (c0.reset s).regs_ i = 0 := by
  show Function.update (fun _ => (0 : Word)) 0 0 i = 0
  by_cases h : i = 0
  · rw [h, Function.update_same]
  · rw [Function.update_noteq h]

/-- C20: FENCE is a no-op. In a reachable state, for every fetched word with
opcode `0x0F`, whatever its other fields, the step completes and changes
nothing except PC, which becomes `(PC + 4) mod 2^32`. Consequently, in every
memory that holds `k` such words at addresses `0 .. 4k-1` followed by ECALL
(`0x00000073`) at the 32-bit address `4k`, the run from reset at PC 0 completes
`k` steps and stops at the ECALL with an environment call, `PC == 4k` and all
registers zero. -/
theorem fence_noop (c : CPU) (hc : Reachable c) (m : Memory) (w : Nat)
    (hf : m.load32 c.pc_.val = .ok w) (hop : get_bits w 6 0 = 0x0F) :
    c.step m =
      ⟨none,
        { pc_ := mod32 ((c.pc_.val : Int) + 4), regs_ := c.regs_, trace_ := c.trace_,
          csr_ := c.csr_ }, m⟩ ∧
    (∀ (k : Nat) (c0 : CPU) (m' : Memory), 4 * k < 4294967296 →
      (∀ i, i < k → ∃ w', m'.load32 (4 * i) = .ok w' ∧ get_bits w' 6 0 = 0x0F) →
      m'.load32 (4 * k) = .ok 0x00000073 →
      run k (c0.reset 0) m' =
        ⟨none,
          { pc_ := u32 (4 * k), regs_ := (c0.reset 0).regs_, trace_ := c0.trace_,
            csr_ := (c0.reset 0).csr_ }, m'⟩ ∧
      run (k + 1) (c0.reset 0) m' =
        ⟨some Exn.ECALL,
          { pc_ := u32 (4 * k), regs_ := (c0.reset 0).regs_, trace_ := c0.trace_,
            csr_ := (c0.reset 0).csr_ }, m'⟩ ∧
      Exn.ECALL.kind = ErrorKind.EnvironmentCall ∧
      (run (k + 1) (c0.reset 0) m').cpu.pc_.val = 4 * k ∧
      ∀ i, (run (k + 1) (c0.reset 0) m').cpu.reg i = 0) := by
  refine ⟨step_fence_eq c m w (reachable_reg_zero c hc) hf hop, ?_⟩
  intro k c0 m' hk hm he
  have h0 : (c0.reset 0).regs_ 0 = 0 := reset_regs c0 0 0
  have hr : run k (c0.reset 0) m' =
      ⟨none,
        { pc_ := u32 (4 * k), regs_ := (c0.reset 0).regs_, trace_ := c0.trace_,
          csr_ := (c0.reset 0).csr_ }, m'⟩ := by
    have := run_fences k (c0.reset 0) m' h0
      (by
        intro i hi
        show ∃ w', m'.load32 (0 + 4 * i) = .ok w' ∧ _
        rw [Nat.zero_add]
        exact hm i hi)
      (by
        show 0 + 4 * k < 4294967296
        omega)
    rw [this]
    show (⟨none, ⟨u32 (0 + 4 * k), _, _, _⟩, m'⟩ : StepResult) = _
    rw [Nat.zero_add]
    rfl
  have hv : (u32 (4 * k)).val = 4 * k := u32_val_of_lt _ hk
  have hs : CPU.step ⟨u32 (4 * k), (c0.reset 0).regs_, c0.trace_, (c0.reset 0).csr_⟩ m' =
      ⟨some Exn.ECALL, ⟨u32 (4 * k), (c0.reset 0).regs_, c0.trace_, (c0.reset 0).csr_⟩, m'⟩ :=
    step_eq_ecall _ m' (by
      show m'.load32 (u32 (4 * k)).val = _
      rw [hv]; exact he)
  have hr1 : run (k + 1) (c0.reset 0) m' = _ :=
    (run_add_ok k 1 _ _ _ _ hr).trans (run_succ_fail 0 _ _ _ _ _ hs)
  refine ⟨hr, hr1, rfl, ?_, ?_⟩
  · rw [hr1]
    exact hv
  · intro i
    rw [hr1]
    exact reset_regs c0 0 i

theorem fence_noop_witness :
    Reachable CPU.new ∧ mem_fence_ecall.load32 CPU.new.pc_.val = .ok 0x0000000F ∧
      get_bits 0x0000000F 6 0 = 0x0F ∧
      (CPU.new.step mem_fence_ecall).exn = none ∧
      (run 2 (CPU.new.reset 0) mem_fence_ecall).exn = some Exn.ECALL ∧
      (run 2 (CPU.new.reset 0) mem_fence_ecall).cpu.pc_.val = 4 :=
  ⟨Reachable.reset _ 0, rfl, by decide,
    congrArg StepResult.exn
      (fence_noop CPU.new (Reachable.reset _ 0) mem_fence_ecall 0x0000000F rfl (by decide)).1,
    congrArg StepResult.exn
      ((fence_noop CPU.new (Reachable.reset _ 0) mem_fence_ecall 0x0000000F rfl
        (by decide)).2 1 CPU.new mem_fence_ecall (by decide)
        (fun i hi => ⟨0x0000000F, by
          have h : i = 0 := Nat.lt_one_iff.1 hi
          subst h
          exact ⟨rfl, by decide⟩⟩) rfl).2.1,
    ((fence_noop CPU.new (Reachable.reset _ 0) mem_fence_ecall 0x0000000F rfl
        (by decide)).2 1 CPU.new mem_fence_ecall (by decide)
        (fun i hi => ⟨0x0000000F, by
          have h : i = 0 := Nat.lt_one_iff.1 hi
          subst h
          exact ⟨rfl, by decide⟩⟩) rfl).2.2.2.1⟩

/-! ## The counting loop -/

theorem set_reg_set_reg (r : Fin 32 → Word) (i : Fin 32) (v v' : Word) :
    set_reg (set_reg r i v) i v' = set_reg r i v' := by
  funext k
  unfold set_reg
  by_cases h : k = i ∧ i ≠ 0
  · rw [if_pos h, if_pos h]
  · rw [if_neg h, if_neg h, if_neg h]

theorem set_reg_comm (r : Fin 32 → Word) (i j : Fin 32) (v v' : Word) (hij : i ≠ j) :
    set_reg (set_reg r i v) j v' = set_reg (set_reg r j v') i v := by
  funext k
  unfold set_reg
  by_cases h1 : k = j ∧ j ≠ 0
  · rw [if_pos h1, if_neg (fun h => hij (h.1.symm.trans h1.1)), if_pos h1]
  · rw [if_neg h1, if_neg h1]

theorem mod32_natCast (n : Nat) : mod32 (n : Int) = u32 n := by
  apply Fin.ext
  have := mod32_val (n : Int)
  rw [u32_val]
  omega

theorem mod32_u32_add_one (j : Nat) : mod32 (((u32 j).val : Int) + 1) = u32 (j + 1) := by
  apply Fin.ext
  have h1 := mod32_val (((u32 j).val : Int) + 1)
  have h2 := u32_val j
  have h3 := u32_val (j + 1)
  omega

/-- The step of the word `0xFE209EE3`, `bne x1, x2, -4`. -/
theorem step_bne_back (c : CPU) (m : Memory) (h0 : c.regs_ 0 = 0)
    (hf : m.load32 c.pc_.val = .ok 0xFE209EE3) :
    c.step m =
      ⟨none,
        { pc_ := if c.regs_ 1 ≠ c.regs_ 2 then mod32 ((c.pc_.val : Int) - 4)
            else mod32 ((c.pc_.val : Int) + 4),
          regs_ := c.regs_, trace_ := c.trace_, csr_ := c.csr_ }, m⟩ := by
  have hf3 : get_bits 0xFE209EE3 14 12 = 1 := by decide
  have hr1 : rs1_field 0xFE209EE3 = 1 := by decide
  have hr2 : rs2_field 0xFE209EE3 = 2 := by decide
  have hi : imm_b 0xFE209EE3 = -4 := by decide
  rw [step_eq_branch c m _ hf (by decide), step_branch_eq c m _ _ h0 (by decide), hf3, hr1, hr2,
    hi, u32_add_ofInt32, u32_add_four]
  have hb : branch_taken 1 (c.regs_ 1).val (c.regs_ 2).val = decide (c.regs_ 1 ≠ c.regs_ 2) := by
    unfold branch_taken
    simp [Fin.ext_iff]
  rw [hb]
  by_cases h : c.regs_ 1 = c.regs_ 2
  · simp [h]
  · simp [h]
    rfl

/-- One pass through the loop body `addi x1,x1,1; bne x1,x2,-4` at addresses
8 and 12, from `x1 = j`, `x2 = n`. -/
theorem loop_body (R : Fin 32 → Word) (tr : Bool) (csr : Fin 4096 → Word) (m : Memory)
    (n j : Nat) (hR : R 0 = 0) (hn : n < 4294967296) (hj : j + 1 ≤ n)
    (hm2 : m.load32 8 = .ok (enc_addi 1 1 1)) (hm3 : m.load32 12 = .ok 0xFE209EE3) :
    run 2 ⟨8, set_reg (set_reg R 2 (u32 n)) 1 (u32 j), tr, csr⟩ m =
      ⟨none,
        ⟨if j + 1 = n then 16 else 8, set_reg (set_reg R 2 (u32 n)) 1 (u32 (j + 1)), tr, csr⟩,
        m⟩ := by
  have h0 : ∀ x, set_reg (set_reg R 2 (u32 n)) 1 (u32 x) 0 = 0 := by
    intro x
    rw [set_reg_zero, set_reg_zero, hR]
  have e1 : CPU.step ⟨8, set_reg (set_reg R 2 (u32 n)) 1 (u32 j), tr, csr⟩ m =
      ⟨none, ⟨12, set_reg (set_reg R 2 (u32 n)) 1 (u32 (j + 1)), tr, csr⟩, m⟩ := by
    rw [step_enc_addi ⟨8, set_reg (set_reg R 2 (u32 n)) 1 (u32 j), tr, csr⟩ m 1 1 1
      (by decide) (by decide) (h0 j) hm2]
    dsimp only
    rw [set_reg_same _ _ _ (by decide), mod32_u32_add_one, set_reg_set_reg]
    rfl
  have e2 : CPU.step ⟨12, set_reg (set_reg R 2 (u32 n)) 1 (u32 (j + 1)), tr, csr⟩ m =
      ⟨none,
        ⟨if j + 1 = n then 16 else 8, set_reg (set_reg R 2 (u32 n)) 1 (u32 (j + 1)), tr, csr⟩,
        m⟩ := by
    rw [step_bne_back ⟨12, set_reg (set_reg R 2 (u32 n)) 1 (u32 (j + 1)), tr, csr⟩ m
      (h0 (j + 1)) hm3]
    dsimp only
    rw [set_reg_same _ _ _ (by decide), set_reg_other _ _ _ _ (by decide),
      set_reg_same _ _ _ (by decide)]
    have hiff : u32 (j + 1) = u32 n ↔ j + 1 = n := by
      constructor
      · intro h
        have := congrArg Fin.val h
        rw [u32_val_of_lt _ (by omega), u32_val_of_lt _ hn] at this
        exact this
      · intro h; rw [h]
    by_cases h : j + 1 = n
    · rw [if_neg (not_not.2 (hiff.2 h)), if_pos h]
      rfl
    · rw [if_pos (fun hh => h (hiff.1 hh)), if_neg h]
      rfl
  exact (run_succ_ok 1 _ _ m m e1).trans ((run_succ_ok 0 _ _ m m e2).trans (run_zero _ _))

/-- The loop from `x1 = j` to its exit: `d + 1` passes remain when `j + d + 1 = n`. -/
theorem loop_run (R : Fin 32 → Word) (tr : Bool) (csr : Fin 4096 → Word) (m : Memory)
    (n : Nat) (hR : R 0 = 0) (hn : n < 4294967296)
    (hm2 : m.load32 8 = .ok (enc_addi 1 1 1)) (hm3 : m.load32 12 = .ok 0xFE209EE3)
    (d j : Nat) (hj : j + d + 1 = n) :
    run (2 * (d + 1)) ⟨8, set_reg (set_reg R 2 (u32 n)) 1 (u32 j), tr, csr⟩ m =
      ⟨none, ⟨16, set_reg (set_reg R 2 (u32 n)) 1 (u32 n), tr, csr⟩, m⟩ := by
  induction d generalizing j with
  | zero =>
    have hb := loop_body R tr csr m n j hR hn (by omega) hm2 hm3
    rw [if_pos (by omega), show j + 1 = n by omega] at hb
    exact hb
  | succ d ih =>
    have hb := loop_body R tr csr m n j hR hn (by omega) hm2 hm3
    rw [if_neg (by omega)] at hb
    rw [show 2 * (d + 1 + 1) = 2 + 2 * (d + 1) by omega, run_add_ok 2 _ _ _ _ _ hb]
    exact ih (j + 1) (by omega)

/-- C19: end-to-end scenario C. For every loop bound `n` with
`1 <= n <= 2047`, in every memory that holds the program
`[addi x1,x0,0; addi x2,x0,n; addi x1,x1,1; bne x1,x2,-4; ebreak]` at
addresses 0..19, the run from the CPU reset to PC 0 terminates: exactly
`2 + 2n` steps complete, the next step fails with Breakpoint at PC 16, and then
`reg(1) == n` and `reg(2) == n`; no other register, no CSR and no memory byte
has changed. For `n = 5` the words are those of `test_branch_bne_loop`, and the
loop of the test that stores the program in a fresh memory of at least 20 bytes
makes it hold the program. -/
theorem scenario_c (n : Nat) (hn1 : 1 ≤ n) (hn2 : n ≤ 2047) (c0 : CPU) (m : Memory)
    (hm0 : m.load32 0 = .ok (enc_addi 1 0 0)) (hm1 : m.load32 4 = .ok (enc_addi 2 0 n))
    (hm2 : m.load32 8 = .ok (enc_addi 1 1 1)) (hm3 : m.load32 12 = .ok 0xFE209EE3)
    (hm4 : m.load32 16 = .ok 0x00100073) :
    run (2 + 2 * n) (c0.reset 0) m =
      ⟨none,
        { pc_ := 16, regs_ := set_reg (set_reg (c0.reset 0).regs_ 2 (u32 n)) 1 (u32 n),
          trace_ := c0.trace_, csr_ := (c0.reset 0).csr_ }, m⟩ ∧
    run (2 + 2 * n + 1) (c0.reset 0) m =
      ⟨some Exn.EBREAK,
        { pc_ := 16, regs_ := set_reg (set_reg (c0.reset 0).regs_ 2 (u32 n)) 1 (u32 n),
          trace_ := c0.trace_, csr_ := (c0.reset 0).csr_ }, m⟩ ∧
    Exn.EBREAK.kind = ErrorKind.Breakpoint ∧
    ((run (2 + 2 * n + 1) (c0.reset 0) m).cpu.reg 1).val = n ∧
    ((run (2 + 2 * n + 1) (c0.reset 0) m).cpu.reg 2).val = n ∧
    [enc_addi 1 0 0, enc_addi 2 0 5, enc_addi 1 1 1] = [0x00000093, 0x00500113, 0x00108093] ∧
    (imm_b 0xFE209EE3 = -4 ∧ get_bits 0xFE209EE3 6 0 = 0x63 ∧ get_bits 0xFE209EE3 14 12 = 1 ∧
      rs1_field 0xFE209EE3 = 1 ∧ rs2_field 0xFE209EE3 = 2) ∧
    (∀ sz : Nat, 20 ≤ sz → ∀ (i w : Nat),
      [enc_addi 1 0 0, enc_addi 2 0 n, enc_addi 1 1 1, 0xFE209EE3, 0x00100073][i]? = some w →
      (load_program (Memory.new sz) 0
        [enc_addi 1 0 0, enc_addi 2 0 n, enc_addi 1 1 1, 0xFE209EE3, 0x00100073]).load32
          (0 + 4 * i) = .ok w) := by
  have h0 : (c0.reset 0).regs_ 0 = 0 := reset_regs c0 0 0
  have hn : n < 4294967296 := by omega
  have e1 : (c0.reset 0).step m =
      ⟨none, ⟨4, set_reg (c0.reset 0).regs_ 1 (u32 0), c0.trace_, (c0.reset 0).csr_⟩, m⟩ := by
    rw [step_enc_addi (c0.reset 0) m 1 0 0 (by decide) (by decide) h0 hm0, h0]
    rfl
  have h1 : set_reg (c0.reset 0).regs_ 1 (u32 0) 0 = 0 := by rw [set_reg_zero, h0]
  have e2 : CPU.step ⟨4, set_reg (c0.reset 0).regs_ 1 (u32 0), c0.trace_, (c0.reset 0).csr_⟩ m =
      ⟨none,
        ⟨8, set_reg (set_reg (c0.reset 0).regs_ 2 (u32 n)) 1 (u32 0), c0.trace_,
          (c0.reset 0).csr_⟩, m⟩ := by
    rw [step_enc_addi ⟨4, set_reg (c0.reset 0).regs_ 1 (u32 0), c0.trace_, (c0.reset 0).csr_⟩
      m 2 0 n (by omega) (by omega) h1 hm1]
    dsimp only
    rw [h1, show (((0 : Word).val : Nat) : Int) = 0 from rfl, zero_add, mod32_natCast,
      set_reg_comm _ 1 2 _ _ (by decide)]
    rfl
  have hsetup : run 2 (c0.reset 0) m = _ :=
    (run_succ_ok 1 _ _ m m e1).trans ((run_succ_ok 0 _ _ m m e2).trans (run_zero _ _))
  have hloop := loop_run (c0.reset 0).regs_ c0.trace_ (c0.reset 0).csr_ m n h0 hn hm2 hm3
    (n - 1) 0 (by omega)
  rw [show 2 * (n - 1 + 1) = 2 * n by omega] at hloop
  have hrun : run (2 + 2 * n) (c0.reset 0) m = _ := (run_add_ok 2 (2 * n) _ _ _ _ hsetup).trans hloop
  have hbreak : CPU.step
        ⟨16, set_reg (set_reg (c0.reset 0).regs_ 2 (u32 n)) 1 (u32 n), c0.trace_,
          (c0.reset 0).csr_⟩ m = _ := step_eq_ebreak _ m hm4
  have hrun' : run (2 + 2 * n + 1) (c0.reset 0) m = _ :=
    (run_add_ok (2 + 2 * n) 1 _ _ _ _ hrun).trans (run_succ_fail 0 _ _ _ _ _ hbreak)
  refine ⟨hrun, hrun', rfl, ?_, ?_, by decide, by decide, ?_⟩
  · rw [hrun']
    unfold CPU.reg
    dsimp only
    rw [set_reg_same _ _ _ (by decide), u32_val_of_lt _ hn]
  · rw [hrun']
    unfold CPU.reg
    dsimp only
    rw [set_reg_other _ _ _ _ (by decide), set_reg_same _ _ _ (by decide), u32_val_of_lt _ hn]
  · intro sz hsz i w hw
    have hin : ((n : Int) % 4096).toNat < 4096 := by omega
    have l1 : enc_addi 2 0 n < 4294967296 :=
      (encode_i_bits _ _ 0 _ 0x13 hin (by decide) (by decide) (by decide) (by decide)).2.2.2.2.2.2.2
    have hsize : (Memory.new sz).size = sz := List.length_replicate _ _
    apply load_program_get _ _ 0 i w (by decide) (by rw [hsize]; simpa using hsz)
      (by simp) hw
    rcases i with _ | _ | _ | _ | _ | i
    · have : enc_addi 1 0 0 = w := by simpa using hw
      rw [← this]; decide
    · have : enc_addi 2 0 n = w := by simpa using hw
      omega
    · have : enc_addi 1 1 1 = w := by simpa using hw
      rw [← this]; decide
    · have : 0xFE209EE3 = w := by simpa using hw
      omega
    · have : 0x00100073 = w := by simpa using hw
      omega
    · simp at hw

theorem scenario_c_witness :
    mem_bne_loop.load32 4 = .ok (enc_addi 2 0 5) ∧
      (run 13 (CPU.new.reset 0) mem_bne_loop).exn = some Exn.EBREAK ∧
      ((run 13 (CPU.new.reset 0) mem_bne_loop).cpu.reg 1).val = 5 :=
  ⟨rfl,
    congrArg StepResult.exn
      (scenario_c 5 (by decide) (by decide) CPU.new mem_bne_loop rfl rfl rfl rfl rfl).2.1,
    (scenario_c 5 (by decide) (by decide) CPU.new mem_bne_loop rfl rfl rfl rfl rfl).2.2.2.1⟩

/-! ## The halting instructions -/

theorem kind_breakpoint_iff (e : Exn) : e.kind = ErrorKind.Breakpoint ↔ e = Exn.EBREAK := by
  cases e <;> simp [Exn.kind]

theorem kind_environment_call_iff (e : Exn) :
    e.kind = ErrorKind.EnvironmentCall ↔ e = Exn.ECALL := by
  cases e <;> simp [Exn.kind]

theorem step_csr_no_halt (c : CPU) (m : Memory) (inst : Nat) (npc : Word) (e : Exn)
    (h : (step_csr c m inst npc).exn = some e) : e ≠ Exn.EBREAK ∧ e ≠ Exn.ECALL := by
  revert h
  unfold step_csr; simp only []
  have hlt : get_bits inst 14 12 < 8 := get_bits_lt inst 14 12
  generalize get_bits inst 14 12 = f3 at hlt ⊢
  interval_cases f3 <;> simp [commit] <;> intro h <;> subst h <;> decide

theorem step_op_imm_no_halt (c : CPU) (m : Memory) (inst : Nat) (npc : Word) (e : Exn)
    (h : (step_op_imm c m inst npc).exn = some e) : e ≠ Exn.EBREAK ∧ e ≠ Exn.ECALL := by
  revert h
  unfold step_op_imm; simp only []
  have hlt : get_bits inst 14 12 < 8 := get_bits_lt inst 14 12
  generalize get_bits inst 14 12 = f3 at hlt ⊢
  generalize get_bits inst 31 25 = f7
  rcases (show f7 = 0 ∨ f7 = 0x20 ∨ (f7 ≠ 0 ∧ f7 ≠ 0x20) by omega) with h | h | ⟨h1, h2⟩
  · subst h; interval_cases f3 <;> simp [commit]
  · subst h
    interval_cases f3 <;> simp [commit]
    intro h; subst h; decide
  · interval_cases f3 <;> simp [h1, h2, commit] <;> intro h <;> subst h <;> decide

theorem step_op_no_halt (c : CPU) (m : Memory) (inst : Nat) (npc : Word) (e : Exn)
    (h : (step_op c m inst npc).exn = some e) : e ≠ Exn.EBREAK ∧ e ≠ Exn.ECALL := by
  revert h
  unfold step_op; simp only []
  have hlt : get_bits inst 14 12 < 8 := get_bits_lt inst 14 12
  generalize get_bits inst 14 12 = f3 at hlt ⊢
  generalize get_bits inst 31 25 = f7
  rcases (show f7 = 0 ∨ f7 = 0x20 ∨ (f7 ≠ 0 ∧ f7 ≠ 0x20) by omega) with h | h | ⟨h1, h2⟩
  · subst h; interval_cases f3 <;> simp [commit]
  · subst h; interval_cases f3 <;> simp [commit] <;> intro h <;> subst h <;> decide
  · interval_cases f3 <;> simp [h1, h2, commit] <;> intro h <;> subst h <;> decide

theorem step_branch_no_halt (c : CPU) (m : Memory) (inst : Nat) (npc : Word) (e : Exn)
    (h : (step_branch c m inst npc).exn = some e) : e ≠ Exn.EBREAK ∧ e ≠ Exn.ECALL := by
  revert h
  unfold step_branch; simp only []
  have hlt : get_bits inst 14 12 < 8 := get_bits_lt inst 14 12
  generalize get_bits inst 14 12 = f3 at hlt ⊢
  interval_cases f3 <;> simp [commit] <;> intro h <;> subst h <;> decide

theorem step_load_no_halt (c : CPU) (m : Memory) (inst : Nat) (npc : Word) (e : Exn)
    (h : (step_load c m inst npc).exn = some e) : e ≠ Exn.EBREAK ∧ e ≠ Exn.ECALL := by
  revert h
  unfold step_load; simp only []
  have hlt : get_bits inst 14 12 < 8 := get_bits_lt inst 14 12
  generalize get_bits inst 14 12 = f3 at hlt ⊢
  generalize ((c.regs_ (rs1_field inst)).val + ofInt32 (sign_extend (get_bits inst 31 20) 12))
    % 4294967296 = addr
  have h8 : ∀ x, m.load8 addr = .error x → x ≠ Exn.EBREAK ∧ x ≠ Exn.ECALL := by
    intro x hx; rw [Memory.load8_error m addr x hx]; decide
  have h16 : ∀ x, m.load16 addr = .error x → x ≠ Exn.EBREAK ∧ x ≠ Exn.ECALL := by
    intro x hx
    rcases Memory.load16_error m addr x hx with h | h <;> rw [h] <;> decide
  have h32 : ∀ x, m.load32 addr = .error x → x ≠ Exn.EBREAK ∧ x ≠ Exn.ECALL := by
    intro x hx
    rcases Memory.load32_error m addr x hx with h | h <;> rw [h] <;> decide
  have key : ∀ (sw : Except Exn Word), (∀ x, sw = .error x → x ≠ Exn.EBREAK ∧ x ≠ Exn.ECALL) →
      (match sw with
        | .error e => (⟨some e, c, m⟩ : StepResult)
        | .ok val => commit (c.write_rd (rd_field inst) val) m npc).exn = some e →
      e ≠ Exn.EBREAK ∧ e ≠ Exn.ECALL := by
    intro sw hsw
    cases sw with
    | error x =>
      intro hx
      have : x = e := by simpa using hx
      rw [← this]; exact hsw x rfl
    | ok v => simp [commit]
  apply key
  intro x
  interval_cases f3 <;> simp only [if_pos, if_neg, reduceCtorEq, OfNat.ofNat_ne_zero,
    OfNat.zero_ne_ofNat, OfNat.ofNat_ne_one, OfNat.one_ne_ofNat, Nat.reduceEqDiff, if_true,
    if_false, one_ne_zero, zero_ne_one]
  · cases hl : m.load8 addr with
    | error y => intro hx; rw [← show y = x by simpa [Except.map] using hx]; exact h8 y hl
    | ok b => simp [Except.map]
  · cases hl : m.load16 addr with
    | error y => intro hx; rw [← show y = x by simpa [Except.map] using hx]; exact h16 y hl
    | ok b => simp [Except.map]
  · by_cases ha : addr % 4 = 0
    · cases hl : m.load32 addr with
      | error y =>
        intro hx; rw [← show y = x by simpa [ha, Except.map] using hx]; exact h32 y hl
      | ok b => simp [ha, Except.map]
    · simp only [ha, ne_eq, not_false_eq_true, if_true]
      intro hx; rw [← Except.error.inj hx]; decide
  · intro hx; rw [← Except.error.inj hx]; decide
  · cases hl : m.load8 addr with
    | error y => intro hx; rw [← show y = x by simpa [Except.map] using hx]; exact h8 y hl
    | ok b => simp [Except.map]
  · cases hl : m.load16 addr with
    | error y => intro hx; rw [← show y = x by simpa [Except.map] using hx]; exact h16 y hl
    | ok b => simp [Except.map]
  · intro hx; rw [← Except.error.inj hx]; decide
  · intro hx; rw [← Except.error.inj hx]; decide

theorem step_store_no_halt (c : CPU) (m : Memory) (inst : Nat) (npc : Word) (e : Exn)
    (h : (step_store c m inst npc).exn = some e) : e ≠ Exn.EBREAK ∧ e ≠ Exn.ECALL := by
  revert h
  unfold step_store; simp only []
  have hlt : get_bits inst 14 12 < 8 := get_bits_lt inst 14 12
  generalize get_bits inst 14 12 = f3 at hlt ⊢
  generalize ((c.regs_ (rs1_field inst)).val +
    ofInt32 (sign_extend (get_bits inst 31 25 <<< 5 ||| get_bits inst 11 7) 12))
    % 4294967296 = addr
  generalize (c.regs_ (rs2_field inst)).val = v
  have h8 : ∀ y x, (m.store8 addr y).1 = some x → x ≠ Exn.EBREAK ∧ x ≠ Exn.ECALL := by
    intro y x hx; rw [Memory.store8_error m addr y x hx]; decide
  have h16 : ∀ y x, (m.store16 addr y).1 = some x → x ≠ Exn.EBREAK ∧ x ≠ Exn.ECALL := by
    intro y x hx
    rcases Memory.store16_error m addr y x hx with h | h <;> rw [h] <;> decide
  have h32 : ∀ y x, (m.store32 addr y).1 = some x → x ≠ Exn.EBREAK ∧ x ≠ Exn.ECALL := by
    intro y x hx
    rcases Memory.store32_error m addr y x hx with h | h <;> rw [h] <;> decide
  have key : ∀ (sw : Option Exn × Memory), (∀ x, sw.1 = some x → x ≠ Exn.EBREAK ∧ x ≠ Exn.ECALL) →
      (match sw.1 with
        | some e => (⟨some e, c, sw.2⟩ : StepResult)
        | none => commit c sw.2 npc).exn = some e →
      e ≠ Exn.EBREAK ∧ e ≠ Exn.ECALL := by
    intro sw hsw
    cases hs : sw.1 with
    | some x =>
      intro hx
      have : x = e := by simpa using hx
      rw [← this]; exact hsw x hs
    | none => simp [commit]
  apply key
  intro x
  rcases (show f3 = 0 ∨ f3 = 1 ∨ f3 = 2 ∨ (f3 ≠ 0 ∧ f3 ≠ 1 ∧ f3 ≠ 2) by omega)
    with h | h | h | ⟨ha, hb, hc⟩
  · subst h; rw [if_pos rfl]; exact h8 _ x
  · subst h; rw [if_neg (by decide), if_pos rfl]; exact h16 _ x
  · subst h
    rw [if_neg (by decide), if_neg (by decide), if_pos rfl]
    by_cases hal : addr % 4 ≠ 0
    · rw [if_pos hal]; intro hx; rw [← Option.some.inj hx]; decide
    · rw [if_neg hal]; exact h32 _ x
  · rw [if_neg ha, if_neg hb, if_neg hc]
    intro hx; rw [← Option.some.inj hx]; decide

theorem commit_no_halt (c : CPU) (m : Memory) (npc : Word) (e : Exn)
    (h : (commit c m npc).exn = some e) : e ≠ Exn.EBREAK ∧ e ≠ Exn.ECALL := by
  rw [commit_exn] at h
  exact Option.noConfusion h

/-- The exception of a step, if any, is `EBREAK` or `ECALL` only when the fetch gave the
word `0x00100073`, respectively `0x00000073`. -/
theorem step_halt_word (c : CPU) (m : Memory) (e : Exn) (h : (c.step m).exn = some e) :
    (e = Exn.EBREAK → m.load32 c.pc_.val = .ok 0x00100073) ∧
    (e = Exn.ECALL → m.load32 c.pc_.val = .ok 0x00000073) := by
  revert h
  refine step_cases
    (fun r => r.exn = some e →
      (e = Exn.EBREAK → m.load32 c.pc_.val = .ok 0x00100073) ∧
      (e = Exn.ECALL → m.load32 c.pc_.val = .ok 0x00000073)) c m
    ?_ ?_ ?_ ?_ ?_ ?_ ?_ ?_ ?_ ?_ ?_ ?_ ?_ ?_ ?_
  · intro x hx h
    have hxe : x = e := Option.some.inj h
    subst hxe
    rcases Memory.load32_error m _ x hx with h1 | h1 <;> rw [h1] <;>
      exact ⟨fun hh => Exn.noConfusion hh, fun hh => Exn.noConfusion hh⟩
  · intro w hw hw1 h
    rw [← Option.some.inj h, ← hw1]
    exact ⟨fun _ => hw, fun hh => Exn.noConfusion hh⟩
  · intro w hw hw1 h
    rw [← Option.some.inj h, ← hw1]
    exact ⟨fun hh => Exn.noConfusion hh, fun _ => hw⟩
  · intro w _ _ _ h
    have := step_csr_no_halt _ _ _ _ e h
    exact ⟨fun hh => absurd hh this.1, fun hh => absurd hh this.2⟩
  · intro w _ _ h
    have := commit_no_halt _ _ _ e h
    exact ⟨fun hh => absurd hh this.1, fun hh => absurd hh this.2⟩
  · intro w _ _ h
    have := step_op_imm_no_halt _ _ _ _ e h
    exact ⟨fun hh => absurd hh this.1, fun hh => absurd hh this.2⟩
  · intro w _ _ h
    have := step_load_no_halt _ _ _ _ e h
    exact ⟨fun hh => absurd hh this.1, fun hh => absurd hh this.2⟩
  · intro w _ _ h
    have := step_store_no_halt _ _ _ _ e h
    exact ⟨fun hh => absurd hh this.1, fun hh => absurd hh this.2⟩
  · intro w _ _ h
    have := commit_no_halt _ _ _ e h
    exact ⟨fun hh => absurd hh this.1, fun hh => absurd hh this.2⟩
  · intro w _ _ _ h
    have := commit_no_halt _ _ _ e h
    exact ⟨fun hh => absurd hh this.1, fun hh => absurd hh this.2⟩
  · intro w _ _ h
    have := commit_no_halt _ _ _ e h
    exact ⟨fun hh => absurd hh this.1, fun hh => absurd hh this.2⟩
  · intro w _ _ h
    have := commit_no_halt _ _ _ e h
    exact ⟨fun hh => absurd hh this.1, fun hh => absurd hh this.2⟩
  · intro w _ _ h
    have := step_branch_no_halt _ _ _ _ e h
    exact ⟨fun hh => absurd hh this.1, fun hh => absurd hh this.2⟩
  · intro w _ _ h
    have := step_op_no_halt _ _ _ _ e h
    exact ⟨fun hh => absurd hh this.1, fun hh => absurd hh this.2⟩
  · intro w _ _ _ _ _ _ _ _ _ _ _ _ _ _ h
    rw [← Option.some.inj h]
    exact ⟨fun hh => Exn.noConfusion hh, fun hh => Exn.noConfusion hh⟩

/-- C21: halting instructions. A step whose fetched word is exactly
`0x00100073` throws `EBREAK` (reason Breakpoint) and one whose fetched word is
exactly `0x00000073` throws `ECALL` (reason EnvironmentCall); either ends the
run at that step with the state as it was. The two reasons differ from each
other and from IllegalInstruction, and a step that fails with reason
Breakpoint (EnvironmentCall) fetched `0x00100073` (`0x00000073`): no other
instruction word, and no failing fetch, produces either reason. -/
theorem halting_instructions (c : CPU) (m : Memory) :
    (m.load32 c.pc_.val = .ok 0x00100073 →
      c.step m = ⟨some Exn.EBREAK, c, m⟩ ∧ ∀ n, run (n + 1) c m = ⟨some Exn.EBREAK, c, m⟩) ∧
    (m.load32 c.pc_.val = .ok 0x00000073 →
      c.step m = ⟨some Exn.ECALL, c, m⟩ ∧ ∀ n, run (n + 1) c m = ⟨some Exn.ECALL, c, m⟩) ∧
    (Exn.EBREAK.kind = ErrorKind.Breakpoint ∧ Exn.ECALL.kind = ErrorKind.EnvironmentCall) ∧
    (ErrorKind.Breakpoint ≠ ErrorKind.EnvironmentCall ∧
      ErrorKind.Breakpoint ≠ ErrorKind.IllegalInstruction ∧
      ErrorKind.EnvironmentCall ≠ ErrorKind.IllegalInstruction) ∧
    (∀ e, (c.step m).exn = some e → e.kind = ErrorKind.Breakpoint →
      m.load32 c.pc_.val = .ok 0x00100073) ∧
    (∀ e, (c.step m).exn = some e → e.kind = ErrorKind.EnvironmentCall →
      m.load32 c.pc_.val = .ok 0x00000073) := by
  refine ⟨?_, ?_, ⟨rfl, rfl⟩, ⟨by decide, by decide, by decide⟩, ?_, ?_⟩
  · intro hf
    exact ⟨step_eq_ebreak c m hf, fun n => run_succ_fail n c c m m _ (step_eq_ebreak c m hf)⟩
  · intro hf
    exact ⟨step_eq_ecall c m hf, fun n => run_succ_fail n c c m m _ (step_eq_ecall c m hf)⟩
  · intro e he hk
    exact (step_halt_word c m e he).1 ((kind_breakpoint_iff e).1 hk)
  · intro e he hk
    exact (step_halt_word c m e he).2 ((kind_environment_call_iff e).1 hk)

theorem halting_instructions_witness :
    CPU.new.step mem_halts = ⟨some Exn.EBREAK, CPU.new, mem_halts⟩ ∧
      (CPU.new.reset 4).step mem_halts = ⟨some Exn.ECALL, CPU.new.reset 4, mem_halts⟩ :=
  ⟨((halting_instructions CPU.new mem_halts).1 rfl).1,
    ((halting_instructions (CPU.new.reset 4) mem_halts).2.1 rfl).1⟩

/-! ## The PC after a step that returns -/

theorem commit_pc (c : CPU) (m : Memory) (npc : Word) : (commit c m npc).cpu.pc_ = npc := rfl

theorem step_csr_pc (c : CPU) (m : Memory) (inst : Nat) (npc : Word)
    (h : (step_csr c m inst npc).exn = none) : (step_csr c m inst npc).cpu.pc_ = npc := by
  revert h; unfold step_csr; simp only []
  split
  · intro h; simp at h
  · intro _; exact commit_pc _ _ _

theorem step_op_imm_pc (c : CPU) (m : Memory) (inst : Nat) (npc : Word)
    (h : (step_op_imm c m inst npc).exn = none) : (step_op_imm c m inst npc).cpu.pc_ = npc := by
  revert h; unfold step_op_imm; simp only []
  split
  · intro h; simp at h
  · intro _; exact commit_pc _ _ _

theorem step_load_pc (c : CPU) (m : Memory) (inst : Nat) (npc : Word)
    (h : (step_load c m inst npc).exn = none) : (step_load c m inst npc).cpu.pc_ = npc := by
  revert h; unfold step_load; simp only []
  split
  · intro h; simp at h
  · intro _; exact commit_pc _ _ _

theorem step_store_pc (c : CPU) (m : Memory) (inst : Nat) (npc : Word)
    (h : (step_store c m inst npc).exn = none) : (step_store c m inst npc).cpu.pc_ = npc := by
  revert h; unfold step_store; simp only []
  split
  · intro h; simp at h
  · intro _; exact commit_pc _ _ _

theorem step_op_pc (c : CPU) (m : Memory) (inst : Nat) (npc : Word)
    (h : (step_op c m inst npc).exn = none) : (step_op c m inst npc).cpu.pc_ = npc := by
  revert h; unfold step_op; simp only []
  split
  · intro h; simp at h
  · intro _; exact commit_pc _ _ _

theorem step_branch_pc (c : CPU) (m : Memory) (inst : Nat) (npc : Word)
    (h : (step_branch c m inst npc).exn = none) :
    (step_branch c m inst npc).cpu.pc_ = npc ∨
      (step_branch c m inst npc).cpu.pc_ = u32 (c.pc_.val + ofInt32 (imm_b inst)) := by
  revert h; unfold step_branch; simp only []
  split
  · intro h; simp at h
  · rename_i take _
    intro _
    rw [commit_pc]
    cases take
    · exact Or.inl rfl
    · exact Or.inr rfl

theorem step_jal_pc (c : CPU) (m : Memory) (inst : Nat) :
    (step_jal c m inst).cpu.pc_ = u32 (c.pc_.val + ofInt32 (imm_j inst)) := rfl

theorem step_jalr_pc (c : CPU) (m : Memory) (inst : Nat) :
    (step_jalr c m inst).cpu.pc_ =
      u32 ((((c.regs_ (rs1_field inst)).val + ofInt32 (sign_extend (get_bits inst 31 20) 12))
        % 4294967296) &&& not32 1) := rfl

/-! ## Parity of the PC -/

theorem even_add_four (p : Nat) (hp : p % 4 = 0) : (u32 (p + 4)).val % 2 = 0 := by
  rw [u32_val]; omega

theorem even_add_ofInt32 (p : Nat) (i : Int) (hp : p % 4 = 0) (hi : i % 2 = 0) :
    (u32 (p + ofInt32 i)).val % 2 = 0 := by
  rw [u32_val]
  unfold ofInt32
  omega

theorem imm_b_even (w : Nat) : imm_b w % 2 = 0 := by
  rw [imm_b_formula]; omega

theorem imm_j_even (w : Nat) : imm_j w % 2 = 0 := by
  rw [imm_j_formula]; omega

theorem even_and_not32_one (x : Nat) (hx : x < 4294967296) :
    (u32 (x &&& not32 1)).val % 2 = 0 := by
  rw [and_not32_one x hx, u32_val]
  omega

theorem step_of_fetch_error (c : CPU) (m : Memory) (e : Exn)
    (hf : m.load32 c.pc_.val = .error e) : c.step m = ⟨some e, c, m⟩ := by
  unfold step
  rw [hf]

theorem step_pc_even (c : CPU) (m : Memory) (h : (c.step m).exn = none) :
    c.pc_.val % 4 = 0 ∧ (c.step m).cpu.pc_.val % 2 = 0 := by
  obtain ⟨w0, hw0⟩ := step_fetch_of_ok c m h
  have hp : c.pc_.val % 4 = 0 := (Memory.load32_some m _ w0 c.pc_.isLt hw0).1
  refine ⟨hp, ?_⟩
  revert h
  refine step_cases (fun r => r.exn = none → r.cpu.pc_.val % 2 = 0) c m
    ?_ ?_ ?_ ?_ ?_ ?_ ?_ ?_ ?_ ?_ ?_ ?_ ?_ ?_ ?_
  · intro e _ h; simp at h
  · intro w _ _ h; simp at h
  · intro w _ _ h; simp at h
  · intro w _ _ _ h; rw [step_csr_pc _ _ _ _ h]; exact even_add_four _ hp
  · intro w _ _ _; rw [commit_pc]; exact even_add_four _ hp
  · intro w _ _ h; rw [step_op_imm_pc _ _ _ _ h]; exact even_add_four _ hp
  · intro w _ _ h; rw [step_load_pc _ _ _ _ h]; exact even_add_four _ hp
  · intro w _ _ h; rw [step_store_pc _ _ _ _ h]; exact even_add_four _ hp
  · intro w _ _ _; rw [step_jal_pc]; exact even_add_ofInt32 _ _ hp (imm_j_even w)
  · intro w _ _ _ _
    rw [step_jalr_pc]
    exact even_and_not32_one _ (Nat.mod_lt _ (by decide))
  · intro w _ _ _; exact even_add_four _ hp
  · intro w _ _ _; exact even_add_four _ hp
  · intro w _ _ h
    rcases step_branch_pc _ _ _ _ h with h1 | h1 <;> rw [h1]
    · exact even_add_four _ hp
    · exact even_add_ofInt32 _ _ hp (imm_b_even w)
  · intro w _ _ h; rw [step_op_pc _ _ _ _ h]; exact even_add_four _ hp
  · intro w _ _ _ _ _ _ _ _ _ _ _ _ _ _ h; simp at h

/-- C24: PC parity invariant. A step completes only from a PC that is a
multiple of 4, and after every completed step the new PC has bit 0 clear (it
is `PC + 4`, `PC` plus an even branch or JAL offset, or a JALR target with
bit 0 cleared, all `mod 2^32`). Alignment to 4 bytes is not preserved: from
reset at PC 0 with `jal x0, 2` (`0x0020006F`, `imm_j = 2`) at address 0 the
step completes and leaves `PC == 2`, and the following step fails at fetch
with Misaligned, leaving the CPU and the memory as they were. -/
theorem pc_parity (c : CPU) (m : Memory) (h : (c.step m).exn = none) :
    c.pc_.val % 4 = 0 ∧ (c.step m).cpu.pc_.val % 2 = 0 ∧
    (get_bits 0x0020006F 6 0 = 0x6F ∧ imm_j 0x0020006F = 2 ∧
      mem_jal2.load32 CPU.new.pc_.val = .ok 0x0020006F ∧
      (CPU.new.step mem_jal2).exn = none ∧
      (CPU.new.step mem_jal2).cpu.pc_.val % 4 = 2 ∧
      (CPU.new.step mem_jal2).mem = mem_jal2 ∧
      (CPU.new.step mem_jal2).cpu.step mem_jal2 =
        ⟨some Exn.Misaligned_load32, (CPU.new.step mem_jal2).cpu, mem_jal2⟩ ∧
      Exn.Misaligned_load32.kind = ErrorKind.Misaligned) := by
  obtain ⟨h1, h2⟩ := step_pc_even c m h
  refine ⟨h1, h2, by decide, by decide, rfl, by decide, by decide, rfl, ?_, rfl⟩
  exact step_of_fetch_error _ _ _ rfl

theorem pc_parity_witness :
    (CPU.new.step mem_jal2).exn = none ∧ (CPU.new.step mem_jal2).cpu.pc_.val % 2 = 0 :=
  ⟨by decide, (pc_parity CPU.new mem_jal2 (by decide)).2.1⟩

/-! ## The memory and the CSR file after a step that returns -/

theorem write_rd_csr (c : CPU) (rd : Fin 32) (v : Word) : (c.write_rd rd v).csr_ = c.csr_ := by
  unfold write_rd
  split <;> rfl

theorem commit_csr (c : CPU) (m : Memory) (npc : Word) : (commit c m npc).cpu.csr_ = c.csr_ :=
  rfl

theorem commit_mem (c : CPU) (m : Memory) (npc : Word) : (commit c m npc).mem = m := rfl

theorem step_csr_mem (c : CPU) (m : Memory) (inst : Nat) (npc : Word) :
    (step_csr c m inst npc).mem = m := by
  unfold step_csr; simp only []
  split <;> rfl

theorem step_op_imm_mem (c : CPU) (m : Memory) (inst : Nat) (npc : Word) :
    (step_op_imm c m inst npc).mem = m := by
  unfold step_op_imm; simp only []
  split <;> rfl

theorem step_load_mem (c : CPU) (m : Memory) (inst : Nat) (npc : Word) :
    (step_load c m inst npc).mem = m := by
  unfold step_load; simp only []
  split <;> rfl

theorem step_op_mem (c : CPU) (m : Memory) (inst : Nat) (npc : Word) :
    (step_op c m inst npc).mem = m := by
  unfold step_op; simp only []
  split <;> rfl

theorem step_branch_mem (c : CPU) (m : Memory) (inst : Nat) (npc : Word) :
    (step_branch c m inst npc).mem = m := by
  unfold step_branch; simp only []
  split <;> rfl

theorem step_op_imm_csr (c : CPU) (m : Memory) (inst : Nat) (npc : Word) :
    (step_op_imm c m inst npc).cpu.csr_ = c.csr_ := by
  unfold step_op_imm; simp only []
  split
  · rfl
  · rw [commit_csr, write_rd_csr]

theorem step_load_csr (c : CPU) (m : Memory) (inst : Nat) (npc : Word) :
    (step_load c m inst npc).cpu.csr_ = c.csr_ := by
  unfold step_load; simp only []
  split
  · rfl
  · rw [commit_csr, write_rd_csr]

theorem step_op_csr (c : CPU) (m : Memory) (inst : Nat) (npc : Word) :
    (step_op c m inst npc).cpu.csr_ = c.csr_ := by
  unfold step_op; simp only []
  split
  · rfl
  · rw [commit_csr, write_rd_csr]

theorem step_branch_csr (c : CPU) (m : Memory) (inst : Nat) (npc : Word) :
    (step_branch c m inst npc).cpu.csr_ = c.csr_ := by
  unfold step_branch; simp only []
  split <;> rfl

theorem step_store_csr (c : CPU) (m : Memory) (inst : Nat) (npc : Word) :
    (step_store c m inst npc).cpu.csr_ = c.csr_ := by
  unfold step_store; simp only []
  split <;> rfl

theorem step_jal_csr (c : CPU) (m : Memory) (inst : Nat) :
    (step_jal c m inst).cpu.csr_ = c.csr_ := by
  unfold step_jal; simp only []
  rw [commit_csr, write_rd_csr]

theorem step_jalr_csr (c : CPU) (m : Memory) (inst : Nat) :
    (step_jalr c m inst).cpu.csr_ = c.csr_ := by
  unfold step_jalr; simp only []
  rw [commit_csr, write_rd_csr]

theorem step_lui_csr (c : CPU) (m : Memory) (inst : Nat) (npc : Word) :
    (step_lui c m inst npc).cpu.csr_ = c.csr_ := by
  unfold step_lui; simp only []
  rw [commit_csr, write_rd_csr]

theorem step_auipc_csr (c : CPU) (m : Memory) (inst : Nat) (npc : Word) :
    (step_auipc c m inst npc).cpu.csr_ = c.csr_ := by
  unfold step_auipc; simp only []
  rw [commit_csr, write_rd_csr]

/-- The CSR file after the CSR arm: every entry but the addressed one is as before. -/
theorem step_csr_csr (c : CPU) (m : Memory) (inst : Nat) (npc : Word) (A : Fin 4096)
    (hA : A ≠ csr_index inst) :
    (step_csr c m inst npc).cpu.csr_ A = c.csr_ A := by
  unfold step_csr; simp only []
  split
  · rfl
  · rename_i newv do_write _
    rw [commit_csr]
    cases do_write with
    | true =>
      rw [if_pos rfl]
      unfold csr_write
      rw [csr_index_eq]
      dsimp only
      rw [Function.update_noteq hA, write_rd_csr]
    | false =>
      rw [if_neg (by simp), write_rd_csr]

/-- A store that returns is SB, SH or SW and leaves every byte outside the
`store_width` bytes at the effective address, and the capacity, as they were. -/
theorem step_store_frame (c : CPU) (m : Memory) (w : Nat) (npc : Word)
    (hok : (step_store c m w npc).exn = none) :
    get_bits w 14 12 ∈ [0, 1, 2] ∧ (step_store c m w npc).mem.size = m.size ∧
    ∀ j, (j < effective_address (c.regs_ (rs1_field w)) (imm_s_spec w) ∨
        effective_address (c.regs_ (rs1_field w)) (imm_s_spec w) +
          store_width (get_bits w 14 12) ≤ j) →
      (step_store c m w npc).mem.cell j = m.cell j := by
  revert hok
  unfold step_store effective_address; simp only []
  rw [sign_extend_s, add_ofInt32_mod]
  have hE := (mod32 (((c.regs_ (rs1_field w)).val : Int) + imm_s_spec w)).isLt
  generalize (mod32 (((c.regs_ (rs1_field w)).val : Int) + imm_s_spec w)).val = E at hE ⊢
  generalize (c.regs_ (rs2_field w)).val = v
  have hlt : get_bits w 14 12 < 8 := get_bits_lt w 14 12
  generalize get_bits w 14 12 = f3 at hlt ⊢
  rcases (show f3 = 0 ∨ f3 = 1 ∨ f3 = 2 ∨ (f3 ≠ 0 ∧ f3 ≠ 1 ∧ f3 ≠ 2) by omega)
    with h | h | h | ⟨ha, hb, hc⟩
  · subst h
    rw [if_pos rfl]
    split
    · intro h; simp at h
    · rename_i hs
      intro _
      have hb := Memory.store8_none m E _ hE hs
      refine ⟨by decide, (Memory.store_size m E _).1, ?_⟩
      intro j hj
      rw [show store_width 0 = 1 from rfl] at hj
      show (m.store8 E _).2.cell j = _
      rw [Memory.store8_cell m E _ j hE hb, if_neg (by omega)]
  · subst h
    rw [if_neg (by decide), if_pos rfl]
    split
    · intro h; simp at h
    · rename_i hs
      intro _
      obtain ⟨hal, hb⟩ := Memory.store16_none m E _ hE hs
      refine ⟨by decide, (Memory.store_size m E _).2.1, ?_⟩
      intro j hj
      rw [show store_width 1 = 2 from rfl] at hj
      show (m.store16 E _).2.cell j = _
      rw [Memory.store16_cell m E _ j hE hal hb, if_neg (by omega), if_neg (by omega)]
  · subst h
    rw [if_neg (by decide), if_neg (by decide), if_pos rfl]
    by_cases hal : E % 4 ≠ 0
    · rw [if_pos hal]
      intro h; simp at h
    · rw [if_neg hal]
      split
      · intro h; simp at h
      · rename_i hs
        intro _
        obtain ⟨hal', hb⟩ := Memory.store32_none m E _ hE hs
        refine ⟨by decide, (Memory.store_size m E _).2.2, ?_⟩
        intro j hj
        rw [show store_width 2 = 4 from rfl] at hj
        show (m.store32 E _).2.cell j = _
        exact Memory.store32_cell_other m E _ j hE hal' hb (by omega)
  · rw [if_neg ha, if_neg hb, if_neg hc]
    intro h; simp at h

/-- C23: frame of a completed step. In a reachable state, a step that fetches
`w` and completes changes at most one general register, the one named by the
`rd` field (the registers after are `set_reg` of the registers before), and
none unless the opcode is one of `0x03`, `0x13`, `0x17`, `0x33`, `0x37`,
`0x67`, `0x6F`, `0x73`; it leaves the memory as it was unless the opcode is
`0x23`, and then it is SB, SH or SW and every byte outside the 1, 2 or 4 bytes
at the effective address, and the capacity, are as before; and it leaves the
CSR file as it was unless the opcode is `0x73`, and every entry other than the
one addressed by `w[31:20]` is as before in any case. -/
theorem step_frame (c : CPU) (hc : Reachable c) (m : Memory) (w : Nat)
    (hf : m.load32 c.pc_.val = .ok w) (hok : (c.step m).exn = none) :
    (∃ v, (c.step m).cpu.regs_ = set_reg c.regs_ (rd_field w) v) ∧
    (∀ i, i ≠ rd_field w → (c.step m).cpu.reg i = c.reg i) ∧
    (get_bits w 6 0 ∉ [0x03, 0x13, 0x17, 0x33, 0x37, 0x67, 0x6F, 0x73] →
      (c.step m).cpu.regs_ = c.regs_) ∧
    (get_bits w 6 0 ≠ 0x23 → (c.step m).mem = m) ∧
    (get_bits w 6 0 = 0x23 →
      get_bits w 14 12 ∈ [0, 1, 2] ∧ (c.step m).mem.size = m.size ∧
      ∀ j, (j < effective_address (c.regs_ (rs1_field w)) (imm_s_spec w) ∨
          effective_address (c.regs_ (rs1_field w)) (imm_s_spec w) +
            store_width (get_bits w 14 12) ≤ j) →
        (c.step m).mem.cell j = m.cell j) ∧
    (get_bits w 6 0 ≠ 0x73 → (c.step m).cpu.csr_ = c.csr_) ∧
    (∀ A, A ≠ csr_index w → (c.step m).cpu.csr_ A = c.csr_ A) := by
  have h0 := reachable_reg_zero c hc
  have hregs : ∃ v, (c.step m).cpu.regs_ = set_reg c.regs_ (rd_field w) v := by
    obtain ⟨v, hv⟩ := step_regs c m w hf hok
    exact ⟨v, by rw [hv, set_reg_of_write_rd c _ v h0]⟩
  have inj : ∀ w', m.load32 c.pc_.val = .ok w' → w' = w := by
    intro w' hw'; rw [hf] at hw'; exact (Except.ok.inj hw').symm
  refine ⟨hregs, ?_, ?_⟩
  · intro i hi
    obtain ⟨v, hv⟩ := hregs
    unfold CPU.reg
    rw [hv, set_reg_other _ _ _ _ hi]
  revert hok
  refine step_cases
    (fun r => r.exn = none →
      (get_bits w 6 0 ∉ [0x03, 0x13, 0x17, 0x33, 0x37, 0x67, 0x6F, 0x73] →
        r.cpu.regs_ = c.regs_) ∧
      (get_bits w 6 0 ≠ 0x23 → r.mem = m) ∧
      (get_bits w 6 0 = 0x23 →
        get_bits w 14 12 ∈ [0, 1, 2] ∧ r.mem.size = m.size ∧
        ∀ j, (j < effective_address (c.regs_ (rs1_field w)) (imm_s_spec w) ∨
            effective_address (c.regs_ (rs1_field w)) (imm_s_spec w) +
              store_width (get_bits w 14 12) ≤ j) →
          r.mem.cell j = m.cell j) ∧
      (get_bits w 6 0 ≠ 0x73 → r.cpu.csr_ = c.csr_) ∧
      (∀ A, A ≠ csr_index w → r.cpu.csr_ A = c.csr_ A)) c m
    ?_ ?_ ?_ ?_ ?_ ?_ ?_ ?_ ?_ ?_ ?_ ?_ ?_ ?_ ?_
  · intro e _ h; simp at h
  · intro w' _ _ h; simp at h
  · intro w' _ _ h; simp at h
  · intro w' hw' hop _ _
    have := inj w' hw'; subst this
    exact ⟨fun h => absurd (by rw [hop]; decide) h, fun _ => step_csr_mem _ _ _ _,
      fun h => absurd (hop.symm.trans h) (by decide), fun h => absurd hop h,
      fun A hA => step_csr_csr _ _ _ _ A hA⟩
  · intro w' hw' hop _
    have := inj w' hw'; subst this
    exact ⟨fun _ => by rw [commit_regs, update_zero_self c h0], fun _ => rfl,
      fun h => absurd (hop.symm.trans h) (by decide), fun _ => rfl, fun A _ => rfl⟩
  · intro w' hw' hop _
    have := inj w' hw'; subst this
    exact ⟨fun h => absurd (by rw [hop]; decide) h, fun _ => step_op_imm_mem _ _ _ _,
      fun h => absurd (hop.symm.trans h) (by decide), fun _ => step_op_imm_csr _ _ _ _,
      fun A _ => by rw [step_op_imm_csr]⟩
  · intro w' hw' hop _
    have := inj w' hw'; subst this
    exact ⟨fun h => absurd (by rw [hop]; decide) h, fun _ => step_load_mem _ _ _ _,
      fun h => absurd (hop.symm.trans h) (by decide), fun _ => step_load_csr _ _ _ _,
      fun A _ => by rw [step_load_csr]⟩
  · intro w' hw' hop h
    have := inj w' hw'; subst this
    exact ⟨fun _ => by rw [step_store_regs _ _ _ _ h, update_zero_self c h0],
      fun hne => absurd hop hne, fun _ => step_store_frame _ _ _ _ h,
      fun _ => step_store_csr _ _ _ _, fun A _ => by rw [step_store_csr]⟩
  · intro w' hw' hop _
    have := inj w' hw'; subst this
    exact ⟨fun h => absurd (by rw [hop]; decide) h, fun _ => rfl,
      fun h => absurd (hop.symm.trans h) (by decide), fun _ => step_jal_csr _ _ _,
      fun A _ => by rw [step_jal_csr]⟩
  · intro w' hw' hop _ _
    have := inj w' hw'; subst this
    exact ⟨fun h => absurd (by rw [hop]; decide) h, fun _ => rfl,
      fun h => absurd (hop.symm.trans h) (by decide), fun _ => step_jalr_csr _ _ _,
      fun A _ => by rw [step_jalr_csr]⟩
  · intro w' hw' hop _
    have := inj w' hw'; subst this
    exact ⟨fun h => absurd (by rw [hop]; decide) h, fun _ => rfl,
      fun h => absurd (hop.symm.trans h) (by decide), fun _ => step_lui_csr _ _ _ _,
      fun A _ => by rw [step_lui_csr]⟩
  · intro w' hw' hop _
    have := inj w' hw'; subst this
    exact ⟨fun h => absurd (by rw [hop]; decide) h, fun _ => rfl,
      fun h => absurd (hop.symm.trans h) (by decide), fun _ => step_auipc_csr _ _ _ _,
      fun A _ => by rw [step_auipc_csr]⟩
  · intro w' hw' hop h
    have := inj w' hw'; subst this
    exact ⟨fun _ => by rw [step_branch_regs _ _ _ _ h, update_zero_self c h0],
      fun _ => step_branch_mem _ _ _ _,
      fun h => absurd (hop.symm.trans h) (by decide), fun _ => step_branch_csr _ _ _ _,
      fun A _ => by rw [step_branch_csr]⟩
  · intro w' hw' hop _
    have := inj w' hw'; subst this
    exact ⟨fun h => absurd (by rw [hop]; decide) h, fun _ => step_op_mem _ _ _ _,
      fun h => absurd (hop.symm.trans h) (by decide), fun _ => step_op_csr _ _ _ _,
      fun A _ => by rw [step_op_csr]⟩
  · intro w' _ _ _ _ _ _ _ _ _ _ _ _ _ _ h; simp at h

theorem step_frame_witness :
    Reachable CPU.new ∧ mem_sb.load32 CPU.new.pc_.val = .ok 0x000002A3 ∧
      (CPU.new.step mem_sb).exn = none ∧ get_bits 0x000002A3 6 0 = 0x23 ∧
      (CPU.new.step mem_sb).mem.size = mem_sb.size ∧
      (CPU.new.step mem_sb).mem.cell 0 = mem_sb.cell 0 :=
  ⟨Reachable.reset _ 0, rfl, by decide, by decide,
    ((step_frame CPU.new (Reachable.reset _ 0) mem_sb 0x000002A3 rfl (by decide)).2.2.2.2.1
      (by decide)).2.1,
    ((step_frame CPU.new (Reachable.reset _ 0) mem_sb 0x000002A3 rfl (by decide)).2.2.2.2.1
      (by decide)).2.2 0 (by decide)⟩

/-! ## The ALU against the RV32I reference -/

theorem sext12_bounds (w : Nat) : -2048 ≤ sext12 w ∧ sext12 w ≤ 2047 := by
  unfold sext12 twos_complement
  have := bits_lt w 31 20
  norm_num at this ⊢
  split_ifs <;> omega

theorem signed32_mod32 (i : Int) (h1 : -2147483648 ≤ i) (h2 : i < 2147483648) :
    signed32 (mod32 i).val = i := by
  unfold signed32 twos_complement
  have := mod32_val i
  norm_num
  split_ifs <;> omega

theorem signed32_bounds (a : Nat) (ha : a < 4294967296) :
    -2147483648 ≤ signed32 a ∧ signed32 a < 2147483648 := by
  unfold signed32 twos_complement
  norm_num
  split_ifs <;> omega

theorem u32_mod (n : Nat) : u32 (n % 4294967296) = u32 n := by
  apply Fin.ext
  rw [u32_val, u32_val, Nat.mod_mod]

theorem alu_ref_lt (op : AluOp) (a b s : Nat) (ha : a < 4294967296) (hb : b < 4294967296) :
    alu_ref op a b s < 4294967296 := by
  cases op <;> simp only [alu_ref]
  · exact Nat.mod_lt _ (by decide)
  · exact (mod32 _).isLt
  · exact Nat.lt_of_le_of_lt Nat.and_le_left ha
  · exact Nat.or_lt_two_pow (n := 32) (by norm_num; exact ha) (by norm_num; exact hb)
  · exact Nat.xor_lt_two_pow (n := 32) (by norm_num; exact ha) (by norm_num; exact hb)
  · split <;> decide
  · split <;> decide
  · exact Nat.mod_lt _ (by decide)
  · exact Nat.lt_of_le_of_lt (Nat.div_le_self _ _) ha
  · exact (mod32 _).isLt

theorem val_add (a b s : Nat) : u32 (a + b) = u32 (alu_ref .ADD a b s) := by
  simp only [alu_ref]; rw [u32_mod]

theorem val_sub (a b s : Nat) (hb : b < 4294967296) :
    u32 (a + 4294967296 - b) = u32 (alu_ref .SUB a b s) := by
  simp only [alu_ref]
  apply Fin.ext
  have h := mod32_val ((a : Int) - (b : Int))
  rw [u32_val, u32_val]
  omega

theorem val_slt (a b s : Nat) (ha : a < 4294967296) (hb : b < 4294967296) :
    (if i32 a < i32 b then u32 1 else u32 0) = u32 (alu_ref .SLT a b s) := by
  simp only [alu_ref]
  rw [i32_eq_signed32 a ha, i32_eq_signed32 b hb]
  split <;> rfl

theorem val_sltu (a b s : Nat) :
    (if a < b then u32 1 else u32 0) = u32 (alu_ref .SLTU a b s) := by
  simp only [alu_ref]
  split <;> rfl

theorem val_sll (a b s : Nat) : u32 (a <<< s) = u32 (alu_ref .SLL a b s) := by
  simp only [alu_ref]; rw [u32_mod, Nat.shiftLeft_eq]

theorem val_srl (a b s : Nat) : u32 (a >>> s) = u32 (alu_ref .SRL a b s) := by
  simp only [alu_ref]; rw [Nat.shiftRight_eq_div_pow]

theorem val_sra (a b s : Nat) (ha : a < 4294967296) :
    u32 (ofInt32 (i32 a >>> s)) = u32 (alu_ref .SRA a b s) := by
  simp only [alu_ref]
  rw [i32_eq_signed32 a ha, Int.shiftRight_eq_div_pow, ofInt32_eq_mod32,
    Int.fdiv_eq_ediv _ (by positivity)]
  norm_num

theorem step_op_imm_eq (c : CPU) (m : Memory) (w : Nat) (npc : Word) (h0 : c.regs_ 0 = 0)
    (hok : (step_op_imm c m w npc).exn = none) :
    ∃ op, op_imm_decode (get_bits w 14 12) (get_bits w 31 25) = some op ∧
      step_op_imm c m w npc =
        ⟨none,
          { pc_ := npc,
            regs_ := set_reg c.regs_ (rd_field w)
              (u32 (alu_ref op (c.regs_ (rs1_field w)).val (mod32 (sext12 w)).val
                (bits w 24 20))),
            trace_ := c.trace_, csr_ := c.csr_ }, m⟩ := by
  revert hok
  unfold step_op_imm op_imm_decode
  simp only []
  have hsh : get_bits w 24 20 &&& 31 = bits w 24 20 := by
    have h := get_bits_lt w 24 20
    rw [and_mask5 _ (by norm_num at h; exact h), get_bits_eq_bits]
  rw [sign_extend_12, hsh, ofInt32_eq_mod32]
  have ha := (c.regs_ (rs1_field w)).isLt
  have hb := (mod32 (sext12 w)).isLt
  have hsb : signed32 (mod32 (sext12 w)).val = sext12 w :=
    signed32_mod32 _ (by have := sext12_bounds w; omega) (by have := sext12_bounds w; omega)
  have hslti : (if i32 (c.regs_ (rs1_field w)).val < sext12 w then u32 1 else u32 0) =
      u32 (alu_ref .SLT (c.regs_ (rs1_field w)).val (mod32 (sext12 w)).val (bits w 24 20)) := by
    rw [← val_slt _ _ _ ha hb, i32_eq_signed32 _ hb, hsb]
  generalize (c.regs_ (rs1_field w)).val = a at ha hslti ⊢
  generalize (mod32 (sext12 w)).val = b at hb hslti ⊢
  generalize sext12 w = imm at hslti ⊢
  generalize bits w 24 20 = s
  have key : ∀ (val : Word) (op : AluOp), val = u32 (alu_ref op a b s) →
      (commit (c.write_rd (rd_field w) val) m npc).exn = none →
      ∃ op', some op = some op' ∧
        commit (c.write_rd (rd_field w) val) m npc =
          ⟨none,
            { pc_ := npc, regs_ := set_reg c.regs_ (rd_field w) (u32 (alu_ref op' a b s)),
              trace_ := c.trace_, csr_ := c.csr_ }, m⟩ := by
    intro val op hv _
    exact ⟨op, rfl, by rw [commit_write_rd _ _ _ _ _ h0, hv]⟩
  have hlt : get_bits w 14 12 < 8 := get_bits_lt w 14 12
  generalize get_bits w 14 12 = f3 at hlt ⊢
  generalize get_bits w 31 25 = f7
  rcases (show f7 = 0 ∨ f7 = 0x20 ∨ (f7 ≠ 0 ∧ f7 ≠ 0x20) by omega) with h | h | ⟨h1, h2⟩
  · subst h
    interval_cases f3 <;> simp only [OfNat.ofNat_ne_zero, OfNat.zero_ne_ofNat,
      OfNat.ofNat_ne_one, OfNat.one_ne_ofNat, Nat.reduceEqDiff, if_true, if_false, one_ne_zero,
      zero_ne_one, ne_eq, not_true_eq_false, not_false_eq_true]
    · exact key _ .ADD (val_add a b s)
    · exact key _ .SLL (val_sll a b s)
    · exact key _ .SLT hslti
    · exact key _ .SLTU (val_sltu a b s)
    · exact key _ .XOR rfl
    · exact key _ .SRL (val_srl a b s)
    · exact key _ .OR rfl
    · exact key _ .AND rfl
  · subst h
    interval_cases f3 <;> simp only [OfNat.ofNat_ne_zero, OfNat.zero_ne_ofNat,
      OfNat.ofNat_ne_one, OfNat.one_ne_ofNat, Nat.reduceEqDiff, if_true, if_false, one_ne_zero,
      zero_ne_one, ne_eq, not_true_eq_false, not_false_eq_true]
    · exact key _ .ADD (val_add a b s)
    · intro h; simp at h
    · exact key _ .SLT hslti
    · exact key _ .SLTU (val_sltu a b s)
    · exact key _ .XOR rfl
    · exact key _ .SRA (val_sra a b s ha)
    · exact key _ .OR rfl
    · exact key _ .AND rfl
  · interval_cases f3 <;> simp only [h1, h2, OfNat.ofNat_ne_zero, OfNat.zero_ne_ofNat,
      OfNat.ofNat_ne_one, OfNat.one_ne_ofNat, Nat.reduceEqDiff, if_true, if_false, one_ne_zero,
      zero_ne_one, ne_eq, not_true_eq_false, not_false_eq_true]
    · exact key _ .ADD (val_add a b s)
    · intro h; simp at h
    · exact key _ .SLT hslti
    · exact key _ .SLTU (val_sltu a b s)
    · exact key _ .XOR rfl
    · intro h; simp at h
    · exact key _ .OR rfl
    · exact key _ .AND rfl

theorem and_31_eq_mod (b : Nat) : b &&& 31 = b % 32 := by
  have h := Nat.and_pow_two_sub_one_eq_mod b 5
  norm_num at h
  exact h

theorem step_op_eq (c : CPU) (m : Memory) (w : Nat) (npc : Word) (h0 : c.regs_ 0 = 0)
    (hok : (step_op c m w npc).exn = none) :
    ∃ op, op_decode (get_bits w 14 12) (get_bits w 31 25) = some op ∧
      step_op c m w npc =
        ⟨none,
          { pc_ := npc,
            regs_ := set_reg c.regs_ (rd_field w)
              (u32 (alu_ref op (c.regs_ (rs1_field w)).val (c.regs_ (rs2_field w)).val
                ((c.regs_ (rs2_field w)).val % 32))),
            trace_ := c.trace_, csr_ := c.csr_ }, m⟩ := by
  revert hok
  unfold step_op op_decode
  simp only []
  rw [and_31_eq_mod]
  have ha := (c.regs_ (rs1_field w)).isLt
  have hb := (c.regs_ (rs2_field w)).isLt
  generalize (c.regs_ (rs1_field w)).val = a at ha ⊢
  generalize (c.regs_ (rs2_field w)).val = b at hb ⊢
  generalize b % 32 = s
  have key : ∀ (val : Word) (op : AluOp), val = u32 (alu_ref op a b s) →
      (commit (c.write_rd (rd_field w) val) m npc).exn = none →
      ∃ op', some op = some op' ∧
        commit (c.write_rd (rd_field w) val) m npc =
          ⟨none,
            { pc_ := npc, regs_ := set_reg c.regs_ (rd_field w) (u32 (alu_ref op' a b s)),
              trace_ := c.trace_, csr_ := c.csr_ }, m⟩ := by
    intro val op hv _
    exact ⟨op, rfl, by rw [commit_write_rd _ _ _ _ _ h0, hv]⟩
  have hlt : get_bits w 14 12 < 8 := get_bits_lt w 14 12
  generalize get_bits w 14 12 = f3 at hlt ⊢
  generalize get_bits w 31 25 = f7
  rcases (show f7 = 0 ∨ f7 = 0x20 ∨ (f7 ≠ 0 ∧ f7 ≠ 0x20) by omega) with h | h | ⟨h1, h2⟩
  · subst h
    interval_cases f3 <;> simp only [OfNat.ofNat_ne_zero, OfNat.zero_ne_ofNat,
      OfNat.ofNat_ne_one, OfNat.one_ne_ofNat, Nat.reduceEqDiff, if_true, if_false, one_ne_zero,
      zero_ne_one, ne_eq, not_true_eq_false, not_false_eq_true]
    · exact key _ .ADD (val_add a b s)
    · exact key _ .SLL (val_sll a b s)
    · exact key _ .SLT (val_slt a b s ha hb)
    · exact key _ .SLTU (val_sltu a b s)
    · exact key _ .XOR rfl
    · exact key _ .SRL (val_srl a b s)
    · exact key _ .OR rfl
    · exact key _ .AND rfl
  · subst h
    interval_cases f3 <;> simp only [OfNat.ofNat_ne_zero, OfNat.zero_ne_ofNat,
      OfNat.ofNat_ne_one, OfNat.one_ne_ofNat, Nat.reduceEqDiff, if_true, if_false, one_ne_zero,
      zero_ne_one, ne_eq, not_true_eq_false, not_false_eq_true]
    · exact key _ .SUB (val_sub a b s hb)
    · intro h; simp at h
    · intro h; simp at h
    · intro h; simp at h
    · intro h; simp at h
    · exact key _ .SRA (val_sra a b s ha)
    · intro h; simp at h
    · intro h; simp at h
  · interval_cases f3 <;> simp only [h1, h2, OfNat.ofNat_ne_zero, OfNat.zero_ne_ofNat,
      OfNat.ofNat_ne_one, OfNat.one_ne_ofNat, Nat.reduceEqDiff, if_true, if_false, one_ne_zero,
      zero_ne_one, ne_eq, not_true_eq_false, not_false_eq_true] <;> intro h <;> simp at h

/-- C22: ALU results equal the RV32I reference on 32-bit values. In a
reachable state, when the step of a fetched word `w` with opcode `0x13` or
`0x33` completes, `w` decodes to an ALU operation of RV32I and `rd` (if
`rd != 0`) receives `alu_ref` of it on `a` = the value of `rs1`, `b` =
`sext12(w[31:20])` as a 32-bit value (opcode `0x13`) or the value of `rs2`
(opcode `0x33`), and the shift amount `s = w[24:20]` (opcode `0x13`) or
`b mod 32` (opcode `0x33`); PC becomes `(PC + 4) mod 2^32` and nothing else
changes. So `sltiu rd, rs1, -1` gives 1 for every `a != 0xFFFFFFFF`; the run
of `addi x1,x0,-8; srai x2,x1,1; sltiu x3,x1,-1; sub x4,x0,x1` gives
`0xFFFFFFF8`, `0xFFFFFFFC`, `1` and `8`. -/
theorem alu_reference (c : CPU) (hc : Reachable c) (m : Memory) (w : Nat)
    (hf : m.load32 c.pc_.val = .ok w) (hok : (c.step m).exn = none) :
    (get_bits w 6 0 = 0x13 →
      ∃ op, op_imm_decode (get_bits w 14 12) (get_bits w 31 25) = some op ∧
        c.step m =
          ⟨none,
            { pc_ := mod32 ((c.pc_.val : Int) + 4),
              regs_ := set_reg c.regs_ (rd_field w)
                (u32 (alu_ref op (c.regs_ (rs1_field w)).val (mod32 (sext12 w)).val
                  (bits w 24 20))),
              trace_ := c.trace_, csr_ := c.csr_ }, m⟩ ∧
        (rd_field w ≠ 0 →
          ((c.step m).cpu.reg (rd_field w)).val =
            alu_ref op (c.regs_ (rs1_field w)).val (mod32 (sext12 w)).val (bits w 24 20))) ∧
    (get_bits w 6 0 = 0x33 →
      ∃ op, op_decode (get_bits w 14 12) (get_bits w 31 25) = some op ∧
        c.step m =
          ⟨none,
            { pc_ := mod32 ((c.pc_.val : Int) + 4),
              regs_ := set_reg c.regs_ (rd_field w)
                (u32 (alu_ref op (c.regs_ (rs1_field w)).val (c.regs_ (rs2_field w)).val
                  ((c.regs_ (rs2_field w)).val % 32))),
              trace_ := c.trace_, csr_ := c.csr_ }, m⟩ ∧
        (rd_field w ≠ 0 →
          ((c.step m).cpu.reg (rd_field w)).val =
            alu_ref op (c.regs_ (rs1_field w)).val (c.regs_ (rs2_field w)).val
              ((c.regs_ (rs2_field w)).val % 32))) ∧
    (∀ f7, op_imm_decode 3 f7 = some AluOp.SLTU) ∧
    (∀ a s : Nat, a < 4294967296 → a ≠ 0xFFFFFFFF →
      alu_ref AluOp.SLTU a (mod32 (-1)).val s = 1) ∧
    ((run 4 CPU.new mem_alu).exn = none ∧
      (run 4 CPU.new mem_alu).cpu.reg 1 = 0xFFFFFFF8 ∧
      (run 4 CPU.new mem_alu).cpu.reg 2 = 0xFFFFFFFC ∧
      (run 4 CPU.new mem_alu).cpu.reg 3 = 1 ∧
      (run 4 CPU.new mem_alu).cpu.reg 4 = 8) := by
  have h0 := reachable_reg_zero c hc
  refine ⟨?_, ?_, ?_, ?_, by decide⟩
  · intro hop
    have he := step_eq_op_imm c m w hf hop
    rw [he] at hok
    obtain ⟨op, hd, hs⟩ := step_op_imm_eq c m w _ h0 hok
    have hst := he.trans hs
    rw [u32_add_four] at hst
    refine ⟨op, hd, hst, ?_⟩
    intro hrd
    rw [hst]
    unfold CPU.reg
    dsimp only
    rw [set_reg_same _ _ _ hrd,
      u32_val_of_lt _ (alu_ref_lt _ _ _ _ (c.regs_ _).isLt (mod32 _).isLt)]
  · intro hop
    have he := step_eq_op c m w hf hop
    rw [he] at hok
    obtain ⟨op, hd, hs⟩ := step_op_eq c m w _ h0 hok
    have hst := he.trans hs
    rw [u32_add_four] at hst
    refine ⟨op, hd, hst, ?_⟩
    intro hrd
    rw [hst]
    unfold CPU.reg
    dsimp only
    rw [set_reg_same _ _ _ hrd,
      u32_val_of_lt _ (alu_ref_lt _ _ _ _ (c.regs_ _).isLt (c.regs_ _).isLt)]
  · intro f7
    rfl
  · intro a s ha hne
    have hb : (mod32 (-1)).val = 4294967295 := by decide
    simp only [alu_ref, hb]
    rw [if_pos (by omega)]

theorem alu_reference_witness :
    Reachable CPU.new ∧ mem_alu.load32 CPU.new.pc_.val = .ok 0xFF800093 ∧
      (CPU.new.step mem_alu).exn = none ∧ get_bits 0xFF800093 6 0 = 0x13 ∧
      ((CPU.new.step mem_alu).cpu.reg 1).val = 0xFFFFFFF8 :=
  ⟨Reachable.reset _ 0, rfl, by decide, by decide, by
    obtain ⟨op, hd, _, hv⟩ :=
      (alu_reference CPU.new (Reachable.reset _ 0) mem_alu 0xFF800093 rfl (by decide)).1
        (by decide)
    have hop : op = AluOp.ADD := by
      have : op_imm_decode (get_bits 0xFF800093 14 12) (get_bits 0xFF800093 31 25) =
          some AluOp.ADD := by decide
      rw [this] at hd
      exact (Option.some.inj hd).symm
    subst hop
    exact (hv (by decide)).trans (by decide)⟩

end CPU

end rv
